import Mathlib

/-!
# SX1231 output data serializer: a shallow embedding

The library (`libsx1231_ods`) talks to the chip through `ioctl(SPI_IOC_MESSAGE(2))`.
The embedding keeps that boundary explicit:

* a `Bus` answers the `n`-th bus transfer of a run (did the `ioctl` succeed, and which
  bytes did it place in the receive buffer);
* every library function takes the number `n` of transfers performed before it is
  entered and returns its C return value together with the transfers it performed, in
  order (`Event`s: the request put on the bus and the answer of the bus);
* the three `do { ... } while (...)` polling loops and the refill loop of `rf_send`
  have no bound in the source; they take a `fuel` bound here and answer `Ret.spin`
  when it is used up.

Machine integers are naturals with explicit reductions where the C types truncate;
`size_t` has 64 bits and `int` 32.

The `float` and `double` values of `rf_config` are rationals; every `double` operation
is rounded to the nearest `double`, a tie to the even one (IEEE 754 binary64, each
operation rounded on its own), and the conversion of a floating value to an unsigned
integer type is defined only when the integral part fits the type.

The tools (`sx1231_kaku.c`, `sx1231_rts.c`) build their frames in byte arrays; an array
is a `Mem`, a function from the offset to the byte, so that a write outside the frame
would show. Their repeat loops log every call of `rf_send`.
-/

namespace SX1231

/-! ## Constants of `sx1231_enums.h` and `sx1231_ods.c` -/

def SX1231_FIFO_SIZE : Nat := 66

def RegFifo : Nat := 0x00
def RegOpMode : Nat := 0x01
def RegIrqFlags1 : Nat := 0x27
def RegIrqFlags2 : Nat := 0x28

def OP_MODE_MODE_STDBY : Int := 0x01 <<< 2
def OP_MODE_MODE_TX : Int := 0x03 <<< 2

def IRQ_FLAGS1_MODEREADY : Nat := 0x80
def IRQ_FLAGS2_FIFOLEVEL : Nat := 0x20
def IRQ_FLAGS2_PACKETSENT : Nat := 0x08

/-! ## Error codes of `sx1231_ods_error.h` -/

/-- The macro `E(CLASS, CODE, FLAGS)`. -/
def E (CLASS CODE FLAGS : Nat) : Nat :=
  ((FLAGS &&& 0x7) <<< 28) ||| ((CLASS &&& 0xffff) <<< 16) ||| (CODE &&& 0xffff)

def ERR_FLAG_ERRNO_SET : Nat := 0x1
def ERR_CLASS_GENERIC : Nat := 0x0000
def ERR_CLASS_SPI : Nat := 0x0001
def ERR_CLASS_RFM : Nat := 0x0002

def ERR_OK : Nat := 0
def ERR_UNSPEC : Nat := E ERR_CLASS_GENERIC 0x0001 0
def ERR_INVAL : Nat := E ERR_CLASS_GENERIC 0x0002 0
def ERR_SPI_IOCTL : Nat := E ERR_CLASS_SPI 0x0002 ERR_FLAG_ERRNO_SET

/-! ## The bus -/

/-- One `SPI_IOC_MESSAGE(2)` request: the address byte of `xfer[0]`, the direction of
`xfer[1]`, the bytes of its `tx_buf` (empty for a read) and its `len`. -/
structure Xfer where
  addr : Nat
  do_write : Bool
  tx : List Nat
  len : Nat
deriving DecidableEq, Repr

/-- The answer of the bus to one request: `ok` is `ioctl(...) >= 0`, `rx` the bytes it
placed in the `rx_buf` of a read. -/
structure Resp where
  ok : Bool
  rx : List Nat
deriving DecidableEq, Repr

/-- A performed transfer: the request and the answer. -/
abbrev Event := Xfer × Resp

/-- The environment: the answer to the `n`-th transfer of the run, `n` counted from 0. -/
abbrev Bus := Nat → Resp

/-- How a call ends: it returns the `int` code, or a polling loop is still running when
the fuel is used up, or an `assert` stops the program, or the call reaches an operation
whose behaviour C leaves undefined. -/
inductive Ret where
  | code (err : Nat)
  | spin
  | abort
  | undefined
deriving DecidableEq, Repr

/-- The end of a call and the transfers it performed, oldest first. -/
abbrev Out := Ret × List Event

/-- The `len` bytes a successful read finds in its buffer. -/
def rx_bytes (r : Resp) (len : Nat) : List Nat :=
  (List.range len).map (fun i => r.rx.getD i 0 % 256)

/-! ## `spi.c` -/

/-- `_spi_transfer(fd, do_write, addr, data, len)`: the return code, the buffer `data`
afterwards and the transfer performed (none when the address is refused). -/
def _spi_transfer (bus : Bus) (n : Nat) (do_write : Bool) (addr : Nat)
    (data : List Nat) (len : Nat) : Nat × List Nat × List Event :=
  if addr &&& 0x80 ≠ 0 then (ERR_INVAL, data, [])
  else
    let addr := if do_write then addr ||| 0x80 else addr
    let xfer : Xfer := ⟨addr, do_write, if do_write then data.take len else [], len⟩
    let r := bus n
    if r.ok = false then (ERR_SPI_IOCTL, data, [(xfer, r)])
    else (ERR_OK, if do_write then data else rx_bytes r len, [(xfer, r)])

/-- `spi_read_reg(fd, addr, &val)`: the return code, `val` afterwards, the transfer.
`val` is uninitialised in every caller and only read after a success; it is 0 here
until the read fills it. -/
def spi_read_reg (bus : Bus) (n : Nat) (addr : Nat) : Nat × Nat × List Event :=
  let r := _spi_transfer bus n false addr [0] 1
  (r.1, r.2.1.headD 0, r.2.2)

/-- `spi_write_reg(fd, addr, data)`; `data` is a `uint8_t`. -/
def spi_write_reg (bus : Bus) (n : Nat) (addr : Nat) (data : Nat) : Nat × List Event :=
  let r := _spi_transfer bus n true addr [data % 256] 1
  (r.1, r.2.2)

/-- `spi_write_regs(fd, addr, data, len)`. -/
def spi_write_regs (bus : Bus) (n : Nat) (addr : Nat) (data : List Nat) (len : Nat) :
    Nat × List Event :=
  let r := _spi_transfer bus n true addr data len
  (r.1, r.2.2)

/-! ## `sx1231_ods.c` -/

/-- The device handle `rf_dev_t`. -/
structure rf_dev_t where
  fd : Int
  fifo_thresh : Nat
deriving DecidableEq, Repr

/-- A call of a function of `spi.c` always returns. -/
def ret (x : Nat × List Event) : Out := (Ret.code x.1, x.2)

/-- `TRY(X); rest` inside a function whose `fail:` label returns `err`: run `X` at
transfer index `n`; a nonzero code is returned at once, and so is a call that does not
return; after a zero code `rest` runs at the next transfer index. -/
def TRY (n : Nat) (x : Nat → Out) (rest : Nat → Out) : Out :=
  match x n with
  | (Ret.code err, ev) =>
    if err ≠ 0 then (Ret.code err, ev)
    else
      let r := rest (n + ev.length)
      (r.1, ev ++ r.2)
  | (r, ev) => (r, ev)

/-- The loop `do { TRY(spi_read_reg(dev->fd, addr, &val)); } while (again(val));`.
It yields `ERR_OK` when the loop is left by its condition. -/
def poll_reg (bus : Bus) (addr : Nat) (again : Nat → Bool) : Nat → Nat → Out
  | 0, _ => (Ret.spin, [])
  | fuel + 1, n =>
    let r := spi_read_reg bus n addr
    if r.1 ≠ 0 then (Ret.code r.1, r.2.2)
    else if again r.2.1 then
      let k := poll_reg bus addr again fuel (n + r.2.2.length)
      (k.1, r.2.2 ++ k.2)
    else (Ret.code ERR_OK, r.2.2)

/-- The 32 bits of an `int` (two's complement). -/
def int_bits (x : Int) : Nat := (x % (2 ^ 32 : Int)).toNat

/-- `_switch_mode(dev, mode)`. The assertion is `(mode & ~0x1c) == 0`, with `~0x1c` the
`int` `-0x1c - 1`; the `int` argument reaches `spi_write_reg` as a `uint8_t`. -/
def _switch_mode (bus : Bus) (fuel : Nat) (mode : Int) (n : Nat) : Out :=
  if int_bits mode &&& int_bits (-0x1c - 1) ≠ 0 then (Ret.abort, [])
  else
    TRY n (fun n => ret (spi_write_reg bus n RegOpMode (mode % 256).toNat)) fun n =>
    TRY n (poll_reg bus RegIrqFlags1 (fun val => val &&& IRQ_FLAGS1_MODEREADY = 0) fuel) fun _ =>
    (Ret.code ERR_OK, [])

/-- The value of `SX1231_FIFO_SIZE - dev->fifo_thresh` once it meets the `size_t`
operand `len`: the `int` difference is converted to `size_t` (64 bits). -/
def refill_room (fifo_thresh : Nat) : Nat :=
  (((SX1231_FIFO_SIZE : Int) - (fifo_thresh : Int)) % (2 ^ 64 : Int)).toNat

/-- The loop `while (len != 0) { ... }` of `rf_send`; `data` is what is left of the
buffer, `len` its length; `send_len` is a `uint8_t`. The first argument bounds the
iterations of this loop, `fuel` those of each wait. -/
def refill_loop (bus : Bus) (fuel : Nat) (dev : rf_dev_t) : Nat → List Nat → Nat → Out
  | 0, data, _ => if data.length = 0 then (Ret.code ERR_OK, []) else (Ret.spin, [])
  | k + 1, data, n =>
    let len := data.length
    if len = 0 then (Ret.code ERR_OK, [])
    else
      TRY n (poll_reg bus RegIrqFlags2 (fun val => val &&& IRQ_FLAGS2_FIFOLEVEL ≠ 0) fuel) fun n =>
      let send_len :=
        (if len ≤ refill_room dev.fifo_thresh then len else refill_room dev.fifo_thresh) % 256
      TRY n (fun n => ret (spi_write_regs bus n RegFifo data send_len)) fun n =>
      refill_loop bus fuel dev k (data.drop send_len) n

/-- `rf_send(dev, data, len)` with `len` the length of `data`, entered after `n`
transfers; `fuel` bounds the iterations of every loop. -/
def rf_send (bus : Bus) (fuel : Nat) (dev : rf_dev_t) (data : List Nat) (n : Nat) : Out :=
  let len := data.length
  let send_len := (if len ≤ SX1231_FIFO_SIZE then len else SX1231_FIFO_SIZE) % 256
  TRY n (fun n => ret (spi_write_regs bus n RegFifo data send_len)) fun n =>
  let data := data.drop send_len
  TRY n (_switch_mode bus fuel OP_MODE_MODE_TX) fun n =>
  TRY n (refill_loop bus fuel dev fuel data) fun n =>
  TRY n (poll_reg bus RegIrqFlags2 (fun val => val &&& IRQ_FLAGS2_PACKETSENT = 0) fuel) fun n =>
  TRY n (_switch_mode bus fuel OP_MODE_MODE_STDBY) fun _ =>
  (Ret.code ERR_OK, [])

/-! ## Reading a trace -/

/-- The request is a write of `tx` to register `reg`. -/
def Xfer.is_write (x : Xfer) (reg : Nat) : Bool :=
  x.do_write && x.addr == (reg ||| 0x80)

/-- The request is a one-byte read of register `reg`. -/
def Xfer.is_read (x : Xfer) (reg : Nat) : Bool :=
  !x.do_write && x.addr == reg && x.len == 1

/-- The byte sequences written to the FIFO register, in the order written. -/
def fifo_writes (ev : List Event) : List (List Nat) :=
  ev.filterMap fun e => if e.1.is_write RegFifo then some e.1.tx else none

/-- The status byte a one-byte read returned. -/
def Resp.val (r : Resp) : Nat := r.rx.getD 0 0 % 256

/-- A bus on which every transfer succeeds and every status read returns `v`. -/
def const_bus (v : Nat) : Bus := fun _ => ⟨true, [v]⟩

/-- A bus on which the transfer of index `k` fails and every other one succeeds, every
status read returning `v`. -/
def failing_bus (k v : Nat) : Bus := fun m => ⟨m != k, [v]⟩

/-! ## Predicates on runs -/

/-- A failed transfer is the last one of the call, and the call returns the error of
the transport. -/
def FailStop (o : Out) : Prop :=
  ∀ i e, o.2[i]? = some e → e.2.ok = false →
    i + 1 = o.2.length ∧ o.1 = Ret.code ERR_SPI_IOCTL


/-- The call returns `ERR_OK` with the same transfers for every large enough fuel. -/
def Settles (f : Nat → Out) : Prop :=
  ∃ N ev, ∀ fuel, N ≤ fuel → f fuel = (Ret.code 0, ev)

/-- The chip of a run that makes progress: every transfer succeeds, and from every point
of the run on, a poll that is repeated long enough is answered with the mode-ready flag
set, with the FIFO-level flag clear, and with the packet-sent flag set. -/
structure Responsive (bus : Bus) : Prop where
  ok : ∀ m, (bus m).ok = true
  mode_ready : ∀ n, ∃ m, n ≤ m ∧ (bus m).val &&& IRQ_FLAGS1_MODEREADY ≠ 0
  fifo_level : ∀ n, ∃ m, n ≤ m ∧ (bus m).val &&& IRQ_FLAGS2_FIFOLEVEL = 0
  packet_sent : ∀ n, ∃ m, n ≤ m ∧ (bus m).val &&& IRQ_FLAGS2_PACKETSENT ≠ 0

/-- Two consecutive transfers `a`, `b` respect the refill protocol: if `b` is a write to
the FIFO register, `a` is a successful read of IrqFlags2 whose FIFO-level bit is clear. -/
def Guarded (a b : Event) : Prop :=
  b.1.is_write RegFifo = true →
    a.1.is_read RegIrqFlags2 = true ∧ a.2.ok = true ∧ a.2.val &&& IRQ_FLAGS2_FIFOLEVEL = 0

/-- A stretch of transfers that respects the refill protocol and does not start with a
write to the FIFO register. -/
def Inner (l : List Event) : Prop :=
  List.Chain' Guarded l ∧ ∀ e, l.head? = some e → e.1.is_write RegFifo = false

/-! ## Buffers of the tools -/

/-- Byte memory addressed from the start of an array: `m i` is the byte at offset `i`. -/
abbrev Mem := Nat → Nat

/-- The assignment `m[i] = v`. -/
def store (m : Mem) (i v : Nat) : Mem := fun j => if j = i then v else m j

/-- The first `len` bytes of an array, as handed to `rf_send(dev, array, len)`. -/
def bytes_of (m : Mem) (len : Nat) : List Nat := (List.range len).map m

/-- The value of `b & 0x80` after `s` executions of `b <<= 1` on the `uint8_t b`. -/
def msb_at : Nat → Nat → Bool
  | 0, b => b &&& 0x80 != 0
  | s + 1, b => msb_at s ((b <<< 1) % 256)

/-- The loop `for (i = 0; i < cnt; i++) { ret = rf_send(dev, frame, len); if (ret !=
ERR_OK) return ret; nanosleep(...); } return ERR_OK;` shared by `kaku_send` and
`sx1231_rts_send`. It yields the end of the call and its transfers, and the log of the
calls of `rf_send`: the frame passed and how the call ended. -/
def send_loop (bus : Bus) (fuel : Nat) (dev : rf_dev_t) (frame : List Nat) :
    Nat → Nat → Out × List (List Nat × Ret)
  | 0, _ => ((Ret.code ERR_OK, []), [])
  | cnt + 1, n =>
    let o := rf_send bus fuel dev frame n
    if o.1 ≠ Ret.code ERR_OK then (o, [(frame, o.1)])
    else
      let r := send_loop bus fuel dev frame cnt (n + o.2.length)
      ((r.1.1, o.2 ++ r.1.2), (frame, o.1) :: r.2)

/-! ## `sx1231_kaku.c` -/

def KAKU_DATA_SYMBOLS_PER_FRAME : Nat := 32
def KAKU_IVALS_PER_SYMBOL : Nat := 7
def KAKU_PREAMBLE_IVALS : Nat := 9
def KAKU_DATA_IVALS : Nat := KAKU_IVALS_PER_SYMBOL * KAKU_DATA_SYMBOLS_PER_FRAME
def KAKU_END_IVALS : Nat := 1
def KAKU_FRAME_IVALS : Nat := KAKU_PREAMBLE_IVALS + KAKU_DATA_IVALS + KAKU_END_IVALS
def KAKU_FRAME_REPEAT : Nat := 4

/-- The body of the `while (i > 0)` loop of `encode_kaku`, `i` iterations of it: the
memory, the pointer `enc_data` and the `uint8_t b`. -/
def encode_kaku_loop : Nat → Mem → Nat → Nat → Mem × Nat
  | 0, m, enc_data, _ => (m, enc_data)
  | i + 1, m, enc_data, b =>
    let m :=
      if b &&& 0x80 ≠ 0 then
        store (store (store (store (store (store (store m
          (enc_data + 0) 0xff) (enc_data + 1) 0x00) (enc_data + 2) 0x00)
          (enc_data + 3) 0x00) (enc_data + 4) 0x00) (enc_data + 5) 0xff) (enc_data + 6) 0x00
      else
        store (store (store (store (store (store (store m
          (enc_data + 0) 0xff) (enc_data + 1) 0x00) (enc_data + 2) 0xff)
          (enc_data + 3) 0x00) (enc_data + 4) 0x00) (enc_data + 5) 0x00) (enc_data + 6) 0x00
    encode_kaku_loop i m (enc_data + 7) ((b <<< 1) % 256)

/-- `encode_kaku(enc_data, b)`: the memory afterwards and the returned pointer. -/
def encode_kaku (m : Mem) (enc_data : Nat) (b : Nat) : Mem × Nat :=
  encode_kaku_loop 8 m enc_data b

/-- The array `frame_buf` of `kaku_send` when the repeat loop is reached; `data[i]` is
`data.getD i 0`. -/
def kaku_frame_mem (data : List Nat) : Mem :=
  let m : Mem := fun _ => 0
  let frame_head := 0
  let m := store m frame_head 0xff
  let frame_head := frame_head + KAKU_PREAMBLE_IVALS
  let r := encode_kaku m frame_head (data.getD 0 0)
  let r := encode_kaku r.1 r.2 (data.getD 1 0)
  let r := encode_kaku r.1 r.2 (data.getD 2 0)
  let r := encode_kaku r.1 r.2 (data.getD 3 0)
  store r.1 r.2 0xff

/-- The frame `kaku_send` passes to `rf_send`: `frame_buf` with `sizeof(frame_buf)`. -/
def kaku_frame (data : List Nat) : List Nat :=
  bytes_of (kaku_frame_mem data) KAKU_FRAME_IVALS

/-- `kaku_send(dev, data)`. -/
def kaku_send (bus : Bus) (fuel : Nat) (dev : rf_dev_t) (data : List Nat) (n : Nat) :
    Out × List (List Nat × Ret) :=
  send_loop bus fuel dev (kaku_frame data) KAKU_FRAME_REPEAT n

/-- The seven waveform bytes of one data bit, as `encode_kaku` writes them. -/
def kaku_symbol (bit : Bool) : List Nat :=
  if bit then [0xff, 0x00, 0x00, 0x00, 0x00, 0xff, 0x00]
  else [0xff, 0x00, 0xff, 0x00, 0x00, 0x00, 0x00]

/-! ## `sx1231_rts.c` -/

def bRts_MaxFrameSize_c : Nat := 23
def bRts_PreambleSize_c : Nat := 9

/-- The initial contents of the global `abRts_FrameArray`. -/
def abRts_FrameArray : Mem := fun i =>
  [0x01, 0xe1, 0xe1, 0xe1, 0xe1, 0xe1, 0xe1, 0xe1,
   0xfe,
   0x00, 0x00, 0x00, 0x00, 0x00, 0x00, 0x00,
   0x00, 0x00, 0x00, 0x00, 0x00, 0x00, 0x00].getD i 0

/-- The body of the `while (i > 0)` loop of `encode_rts`, for the values `i`, ..., 1 of
its counter. The array holds `uint8_t`, so the shifted value is stored modulo 256. -/
def encode_rts_loop : Nat → Mem → Nat → Nat → Mem × Nat
  | 0, m, enc_data, _ => (m, enc_data)
  | i + 1, m, enc_data, b =>
    let m := store m enc_data ((m enc_data <<< 2) % 256)
    let m :=
      if b &&& 0x80 ≠ 0 then store m enc_data (m enc_data ||| 0x01)
      else store m enc_data (m enc_data ||| 0x02)
    let b := (b <<< 1) % 256
    let enc_data := if i + 1 = 5 then enc_data + 1 else enc_data
    encode_rts_loop i m enc_data b

/-- `encode_rts(enc_data, b)`: the memory afterwards and the returned pointer. -/
def encode_rts (m : Mem) (enc_data : Nat) (b : Nat) : Mem × Nat :=
  let r := encode_rts_loop 8 m enc_data b
  (r.1, r.2 + 1)

/-- The loop `for (i = 0; i < 7; i++) pbFrameHead = encode_rts(pbFrameHead, data[i]);`
run for the indices `i`, ..., 6. -/
def rts_encode_from (data : List Nat) : Nat → Nat → Mem → Nat → Mem × Nat
  | 0, _, m, head => (m, head)
  | k + 1, i, m, head =>
    let r := encode_rts m head (data.getD i 0)
    rts_encode_from data k (i + 1) r.1 r.2

/-- The encoding part of `sx1231_rts_send`: the global array afterwards and the final
`pbFrameHead`, from the contents `g` of the global array at entry. -/
def rts_encode (g : Mem) (data : List Nat) : Mem × Nat :=
  rts_encode_from data 7 0 g bRts_PreambleSize_c

/-- The frame `sx1231_rts_send` passes to `rf_send`: the global array with
`bRts_MaxFrameSize_c`. -/
def rts_frame (g : Mem) (data : List Nat) : List Nat :=
  bytes_of (rts_encode g data).1 bRts_MaxFrameSize_c

/-- `sx1231_rts_send(sdev, data, long_press)` entered with the global array holding
`g`: the end of the call with its transfers, the log of the calls of `rf_send`, and the
global array afterwards. -/
def sx1231_rts_send (bus : Bus) (fuel : Nat) (g : Mem) (dev : rf_dev_t) (data : List Nat)
    (long_press : Bool) (n : Nat) : (Out × List (List Nat × Ret)) × Mem :=
  let frame_cnt := if long_press then 200 else 4
  let g := (rts_encode g data).1
  (send_loop bus fuel dev (bytes_of g bRts_MaxFrameSize_c) frame_cnt n, g)

/-- The contents of the global array after earlier calls of `sx1231_rts_send` with the
payloads `prev`, oldest first. -/
def rts_state (prev : List (List Nat)) : Mem :=
  prev.foldl (fun g d => (rts_encode g d).1) abRts_FrameArray

/-- The two-bit symbol `encode_rts` shifts in for a data bit: `|= 0x01` when `b & 0x80`
is set, `|= 0x02` otherwise. -/
def rts_symbol_of (bit : Bool) : Nat := if bit then 0x01 else 0x02

/-- The `k`-th two-bit symbol of the expansion of `data[i]` in a frame, `k = 0` being the
top two bits of `frame[9 + 2i]` and `k = 7` the bottom two bits of `frame[10 + 2i]`. -/
def rts_symbol (frame : List Nat) (i k : Nat) : Nat :=
  (frame.getD (9 + 2 * i + k / 4) 0 >>> (6 - 2 * (k % 4))) &&& 3

/-- One pass of the loop body of `encode_rts` on the byte under the pointer: the stored
byte `v` is shifted left by two, as a `uint8_t`, and the symbol of the bit is ORed in. -/
def shift_in (v : Nat) (bit : Bool) : Nat := ((v <<< 2) % 256) ||| rts_symbol_of bit

/-- The first frame byte of the expansion of the payload byte `b`: the symbols of its
first four tested bits, the first one in the top two bits. -/
def rts_hi (b : Nat) : Nat :=
  64 * rts_symbol_of (msb_at 0 b) + 16 * rts_symbol_of (msb_at 1 b) +
    4 * rts_symbol_of (msb_at 2 b) + rts_symbol_of (msb_at 3 b)

/-- The second frame byte of the expansion of the payload byte `b`: the symbols of its
last four tested bits. -/
def rts_lo (b : Nat) : Nat :=
  64 * rts_symbol_of (msb_at 4 b) + 16 * rts_symbol_of (msb_at 5 b) +
    4 * rts_symbol_of (msb_at 6 b) + rts_symbol_of (msb_at 7 b)

/-! ## More constants of `sx1231_enums.h`, `sx1231_ods.h` and `sx1231_ods_error.h` -/

def SX1231_VERSION : Nat := 0x20
def SX1231_VERSION_MASK : Nat := 0xF0

def RegDataModul : Nat := 0x02
def RegBitrateMsb : Nat := 0x03
def RegVersion : Nat := 0x10
def RegPaLevel : Nat := 0x11
def RegDioMapping2 : Nat := 0x26
def RegPreambleMsb : Nat := 0x2C
def RegPreambleLsb : Nat := 0x2D
def RegSyncConfig : Nat := 0x2E
def RegPacketConfig1 : Nat := 0x37
def RegPayloadLength : Nat := 0x38
def RegFifoThresh : Nat := 0x3C

def OP_MODE_MODE_SLEEP : Int := 0x00
def OP_MODE_MODE_FS : Int := 0x02 <<< 2
def OP_MODE_MODE_RX : Int := 0x04 <<< 2

def SX1231_MODULATION_FSK : Int := 0
def SX1231_MODULATION_OOK : Int := 1

def ERR_SPI_OPEN_DEV : Nat := E ERR_CLASS_SPI 0x0001 ERR_FLAG_ERRNO_SET
def ERR_RFM_CHIP_VERSION : Nat := E ERR_CLASS_RFM 0x0001 0

/-! ## `spi.c`, the burst read -/

/-- `spi_read_regs(fd, addr, data, len)`: the return code, the buffer afterwards, the
transfer. -/
def spi_read_regs (bus : Bus) (n : Nat) (addr : Nat) (data : List Nat) (len : Nat) :
    Nat × List Nat × List Event :=
  _spi_transfer bus n false addr data len

/-! ## `sx1231_ods.c`: power amplifier, configuration, open -/

/-- `rf_set_pa(dev, level, pa1_on)`; `level` and `val` are `uint8_t`. -/
def rf_set_pa (bus : Bus) (_dev : rf_dev_t) (level : Nat) (pa1_on : Bool) (n : Nat) : Out :=
  let val := 0
  let r : Nat × Nat :=
    if pa1_on then
      let val := val ||| 0x40
      if level > 0x1f then (val ||| 0x20, (level + 256 - 4) % 256) else (val, level)
    else (val ||| 0x80, level)
  let val := r.1
  let level := r.2
  if level > 0x1f then (Ret.code ERR_INVAL, [])
  else
    let val := val ||| level
    ret (spi_write_reg bus n RegPaLevel val)

/-- `_reset(dev)`: the body is a TODO, it returns `ERR_OK`. -/
def _reset (_dev : rf_dev_t) : Out := (Ret.code ERR_OK, [])

/-- `SX1231_FXOSC`, `32.0 * 1e6`: the `double` 32000000. -/
def SX1231_FXOSC : ℚ := 32.0 * 1e6

/-- `SX1231_FSTEP`, `SX1231_FXOSC / 0x80000`: the `double` 61.03515625, the quotient
being exact. -/
def SX1231_FSTEP : ℚ := SX1231_FXOSC / 0x80000

/-- The nearest integer, a tie going to the even one. -/
def round_even (r : ℚ) : Int :=
  if r - ⌊r⌋ < 1 / 2 then ⌊r⌋
  else if 1 / 2 < r - ⌊r⌋ then ⌊r⌋ + 1
  else if ⌊r⌋ % 2 = 0 then ⌊r⌋ else ⌊r⌋ + 1

/-- The spacing of the values of a binary floating-point format around `x`: the format has
`p` significand bits and `2^qmin` is its least positive (subnormal) value. -/
def fp_quantum (p : Nat) (qmin : Int) (x : ℚ) : ℚ :=
  2 ^ max (Int.log 2 |x| - ((p : Int) - 1)) qmin

/-- The value of the format nearest to `x`, a tie going to the even significand;
`none` is an infinity: the rounded magnitude reaches `2^emax`. -/
def fp_round (p : Nat) (qmin emax : Int) (x : ℚ) : Option ℚ :=
  let r := round_even (x / fp_quantum p qmin x) * fp_quantum p qmin x
  if |r| < 2 ^ emax then some r else none

/-- Rounding to `double` (IEEE 754 binary64). -/
def to_double (x : ℚ) : Option ℚ := fp_round 53 (-1074) 1024 x

/-- Rounding to `float` (IEEE 754 binary32); `to_float x = some x` says that `x` is the
value of a finite `float`. -/
def to_float (x : ℚ) : Option ℚ := fp_round 24 (-149) 128 x

/-- The integral part of a rational, the fraction discarded (truncation toward zero). -/
def trunc (x : ℚ) : Int := x.num.tdiv x.den

/-- The conversion of a finite floating value to an unsigned integer type of `w` bits:
the fractional part is discarded; `none` when the integral part is not a value of the
type, where C leaves the behaviour undefined. -/
def to_uint (w : Nat) (x : ℚ) : Option Nat :=
  if 0 ≤ trunc x ∧ trunc x < 2 ^ w then some (trunc x).toNat else none

/-- `uint32_t reg_freq = ((freq_mhz * 1e6) / SX1231_FSTEP);` with `freq_mhz` the value
of the `float` argument: the product and the quotient are `double` operations; an
infinite product gives an infinite quotient, which has no conversion. -/
def reg_freq (freq_mhz : ℚ) : Option Nat :=
  (to_double (freq_mhz * 1e6)).bind fun p =>
  (to_double (p / SX1231_FSTEP)).bind fun q => to_uint 32 q

/-- `uint16_t reg_fdev = ((fdev_khz * 1e3) / SX1231_FSTEP);` -/
def reg_fdev (fdev_khz : ℚ) : Option Nat :=
  (to_double (fdev_khz * 1e3)).bind fun p =>
  (to_double (p / SX1231_FSTEP)).bind fun q => to_uint 16 q

/-- `uint16_t reg_bitrate = SX1231_FXOSC / (data_rate_kbps * 1000);` with
`data_rate_kbps` the value of the `double` argument. An infinite product makes the
quotient a zero; a zero product makes it infinite, which has no conversion. -/
def reg_bitrate (data_rate_kbps : ℚ) : Option Nat :=
  match to_double (data_rate_kbps * 1000) with
  | none => some 0
  | some y =>
    if y = 0 then none
    else (to_double (SX1231_FXOSC / y)).bind fun q => to_uint 16 q

/-- The array `buf` of `rf_config` once its seven `uint8_t` elements are assigned. -/
def config_buf (reg_bitrate reg_fdev reg_freq : Nat) : List Nat :=
  [(reg_bitrate >>> 8) % 256,
   reg_bitrate % 256,
   ((reg_fdev >>> 8) &&& 0x3f) % 256,
   reg_fdev % 256,
   (reg_freq >>> 16) % 256,
   (reg_freq >>> 8) % 256,
   reg_freq % 256]

/-- `rf_config(dev, freq_mhz, fdev_khz, modulation, data_rate_kbps)`, the floating
arguments given by their values. `WITH_PA1_DEFAULT` says whether the macro of that name
(from `config.h`) is defined. The call ends as `Ret.undefined` when one of the three
register values has no conversion. -/
def rf_config (bus : Bus) (fuel : Nat) (dev : rf_dev_t) (freq_mhz fdev_khz : ℚ)
    (modulation : Int) (data_rate_kbps : ℚ) (WITH_PA1_DEFAULT : Bool) (n : Nat) : Out :=
  TRY n (fun _ => _reset dev) fun n =>
  match reg_freq freq_mhz, reg_fdev fdev_khz, reg_bitrate data_rate_kbps with
  | some freq, some fdev, some bitrate =>
    let buf := config_buf bitrate fdev freq
    TRY n (fun n => ret (spi_write_regs bus n RegBitrateMsb buf (2 + 2 + 3))) fun n =>
    TRY n (fun n =>
      if modulation = SX1231_MODULATION_OOK then ret (spi_write_reg bus n RegDataModul 0x08)
      else ret (spi_write_reg bus n RegDataModul 0x00)) fun n =>
    TRY n (fun n => ret (spi_write_reg bus n RegDioMapping2 0x07)) fun n =>
    TRY n (fun n => ret (spi_write_reg bus n RegPreambleMsb 0x00)) fun n =>
    TRY n (fun n => ret (spi_write_reg bus n RegPreambleLsb 0x00)) fun n =>
    TRY n (fun n => ret (spi_write_reg bus n RegSyncConfig 0x18)) fun n =>
    TRY n (fun n => ret (spi_write_reg bus n RegPacketConfig1 0x00)) fun n =>
    TRY n (fun n => ret (spi_write_reg bus n RegPayloadLength 0x00)) fun n =>
    TRY n (fun n => ret (spi_write_reg bus n RegFifoThresh 0x8f)) fun n =>
    TRY n (rf_set_pa bus dev 0x1f WITH_PA1_DEFAULT) fun n =>
    TRY n (_switch_mode bus fuel OP_MODE_MODE_STDBY) fun _ =>
    (Ret.code ERR_OK, [])
  | _, _, _ => (Ret.undefined, [])

/-- `rf_close(dev)`. -/
def rf_close (dev : rf_dev_t) : rf_dev_t := { dev with fd := -1 }

/-- `_sync_config(dev)`: the return code, the transfer and the device afterwards. A
failed read leaves `dev->fifo_thresh` as it was. -/
def _sync_config (bus : Bus) (dev : rf_dev_t) (n : Nat) : Out × rf_dev_t :=
  let r := spi_read_reg bus n RegFifoThresh
  if r.1 ≠ 0 then ((Ret.code r.1, r.2.2), dev)
  else ((Ret.code ERR_OK, r.2.2), { dev with fifo_thresh := r.2.1 &&& 0x7f })

/-- `rf_open(dev, spi_path)`, with `fd` the value `open(spi_path, O_RDWR)` returns: the
return code, the transfers and the device afterwards. -/
def rf_open (bus : Bus) (fd : Int) (dev : rf_dev_t) (n : Nat) : Out × rf_dev_t :=
  if fd = -1 then ((Ret.code ERR_SPI_OPEN_DEV, []), dev)
  else
    let dev := { dev with fd := fd }
    let r := spi_read_reg bus n RegVersion
    if r.1 ≠ 0 then ((Ret.code r.1, r.2.2), rf_close dev)
    else if r.2.1 &&& SX1231_VERSION_MASK ≠ SX1231_VERSION then
      ((Ret.code ERR_RFM_CHIP_VERSION, r.2.2), rf_close dev)
    else
      let s := _sync_config bus dev (n + r.2.2.length)
      if s.1.1 ≠ Ret.code 0 then ((s.1.1, r.2.2 ++ s.1.2), rf_close s.2)
      else ((Ret.code ERR_OK, r.2.2 ++ s.1.2), s.2)

/-! ## A register model of the chip -/

/-- The configuration registers after a successful write: a burst at a register other
than the FIFO stores its bytes at consecutive addresses. -/
def chip_write (regs : Nat → Nat) (x : Xfer) : Nat → Nat := fun r =>
  let a := x.addr &&& 0x7f
  if a ≠ RegFifo ∧ a ≤ r ∧ r < a + x.tx.length then x.tx.getD (r - a) 0 else regs r

/-- The configuration registers after the transfers `ev`, from the contents `init`. -/
def regs_after (init : Nat → Nat) (ev : List Event) : Nat → Nat :=
  ev.foldl (fun regs e => if e.2.ok && e.1.do_write then chip_write regs e.1 else regs) init

/-- Every successful one-byte read of `ev` returned the value its register held then: the
last value written to it, or the one of `init`. -/
def reads_consistent (init : Nat → Nat) : List Event → Bool
  | [] => true
  | e :: ev =>
    (if e.2.ok && !e.1.do_write && e.1.len == 1 then e.2.val == init e.1.addr else true) &&
      reads_consistent (if e.2.ok && e.1.do_write then chip_write init e.1 else init) ev

/-- A bus that answers the transfers with the bytes of a list, in order, all of them
succeeding; 0 once the list is used up. -/
def script_bus (vals : List Nat) : Bus := fun m => ⟨true, [vals.getD m 0]⟩

/-- The byte C12 names for an accepted power setting: `0x80 | level` for the primary
bank, `0x40 | level` for the secondary bank up to level 31, `0x60 | (level - 4)` above. -/
def spec_pa_byte (level : Nat) (pa1_on : Bool) : Nat :=
  if pa1_on then (if level ≤ 31 then 0x40 ||| level else 0x60 ||| (level - 4))
  else 0x80 ||| level

/-- The power setting read back from the byte of the PA-level register: the bank and the
level. -/
def pa_decode (v : Nat) : Nat × Bool :=
  if v &&& 0x80 ≠ 0 then (v &&& 0x1f, false)
  else if v &&& 0x20 ≠ 0 then ((v &&& 0x1f) + 4, true)
  else (v &&& 0x1f, true)

/-- The value of a byte sequence read most-significant byte first. -/
def read_be (l : List Nat) : Nat := l.foldl (fun acc x => acc * 256 + x) 0

/-- The sequence of register writes C15 names, as requests on the bus: the address byte
is the register with the write bit 0x80. -/
def config_requests (buf : List Nat) (modulation : Int) : List Xfer :=
  [⟨0x03 ||| 0x80, true, buf, 7⟩,
   ⟨0x02 ||| 0x80, true, [if modulation = 1 then 0x08 else 0x00], 1⟩,
   ⟨0x26 ||| 0x80, true, [0x07], 1⟩,
   ⟨0x2C ||| 0x80, true, [0x00], 1⟩,
   ⟨0x2D ||| 0x80, true, [0x00], 1⟩,
   ⟨0x2E ||| 0x80, true, [0x18], 1⟩,
   ⟨0x37 ||| 0x80, true, [0x00], 1⟩,
   ⟨0x38 ||| 0x80, true, [0x00], 1⟩,
   ⟨0x3C ||| 0x80, true, [0x8F], 1⟩,
   ⟨0x11 ||| 0x80, true, [0x9F], 1⟩,
   ⟨0x01 ||| 0x80, true, [0x04], 1⟩]

/-- The step `x` of a function is one transfer with the request `q`, and its code is
that of the transfer. -/
def IsSingle (bus : Bus) (x : Nat → Out) (q : Xfer) : Prop :=
  ∀ n, x n = (Ret.code (if (bus n).ok = true then 0 else ERR_SPI_IOCTL), [(q, bus n)])

/-- A chip found configured by an earlier user: version 0x24, FIFO-threshold register
0x05, mode-ready flag shown; every other register 0. -/
def stale_chip : Nat → Nat := fun r =>
  if r = RegVersion then 0x24 else if r = RegFifoThresh then 0x05
  else if r = RegIrqFlags1 then 0x80 else 0

/-- The answers of `stale_chip` to `rf_open` followed by `rf_config`: the two reads of
`rf_open`, the eleven writes of `rf_config`, the mode-ready poll. -/
def stale_bus : Bus :=
  script_bus ([0x24, 0x05] ++ List.replicate 11 0 ++ [0x80])

/-- The transfer `e` does not write the configuration register `r`: it is a read, a write
to the FIFO, or a burst that ends before `r` or starts after it. -/
def Untouched (r : Nat) (e : Event) : Prop :=
  e.1.do_write = true →
    e.1.addr &&& 0x7f = RegFifo ∨ r < (e.1.addr &&& 0x7f) ∨
      (e.1.addr &&& 0x7f) + e.1.tx.length ≤ r

/-! ## The payload of the rolling-code frame -/

/-- The 14 payload bytes of the rolling-code frame as a function of the data alone: the
two bytes of the expansion of each data byte, in order. -/
def rts_payload (data : List Nat) : List Nat :=
  (List.range 14).map fun j =>
    if j % 2 = 0 then rts_hi (data.getD (j / 2) 0) else rts_lo (data.getD (j / 2) 0)

/-- The data byte read back from the two frame bytes of its expansion: a symbol 01 is a
set bit, the first symbol is bit 7. -/
def rts_decode_byte (hi lo : Nat) : Nat :=
  (if (hi >>> 6) &&& 3 = 1 then 0x80 else 0) + (if (hi >>> 4) &&& 3 = 1 then 0x40 else 0) +
  (if (hi >>> 2) &&& 3 = 1 then 0x20 else 0) + (if hi &&& 3 = 1 then 0x10 else 0) +
  (if (lo >>> 6) &&& 3 = 1 then 0x08 else 0) + (if (lo >>> 4) &&& 3 = 1 then 0x04 else 0) +
  (if (lo >>> 2) &&& 3 = 1 then 0x02 else 0) + (if lo &&& 3 = 1 then 0x01 else 0)

/-- The seven data bytes read back from the 14 payload bytes. -/
def rts_decode (payload : List Nat) : List Nat :=
  (List.range 7).map fun i =>
    rts_decode_byte (payload.getD (2 * i) 0) (payload.getD (2 * i + 1) 0)

/-! ## `sx1231_raw.c` -/

/-- `reverse_byte(b)`; `b` is a `uint8_t`. -/
def reverse_byte (b : Nat) : Nat :=
  let b := (((b &&& 0xaa) >>> 1) ||| ((b &&& 0x55) <<< 1)) % 256
  let b := (((b &&& 0xcc) >>> 2) ||| ((b &&& 0x33) <<< 2)) % 256
  let b := (((b &&& 0xf0) >>> 4) ||| ((b &&& 0x0f) <<< 4)) % 256
  b

/-! ## The error macros of `sx1231_ods_error.h` -/

/-- The macro `ERROR_ERRNO_VALID(x)`. -/
def ERROR_ERRNO_VALID (x : Nat) : Bool := x &&& 0x40000000 != 0

/-- The macro `ERROR_CLASS(x)`. -/
def ERROR_CLASS (x : Nat) : Nat := (x &&& 0x0fff0000) >>> 16

/-- The macro `ERROR_CODE(x)`. -/
def ERROR_CODE (x : Nat) : Nat := x &&& 0xffff

def ERR_RANGE : Nat := E ERR_CLASS_GENERIC 0x0003 0
def ERR_RFM_TX_OUT_OF_SYNC : Nat := E ERR_CLASS_RFM 0x0002 0

/-! ## Basic facts about the transfers of `spi.c` -/

theorem ERR_SPI_IOCTL_ne_zero : ERR_SPI_IOCTL ≠ 0 := by decide

theorem spi_write_regs_fifo (bus : Bus) (n : Nat) (data : List Nat) (len : Nat) :
    spi_write_regs bus n RegFifo data len =
      (if (bus n).ok = true then ERR_OK else ERR_SPI_IOCTL,
        [(⟨0x80, true, data.take len, len⟩, bus n)]) := by
  unfold spi_write_regs _spi_transfer
  cases h : (bus n).ok <;> simp [RegFifo, h]

theorem spi_write_reg_opmode (bus : Bus) (n : Nat) (v : Nat) :
    spi_write_reg bus n RegOpMode v =
      (if (bus n).ok = true then ERR_OK else ERR_SPI_IOCTL,
        [(⟨0x81, true, [v % 256], 1⟩, bus n)]) := by
  unfold spi_write_reg _spi_transfer
  cases h : (bus n).ok <;> simp [RegOpMode, h]

theorem spi_read_reg_low (bus : Bus) (n : Nat) (addr : Nat) (ha : addr &&& 0x80 = 0) :
    spi_read_reg bus n addr =
      (if (bus n).ok = true then ERR_OK else ERR_SPI_IOCTL,
        if (bus n).ok = true then (bus n).val else 0,
        [(⟨addr, false, [], 1⟩, bus n)]) := by
  unfold spi_read_reg _spi_transfer
  cases h : (bus n).ok <;> simp [ha, h, rx_bytes, Resp.val, List.range_succ]

/-! ## Sequencing -/

theorem TRY_ok (n : Nat) (x rest : Nat → Out) (h : (x n).1 = Ret.code 0) :
    TRY n x rest =
      ((rest (n + (x n).2.length)).1, (x n).2 ++ (rest (n + (x n).2.length)).2) := by
  unfold TRY
  rcases hx : x n with ⟨r, ev⟩
  rw [hx] at h
  simp only at h
  subst h
  simp

theorem TRY_stop (n : Nat) (x rest : Nat → Out) (h : (x n).1 ≠ Ret.code 0) :
    TRY n x rest = x n := by
  unfold TRY
  rcases hx : x n with ⟨r, ev⟩
  rw [hx] at h
  cases r with
  | code err =>
    have : err ≠ 0 := fun h0 => h (by simp [h0])
    simp [this]
  | spin => rfl
  | abort => rfl
  | undefined => rfl

/-! ## Fail-stop discipline -/

theorem FailStop_TRY (n : Nat) (x rest : Nat → Out) (hx : FailStop (x n))
    (hr : ∀ m, FailStop (rest m)) : FailStop (TRY n x rest) := by
  by_cases h : (x n).1 = Ret.code 0
  · rw [TRY_ok n x rest h]
    intro i e hi hf
    simp only [List.getElem?_append] at hi
    split at hi
    · have := (hx i e hi hf).2
      rw [h] at this
      exact absurd (by injection this) (Ne.symm ERR_SPI_IOCTL_ne_zero)
    · have := hr _ _ e hi hf
      simp only [List.length_append]
      exact ⟨by omega, this.2⟩
  · rw [TRY_stop n x rest h]
    exact hx

theorem FailStop_single (bus : Bus) (n : Nat) (x : Xfer) :
    FailStop (Ret.code (if (bus n).ok = true then ERR_OK else ERR_SPI_IOCTL), [(x, bus n)]) := by
  intro i e hi hf
  cases i with
  | zero =>
    simp only [List.getElem?_cons_zero, Option.some.injEq] at hi
    subst hi
    simp only at hf
    simp [hf]
  | succ j => simp at hi

theorem FailStop_nil (r : Ret) : FailStop (r, []) := by
  intro i e hi
  simp at hi

theorem FailStop_poll (bus : Bus) (addr : Nat) (again : Nat → Bool) (ha : addr &&& 0x80 = 0)
    (fuel n : Nat) : FailStop (poll_reg bus addr again fuel n) := by
  induction fuel generalizing n with
  | zero => exact FailStop_nil _
  | succ f ih =>
    unfold poll_reg
    rw [spi_read_reg_low bus n addr ha]
    cases hok : (bus n).ok
    · simpa [hok, ERR_SPI_IOCTL_ne_zero] using FailStop_single bus n ⟨addr, false, [], 1⟩
    · simp only [↓reduceIte, ERR_OK, ne_eq, not_true_eq_false, List.length_singleton]
      split
      · intro i e hi hf
        cases i with
        | zero =>
          simp only [List.singleton_append, List.getElem?_cons_zero, Option.some.injEq] at hi
          subst hi
          simp [hok] at hf
        | succ j =>
          simp only [List.singleton_append, List.getElem?_cons_succ] at hi
          have := ih (n + 1) j e hi hf
          simp only [List.singleton_append, List.length_cons]
          exact ⟨by omega, this.2⟩
      · simpa [hok, ERR_OK] using FailStop_single bus n ⟨addr, false, [], 1⟩

theorem FailStop_switch_mode (bus : Bus) (fuel : Nat) (mode : Int) (n : Nat) :
    FailStop (_switch_mode bus fuel mode n) := by
  unfold _switch_mode
  split
  · exact FailStop_nil _
  · apply FailStop_TRY
    · rw [spi_write_reg_opmode]
      exact FailStop_single bus n _
    · intro m
      apply FailStop_TRY
      · exact FailStop_poll bus _ _ (by decide) fuel m
      · intro _
        exact FailStop_nil _

theorem FailStop_refill (bus : Bus) (fuel : Nat) (dev : rf_dev_t) (k : Nat) (data : List Nat)
    (n : Nat) : FailStop (refill_loop bus fuel dev k data n) := by
  induction k generalizing data n with
  | zero =>
    unfold refill_loop
    split <;> exact FailStop_nil _
  | succ k ih =>
    unfold refill_loop
    simp only
    split
    · exact FailStop_nil _
    · apply FailStop_TRY
      · exact FailStop_poll bus _ _ (by decide) fuel n
      · intro m
        apply FailStop_TRY
        · rw [spi_write_regs_fifo]
          exact FailStop_single bus m _
        · intro m2
          exact ih _ m2

theorem FailStop_rf_send (bus : Bus) (fuel : Nat) (dev : rf_dev_t) (data : List Nat) (n : Nat) :
    FailStop (rf_send bus fuel dev data n) := by
  unfold rf_send
  apply FailStop_TRY
  · rw [spi_write_regs_fifo]
    exact FailStop_single bus n _
  · intro m1
    apply FailStop_TRY
    · exact FailStop_switch_mode bus fuel _ m1
    · intro m2
      apply FailStop_TRY
      · exact FailStop_refill bus fuel dev fuel _ m2
      · intro m3
        apply FailStop_TRY
        · exact FailStop_poll bus _ _ (by decide) fuel m3
        · intro m4
          apply FailStop_TRY
          · exact FailStop_switch_mode bus fuel _ m4
          · intro _
            exact FailStop_nil _


/-! ## C4: a transport failure ends `rf_send` at once -/

/-- C4: if a transfer performed by `rf_send` fails (the `ioctl` of the `i`-th transfer of
the call reports an error), `rf_send` returns the error code of the transport,
`ERR_SPI_IOCTL`, and the failed transfer is the last one of the call: nothing is put on
the bus after it, in particular no write of Standby to the op-mode register. -/
theorem rf_send_fail_stop (bus : Bus) (fuel : Nat) (dev : rf_dev_t) (data : List Nat)
    (n i : Nat) (e : Event)
    (hi : (rf_send bus fuel dev data n).2[i]? = some e) (hf : e.2.ok = false) :
    (rf_send bus fuel dev data n).1 = Ret.code ERR_SPI_IOCTL ∧
      (rf_send bus fuel dev data n).2.length = i + 1 ∧
      ∀ j, i < j → (rf_send bus fuel dev data n).2[j]? = none := by
  have h := FailStop_rf_send bus fuel dev data n i e hi hf
  refine ⟨h.2, h.1.symm, ?_⟩
  intro j hj
  apply List.getElem?_eq_none
  omega

/-- C4 at a concrete run: a 70-byte buffer, threshold 15, the fourth transfer (the first
poll of IrqFlags2) fails. -/
theorem rf_send_fail_stop_witness :
    (rf_send (failing_bus 3 0x88) 5 ⟨3, 15⟩ (List.range 70) 0).2[3]? =
        some (⟨0x28, false, [], 1⟩, ⟨false, [0x88]⟩) ∧
      (rf_send (failing_bus 3 0x88) 5 ⟨3, 15⟩ (List.range 70) 0).1 = Ret.code ERR_SPI_IOCTL ∧
      (rf_send (failing_bus 3 0x88) 5 ⟨3, 15⟩ (List.range 70) 0).2.length = 3 + 1 ∧
      ∀ j, 3 < j → (rf_send (failing_bus 3 0x88) 5 ⟨3, 15⟩ (List.range 70) 0).2[j]? = none :=
  ⟨by decide, rf_send_fail_stop (failing_bus 3 0x88) 5 ⟨3, 15⟩ (List.range 70) 0 3
    (⟨0x28, false, [], 1⟩, ⟨false, [0x88]⟩) (by decide) rfl⟩

/-! ## What each block puts on the bus -/

theorem fifo_writes_append (a b : List Event) :
    fifo_writes (a ++ b) = fifo_writes a ++ fifo_writes b := by
  simp [fifo_writes, List.filterMap_append]

theorem fifo_writes_quiet (l : List Event) (h : ∀ e ∈ l, e.1.is_write RegFifo = false) :
    fifo_writes l = [] := by
  induction l with
  | nil => rfl
  | cons a l ih =>
    have ha := h a (List.mem_cons_self a l)
    have hl := ih (fun e he => h e (List.mem_cons_of_mem a he))
    simp only [fifo_writes, List.filterMap_cons, ha] at hl ⊢
    simpa using hl

theorem refill_room_le (t : Nat) (ht : t ≤ 66) : refill_room t = 66 - t := by
  unfold refill_room SX1231_FIFO_SIZE
  omega

theorem poll_reg_succ (bus : Bus) (addr : Nat) (again : Nat → Bool) (ha : addr &&& 0x80 = 0)
    (f n : Nat) :
    poll_reg bus addr again (f + 1) n =
      if (bus n).ok = true then
        if again (bus n).val = true then
          ((poll_reg bus addr again f (n + 1)).1,
            (⟨addr, false, [], 1⟩, bus n) :: (poll_reg bus addr again f (n + 1)).2)
        else (Ret.code 0, [(⟨addr, false, [], 1⟩, bus n)])
      else (Ret.code ERR_SPI_IOCTL, [(⟨addr, false, [], 1⟩, bus n)]) := by
  conv_lhs => unfold poll_reg
  rw [spi_read_reg_low bus n addr ha]
  cases hok : (bus n).ok
  · simp [ERR_SPI_IOCTL_ne_zero]
  · cases hag : again (bus n).val <;> simp [ERR_OK, hag]

/-- Every transfer of a polling loop is a one-byte read of the polled register. -/
theorem poll_reads (bus : Bus) (addr : Nat) (again : Nat → Bool) (ha : addr &&& 0x80 = 0)
    (fuel n : Nat) : ∀ e ∈ (poll_reg bus addr again fuel n).2, e.1 = ⟨addr, false, [], 1⟩ := by
  induction fuel generalizing n with
  | zero => simp [poll_reg]
  | succ f ih =>
    rw [poll_reg_succ bus addr again ha]
    intro e he
    split at he
    · split at he
      · simp only [List.mem_cons] at he
        rcases he with he | he
        · subst he
          rfl
        · exact ih _ e he
      · simp only [List.mem_singleton] at he
        subst he
        rfl
    · simp only [List.mem_singleton] at he
      subst he
      rfl

/-- A polling loop that is left normally ends with a successful read whose value stops
the loop. -/
theorem poll_last (bus : Bus) (addr : Nat) (again : Nat → Bool) (ha : addr &&& 0x80 = 0)
    (fuel n : Nat) (h : (poll_reg bus addr again fuel n).1 = Ret.code 0) :
    ∃ init p, (poll_reg bus addr again fuel n).2 = init ++ [p] ∧
      p.1 = ⟨addr, false, [], 1⟩ ∧ p.2.ok = true ∧ again p.2.val = false := by
  induction fuel generalizing n with
  | zero => simp [poll_reg] at h
  | succ f ih =>
    rw [poll_reg_succ bus addr again ha] at h ⊢
    by_cases hok : (bus n).ok = true
    · by_cases hag : again (bus n).val = true
      · simp only [hok, hag, ↓reduceIte] at h ⊢
        obtain ⟨init, p, hp, h1, h2, h3⟩ := ih _ h
        refine ⟨(⟨addr, false, [], 1⟩, bus n) :: init, p, ?_, h1, h2, h3⟩
        rw [hp]
        rfl
      · simp only [hok, hag, ↓reduceIte]
        exact ⟨[], _, rfl, rfl, hok, by simpa using hag⟩
    · simp only [hok, ↓reduceIte] at h
      exact absurd (by injection h) ERR_SPI_IOCTL_ne_zero

theorem poll_quiet (bus : Bus) (addr : Nat) (again : Nat → Bool) (ha : addr &&& 0x80 = 0)
    (fuel n : Nat) :
    ∀ e ∈ (poll_reg bus addr again fuel n).2, e.1.is_write RegFifo = false := by
  intro e he
  rw [poll_reads bus addr again ha fuel n e he]
  rfl

theorem TRY_fst_ok (n : Nat) (x rest : Nat → Out) (h : (TRY n x rest).1 = Ret.code 0) :
    (x n).1 = Ret.code 0 ∧ (rest (n + (x n).2.length)).1 = Ret.code 0 ∧
      (TRY n x rest).2 = (x n).2 ++ (rest (n + (x n).2.length)).2 := by
  by_cases hx : (x n).1 = Ret.code 0
  · rw [TRY_ok n x rest hx] at h ⊢
    exact ⟨hx, h, rfl⟩
  · rw [TRY_stop n x rest hx] at h
    exact absurd h hx

theorem TRY_events (n : Nat) (x rest : Nat → Out) :
    (TRY n x rest).2 =
      (x n).2 ++ (if (x n).1 = Ret.code 0 then (rest (n + (x n).2.length)).2 else []) := by
  by_cases hx : (x n).1 = Ret.code 0
  · rw [TRY_ok n x rest hx]
    simp [hx]
  · rw [TRY_stop n x rest hx]
    simp [hx]

theorem TRY_forall (P : Event → Prop) (n : Nat) (x rest : Nat → Out)
    (hx : ∀ e ∈ (x n).2, P e) (hr : ∀ m, ∀ e ∈ (rest m).2, P e) :
    ∀ e ∈ (TRY n x rest).2, P e := by
  intro e he
  rw [TRY_events] at he
  rcases List.mem_append.1 he with h | h
  · exact hx e h
  · split at h
    · exact hr _ e h
    · simp at h

theorem ret_write_fifo (bus : Bus) (n : Nat) (data : List Nat) (len : Nat) :
    ret (spi_write_regs bus n RegFifo data len) =
      (Ret.code (if (bus n).ok = true then 0 else ERR_SPI_IOCTL),
        [(⟨0x80, true, data.take len, len⟩, bus n)]) := by
  rw [spi_write_regs_fifo]
  rfl

theorem ret_write_opmode (bus : Bus) (n : Nat) (v : Nat) :
    ret (spi_write_reg bus n RegOpMode v) =
      (Ret.code (if (bus n).ok = true then 0 else ERR_SPI_IOCTL),
        [(⟨0x81, true, [v % 256], 1⟩, bus n)]) := by
  rw [spi_write_reg_opmode]
  rfl

theorem code_ite_ok (b : Bool) :
    Ret.code (if b = true then 0 else ERR_SPI_IOCTL) = Ret.code 0 ↔ b = true := by
  cases b
  · simp [ERR_SPI_IOCTL_ne_zero]
  · simp

/-- Mode switching never writes to the FIFO. -/
theorem switch_mode_quiet (bus : Bus) (fuel : Nat) (mode : Int) (n : Nat) :
    ∀ e ∈ (_switch_mode bus fuel mode n).2, e.1.is_write RegFifo = false := by
  unfold _switch_mode
  split
  · simp
  · apply TRY_forall
    · rw [ret_write_opmode]
      intro e he
      simp only [List.mem_singleton] at he
      subst he
      rfl
    · intro m
      apply TRY_forall
      · exact poll_quiet bus _ _ (by decide) fuel m
      · simp

/-- The transfers of a mode switch that returns `ERR_OK`: the successful write of the
mode byte to the op-mode register, then reads of IrqFlags1. -/
theorem switch_mode_ok_shape (bus : Bus) (fuel : Nat) (mode : Int) (n : Nat)
    (h : (_switch_mode bus fuel mode n).1 = Ret.code 0) :
    ∃ tl, (_switch_mode bus fuel mode n).2 =
        (⟨0x81, true, [(mode % 256).toNat % 256], 1⟩, bus n) :: tl ∧
      (bus n).ok = true ∧ ∀ e ∈ tl, e.1 = ⟨0x27, false, [], 1⟩ := by
  unfold _switch_mode at h ⊢
  split at h
  · simp at h
  · rename_i hm
    simp only [hm, ↓reduceIte]
    obtain ⟨h1, h2, h3⟩ := TRY_fst_ok _ _ _ h
    rw [h3]
    simp only [ret_write_opmode] at h1 h2 ⊢
    refine ⟨_, rfl, (code_ite_ok _).1 h1, ?_⟩
    apply TRY_forall
    · exact poll_reads bus _ _ (by decide) fuel _
    · simp

/-! ## The refill loop -/

theorem refill_loop_done (bus : Bus) (fuel : Nat) (dev : rf_dev_t) (k : Nat) (data : List Nat)
    (n : Nat) (h : data.length = 0) :
    refill_loop bus fuel dev k data n = (Ret.code 0, []) := by
  cases k <;> simp [refill_loop, h, ERR_OK]

theorem refill_loop_succ (bus : Bus) (fuel : Nat) (dev : rf_dev_t) (k : Nat) (data : List Nat)
    (n : Nat) (h : data.length ≠ 0) :
    refill_loop bus fuel dev (k + 1) data n =
      TRY n (poll_reg bus RegIrqFlags2 (fun val => val &&& IRQ_FLAGS2_FIFOLEVEL ≠ 0) fuel)
        fun n =>
          TRY n (fun n => ret (spi_write_regs bus n RegFifo data
            ((if data.length ≤ refill_room dev.fifo_thresh then data.length
              else refill_room dev.fifo_thresh) % 256)))
            fun n => refill_loop bus fuel dev k
              (data.drop ((if data.length ≤ refill_room dev.fifo_thresh then data.length
                else refill_room dev.fifo_thresh) % 256)) n := by
  conv_lhs => unfold refill_loop
  simp only [h, ↓reduceIte]

theorem send_len_refill (t len : Nat) (ht : t ≤ 66) :
    (if len ≤ refill_room t then len else refill_room t) % 256 = min len (66 - t) := by
  rw [refill_room_le t ht]
  split <;> omega

theorem send_len_prefill (len : Nat) :
    (if len ≤ SX1231_FIFO_SIZE then len else SX1231_FIFO_SIZE) % 256 = min len 66 := by
  unfold SX1231_FIFO_SIZE
  split <;> omega

theorem fifo_writes_single (tx : List Nat) (l : Nat) (r : Resp) :
    fifo_writes [(⟨0x80, true, tx, l⟩, r)] = [tx] := by
  simp [fifo_writes, Xfer.is_write, RegFifo]

theorem fifo_writes_cons_fifo (tx : List Nat) (l : Nat) (r : Resp) (tl : List Event) :
    fifo_writes ((⟨0x80, true, tx, l⟩, r) :: tl) = tx :: fifo_writes tl := by
  simp [fifo_writes, Xfer.is_write, RegFifo]

theorem fifo_writes_cons_other (e : Event) (tl : List Event)
    (h : e.1.is_write RegFifo = false) : fifo_writes (e :: tl) = fifo_writes tl := by
  simp [fifo_writes, h]

theorem ceil_step (len c : Nat) (hc : 0 < c) (hl : 0 < len) :
    1 + ((len - min len c) + c - 1) / c = (len + c - 1) / c := by
  rcases Nat.le_total len c with h | h
  · rw [Nat.min_eq_left h]
    have h1 : (len - len + c - 1) / c = 0 := by
      apply Nat.div_eq_of_lt
      omega
    have h2 : (len + c - 1) / c = 1 := by
      apply Nat.div_eq_of_lt_le <;> omega
    rw [h1, h2]
  · rw [Nat.min_eq_right h]
    have h1 : len + c - 1 = (len - c + c - 1) + c := by omega
    rw [h1, Nat.add_div_right _ hc]
    omega

/-- What a refill loop that ends normally wrote to the FIFO, for a threshold below 66:
the remaining bytes in order, in non-empty pieces of at most `66 - fifo_thresh` bytes,
as few as possible. -/
theorem refill_ok_content (bus : Bus) (fuel : Nat) (dev : rf_dev_t)
    (ht : dev.fifo_thresh < 66) (k : Nat) (data : List Nat) (n : Nat)
    (h : (refill_loop bus fuel dev k data n).1 = Ret.code 0) :
    (fifo_writes (refill_loop bus fuel dev k data n).2).flatten = data ∧
      (fifo_writes (refill_loop bus fuel dev k data n).2).length =
        (data.length + (66 - dev.fifo_thresh) - 1) / (66 - dev.fifo_thresh) ∧
      ∀ w ∈ fifo_writes (refill_loop bus fuel dev k data n).2,
        w.length ≤ 66 - dev.fifo_thresh := by
  induction k generalizing data n with
  | zero =>
    by_cases hl : data.length = 0
    · rw [refill_loop_done _ _ _ _ _ _ hl]
      have hd : data = [] := List.length_eq_zero.1 hl
      subst hd
      refine ⟨rfl, ?_, by simp [fifo_writes]⟩
      simp only [fifo_writes, List.filterMap_nil, List.length_nil, Nat.zero_add]
      symm
      apply Nat.div_eq_of_lt
      omega
    · simp [refill_loop, hl] at h
  | succ k ih =>
    by_cases hl : data.length = 0
    · rw [refill_loop_done _ _ _ _ _ _ hl]
      have hd : data = [] := List.length_eq_zero.1 hl
      subst hd
      refine ⟨rfl, ?_, by simp [fifo_writes]⟩
      simp only [fifo_writes, List.filterMap_nil, List.length_nil, Nat.zero_add]
      symm
      apply Nat.div_eq_of_lt
      omega
    · rw [refill_loop_succ _ _ _ _ _ _ hl] at h ⊢
      simp only [send_len_refill _ _ (Nat.le_of_lt ht), ret_write_fifo] at h ⊢
      obtain ⟨_, h2, h3⟩ := TRY_fst_ok _ _ _ h
      obtain ⟨_, h5, h6⟩ := TRY_fst_ok _ _ _ h2
      obtain ⟨i1, i2, i3⟩ := ih _ _ h5
      rw [h3, h6, fifo_writes_append, fifo_writes_append, fifo_writes_single,
        fifo_writes_quiet _ (poll_quiet bus RegIrqFlags2 _ (by decide) fuel n),
        List.nil_append, List.singleton_append]
      refine ⟨?_, ?_, ?_⟩
      · rw [List.flatten_cons, i1, List.take_append_drop]
      · rw [List.length_cons, i2, List.length_drop,
          ← ceil_step data.length (66 - dev.fifo_thresh) (by omega) (by omega)]
        omega
      · intro w hw
        rcases List.mem_cons.1 hw with hw | hw
        · subst hw
          simp only [List.length_take]
          omega
        · exact i3 w hw

/-! ## Termination -/

theorem Settles_TRY (n : Nat) (x rest : Nat → Nat → Out)
    (hx : Settles (fun fuel => x fuel n)) (hr : ∀ m, Settles (fun fuel => rest fuel m)) :
    Settles (fun fuel => TRY n (x fuel) (rest fuel)) := by
  obtain ⟨N1, ev1, h1⟩ := hx
  obtain ⟨N2, ev2, h2⟩ := hr (n + ev1.length)
  refine ⟨max N1 N2, ev1 ++ ev2, fun fuel hf => ?_⟩
  have a1 := h1 fuel (le_trans (le_max_left _ _) hf)
  have a2 := h2 fuel (le_trans (le_max_right _ _) hf)
  simp only at a1 a2
  show TRY n (x fuel) (rest fuel) = (Ret.code 0, ev1 ++ ev2)
  rw [TRY_ok _ _ _ (by rw [a1]), a1]
  simp only [a2]

theorem Settles_const (ev : List Event) : Settles (fun _ => (Ret.code 0, ev)) :=
  ⟨0, ev, fun _ _ => rfl⟩

theorem poll_settles_aux (bus : Bus) (addr : Nat) (again : Nat → Bool)
    (ha : addr &&& 0x80 = 0) (hok : ∀ m, (bus m).ok = true) (d : Nat) :
    ∀ n, again (bus (n + d)).val = false →
      Settles (fun fuel => poll_reg bus addr again fuel n) := by
  have base : ∀ n, again (bus n).val = false →
      Settles (fun fuel => poll_reg bus addr again fuel n) := by
    intro n hn
    refine ⟨1, [(⟨addr, false, [], 1⟩, bus n)], fun fuel hf => ?_⟩
    obtain ⟨f, rfl⟩ : ∃ f, fuel = f + 1 := ⟨fuel - 1, by omega⟩
    simp only [poll_reg_succ bus addr again ha, hok n, hn, ↓reduceIte]
    simp
  induction d with
  | zero => exact base
  | succ d ih =>
    intro n hn
    by_cases hag : again (bus n).val = true
    · have hn' : again (bus (n + 1 + d)).val = false := by
        rw [show n + 1 + d = n + (d + 1) by omega]
        exact hn
      obtain ⟨N, ev, h⟩ := ih (n + 1) hn'
      refine ⟨N + 1, (⟨addr, false, [], 1⟩, bus n) :: ev, fun fuel hf => ?_⟩
      obtain ⟨f, rfl⟩ : ∃ f, fuel = f + 1 := ⟨fuel - 1, by omega⟩
      have := h f (by omega)
      simp only at this
      simp only [poll_reg_succ bus addr again ha, hok n, hag, ↓reduceIte, this]
    · exact base n (by simpa using hag)

theorem poll_settles (bus : Bus) (addr : Nat) (again : Nat → Bool)
    (ha : addr &&& 0x80 = 0) (hok : ∀ m, (bus m).ok = true) (n : Nat)
    (hev : ∃ m, n ≤ m ∧ again (bus m).val = false) :
    Settles (fun fuel => poll_reg bus addr again fuel n) := by
  obtain ⟨m, hm, h⟩ := hev
  apply poll_settles_aux bus addr again ha hok (m - n) n
  rw [show n + (m - n) = m by omega]
  exact h

theorem write_opmode_settles (bus : Bus) (hok : ∀ m, (bus m).ok = true) (v n : Nat) :
    Settles (fun _ => ret (spi_write_reg bus n RegOpMode v)) := by
  rw [ret_write_opmode]
  simp only [hok n, ↓reduceIte]
  exact Settles_const _

theorem switch_mode_settles (bus : Bus) (hb : Responsive bus) (mode : Int)
    (hm : int_bits mode &&& int_bits (-0x1c - 1) = 0) (n : Nat) :
    Settles (fun fuel => _switch_mode bus fuel mode n) := by
  unfold _switch_mode
  simp only [hm, ne_eq, not_true_eq_false, ↓reduceIte]
  apply Settles_TRY n (fun _ n => ret (spi_write_reg bus n RegOpMode (mode % 256).toNat))
    (fun fuel n => TRY n (poll_reg bus RegIrqFlags1
      (fun val => val &&& IRQ_FLAGS1_MODEREADY = 0) fuel) fun _ => (Ret.code ERR_OK, []))
  · exact write_opmode_settles bus hb.ok _ n
  · intro m
    apply Settles_TRY m (fun fuel => poll_reg bus RegIrqFlags1
      (fun val => val &&& IRQ_FLAGS1_MODEREADY = 0) fuel) (fun _ _ => (Ret.code ERR_OK, []))
    · apply poll_settles bus _ _ (by decide) hb.ok
      obtain ⟨k, hk, h⟩ := hb.mode_ready m
      exact ⟨k, hk, by simpa using h⟩
    · intro _
      exact Settles_const _

theorem refill_settles (bus : Bus) (hb : Responsive bus) (dev : rf_dev_t)
    (ht : dev.fifo_thresh < 66) (len : Nat) :
    ∀ (data : List Nat) (n : Nat), data.length = len →
      ∃ N ev, ∀ k fuel, N ≤ k → N ≤ fuel →
        refill_loop bus fuel dev k data n = (Ret.code 0, ev) := by
  induction len using Nat.strong_induction_on with
  | _ len ih =>
    intro data n hlen
    by_cases hl : data.length = 0
    · exact ⟨0, [], fun k fuel _ _ => refill_loop_done _ _ _ _ _ _ hl⟩
    · obtain ⟨N1, ev1, h1⟩ := poll_settles bus RegIrqFlags2
        (fun val => val &&& IRQ_FLAGS2_FIFOLEVEL ≠ 0) (by decide) hb.ok n (by
          obtain ⟨m, hm, h⟩ := hb.fifo_level n
          exact ⟨m, hm, by simpa using h⟩)
      obtain ⟨N2, ev2, h2⟩ := ih (data.drop (min data.length (66 - dev.fifo_thresh))).length
        (by rw [List.length_drop]; omega)
        (data.drop (min data.length (66 - dev.fifo_thresh))) (n + ev1.length + 1) rfl
      refine ⟨max N1 (N2 + 1),
        ev1 ++ ((⟨0x80, true, data.take (min data.length (66 - dev.fifo_thresh)),
          min data.length (66 - dev.fifo_thresh)⟩, bus (n + ev1.length)) :: ev2),
        fun k fuel hk hf => ?_⟩
      obtain ⟨k', rfl⟩ : ∃ k', k = k' + 1 := ⟨k - 1, by omega⟩
      have a1 := h1 fuel (by omega)
      have a2 := h2 k' fuel (by omega) (by omega)
      simp only at a1
      rw [refill_loop_succ _ _ _ _ _ _ hl]
      simp only [send_len_refill _ _ (Nat.le_of_lt ht), ret_write_fifo, hb.ok, ↓reduceIte]
      rw [TRY_ok _ _ _ (by rw [a1]), a1]
      simp only
      rw [TRY_ok _ _ _ rfl]
      simp only [List.length_singleton, a2, List.singleton_append]

theorem rf_send_unfold (bus : Bus) (fuel : Nat) (dev : rf_dev_t) (data : List Nat) (n : Nat) :
    rf_send bus fuel dev data n =
      TRY n (fun n => (Ret.code (if (bus n).ok = true then 0 else ERR_SPI_IOCTL),
          [(⟨0x80, true, data.take (min data.length 66), min data.length 66⟩, bus n)]))
        fun n =>
      TRY n (_switch_mode bus fuel OP_MODE_MODE_TX) fun n =>
      TRY n (refill_loop bus fuel dev fuel (data.drop (min data.length 66))) fun n =>
      TRY n (poll_reg bus RegIrqFlags2 (fun val => val &&& IRQ_FLAGS2_PACKETSENT = 0) fuel)
        fun n =>
      TRY n (_switch_mode bus fuel OP_MODE_MODE_STDBY) fun _ => (Ret.code 0, []) := by
  unfold rf_send
  simp only [send_len_prefill, ret_write_fifo, ERR_OK]

/-- With a responsive chip and a threshold below 66, `rf_send` returns `ERR_OK`, with the
same transfers, for every large enough bound on its loops. -/
theorem rf_send_settles (bus : Bus) (hb : Responsive bus) (dev : rf_dev_t)
    (ht : dev.fifo_thresh < 66) (data : List Nat) (n : Nat) :
    Settles (fun fuel => rf_send bus fuel dev data n) := by
  simp only [rf_send_unfold]
  apply Settles_TRY n (fun _ n => (Ret.code (if (bus n).ok = true then 0 else ERR_SPI_IOCTL),
          [(⟨0x80, true, data.take (min data.length 66), min data.length 66⟩, bus n)]))
  · simp only [hb.ok, ↓reduceIte]
    exact Settles_const _
  · intro m1
    apply Settles_TRY m1 (fun fuel => _switch_mode bus fuel OP_MODE_MODE_TX)
    · exact switch_mode_settles bus hb _ (by decide) m1
    · intro m2
      apply Settles_TRY m2
        (fun fuel => refill_loop bus fuel dev fuel (data.drop (min data.length 66)))
      · obtain ⟨N, ev, h⟩ := refill_settles bus hb dev ht _ (data.drop (min data.length 66))
          m2 rfl
        exact ⟨N, ev, fun fuel hf => h fuel fuel hf hf⟩
      · intro m3
        apply Settles_TRY m3 (fun fuel => poll_reg bus RegIrqFlags2
          (fun val => val &&& IRQ_FLAGS2_PACKETSENT = 0) fuel)
        · apply poll_settles bus _ _ (by decide) hb.ok
          obtain ⟨k, hk, h⟩ := hb.packet_sent m3
          exact ⟨k, hk, by simpa using h⟩
        · intro m4
          apply Settles_TRY m4 (fun fuel => _switch_mode bus fuel OP_MODE_MODE_STDBY)
            (fun _ _ => (Ret.code 0, []))
          · exact switch_mode_settles bus hb _ (by decide) m4
          · intro _
            exact Settles_const _

/-! ## The parts of a successful `rf_send` -/

theorem rf_send_ok_parts (bus : Bus) (fuel : Nat) (dev : rf_dev_t) (data : List Nat) (n : Nat)
    (h : (rf_send bus fuel dev data n).1 = Ret.code 0) :
    ∃ n3 n4 n5,
      (bus n).ok = true ∧
      (_switch_mode bus fuel OP_MODE_MODE_TX (n + 1)).1 = Ret.code 0 ∧
      (refill_loop bus fuel dev fuel (data.drop (min data.length 66)) n3).1 = Ret.code 0 ∧
      (poll_reg bus RegIrqFlags2 (fun val => val &&& IRQ_FLAGS2_PACKETSENT = 0) fuel n4).1 =
        Ret.code 0 ∧
      (_switch_mode bus fuel OP_MODE_MODE_STDBY n5).1 = Ret.code 0 ∧
      (rf_send bus fuel dev data n).2 =
        (⟨0x80, true, data.take (min data.length 66), min data.length 66⟩, bus n) ::
          ((_switch_mode bus fuel OP_MODE_MODE_TX (n + 1)).2 ++
            ((refill_loop bus fuel dev fuel (data.drop (min data.length 66)) n3).2 ++
              ((poll_reg bus RegIrqFlags2
                  (fun val => val &&& IRQ_FLAGS2_PACKETSENT = 0) fuel n4).2 ++
                (_switch_mode bus fuel OP_MODE_MODE_STDBY n5).2))) := by
  rw [rf_send_unfold] at h ⊢
  obtain ⟨a1, a2, a3⟩ := TRY_fst_ok _ _ _ h
  simp only [List.length_singleton] at a2 a3
  obtain ⟨b1, b2, b3⟩ := TRY_fst_ok _ _ _ a2
  obtain ⟨c1, c2, c3⟩ := TRY_fst_ok _ _ _ b2
  obtain ⟨d1, d2, d3⟩ := TRY_fst_ok _ _ _ c2
  obtain ⟨e1, _, e3⟩ := TRY_fst_ok _ _ _ d2
  refine ⟨_, _, _, (code_ite_ok _).1 a1, b1, c1, d1, e1, ?_⟩
  rw [a3, b3, c3, d3, e3]
  simp

theorem rf_send_ok_fifo (bus : Bus) (fuel : Nat) (dev : rf_dev_t) (data : List Nat) (n : Nat)
    (h : (rf_send bus fuel dev data n).1 = Ret.code 0) :
    ∃ n3, (refill_loop bus fuel dev fuel (data.drop (min data.length 66)) n3).1 = Ret.code 0 ∧
      fifo_writes (rf_send bus fuel dev data n).2 =
        data.take (min data.length 66) ::
          fifo_writes (refill_loop bus fuel dev fuel (data.drop (min data.length 66)) n3).2 := by
  obtain ⟨n3, n4, n5, _, _, h3, _, _, hev⟩ := rf_send_ok_parts bus fuel dev data n h
  refine ⟨n3, h3, ?_⟩
  rw [hev, ← List.singleton_append, fifo_writes_append, fifo_writes_append, fifo_writes_append,
    fifo_writes_append, fifo_writes_single,
    fifo_writes_quiet _ (switch_mode_quiet bus fuel OP_MODE_MODE_TX (n + 1)),
    fifo_writes_quiet _ (switch_mode_quiet bus fuel OP_MODE_MODE_STDBY n5),
    fifo_writes_quiet _ (poll_quiet bus RegIrqFlags2 _ (by decide) fuel n4)]
  simp

theorem const_bus_val (v n : Nat) : (const_bus v n).val = v % 256 := rfl

theorem responsive_const_bus : Responsive (const_bus 0x88) :=
  ⟨fun _ => rfl, fun n => ⟨n, le_refl n, by rw [const_bus_val]; decide⟩,
    fun n => ⟨n, le_refl n, by rw [const_bus_val]; decide⟩,
    fun n => ⟨n, le_refl n, by rw [const_bus_val]; decide⟩⟩

/-! ## C1: `rf_send` streams the whole buffer, in order -/

/-- C1: for a device whose cached `fifo_thresh` is below 66 and any buffer `data`, on a
chip where every transfer succeeds and every polled flag eventually shows the awaited
value, `rf_send` terminates (for every large enough bound on its loops) with `ERR_OK`,
and the byte sequences it wrote to the FIFO register, concatenated in the order written,
are exactly `data`; the number of bytes written is the length of `data`. -/
theorem rf_send_streams_data (bus : Bus) (hb : Responsive bus) (dev : rf_dev_t)
    (ht : dev.fifo_thresh < 66) (data : List Nat) (n : Nat) :
    ∃ N, ∀ fuel, N ≤ fuel →
      (rf_send bus fuel dev data n).1 = Ret.code ERR_OK ∧
      (fifo_writes (rf_send bus fuel dev data n).2).flatten = data ∧
      ((fifo_writes (rf_send bus fuel dev data n).2).map List.length).sum = data.length := by
  obtain ⟨N, ev, hN⟩ := rf_send_settles bus hb dev ht data n
  refine ⟨N, fun fuel hf => ?_⟩
  have hr : (rf_send bus fuel dev data n).1 = Ret.code 0 := by
    have := hN fuel hf
    simp only at this
    rw [this]
  obtain ⟨n3, h3, hw⟩ := rf_send_ok_fifo bus fuel dev data n hr
  have hc := (refill_ok_content bus fuel dev ht fuel _ n3 h3).1
  have hflat : (fifo_writes (rf_send bus fuel dev data n).2).flatten = data := by
    rw [hw, List.flatten_cons, hc, List.take_append_drop]
  refine ⟨hr, hflat, ?_⟩
  rw [← List.length_flatten, hflat]

/-- C1 at a concrete run: 200 bytes, threshold 15, a chip that answers every poll with
mode-ready and packet-sent set and FIFO-level clear. -/
theorem rf_send_streams_data_witness :
    Responsive (const_bus 0x88) ∧ (15 : Nat) < 66 ∧
    ∃ N, ∀ fuel, N ≤ fuel →
      (rf_send (const_bus 0x88) fuel ⟨3, 15⟩ (List.range 200) 0).1 = Ret.code ERR_OK ∧
      (fifo_writes (rf_send (const_bus 0x88) fuel ⟨3, 15⟩ (List.range 200) 0).2).flatten =
        List.range 200 ∧
      ((fifo_writes (rf_send (const_bus 0x88) fuel ⟨3, 15⟩ (List.range 200) 0).2).map
        List.length).sum = (List.range 200).length :=
  ⟨responsive_const_bus, by decide,
    rf_send_streams_data (const_bus 0x88) responsive_const_bus ⟨3, 15⟩ (by decide)
      (List.range 200) 0⟩

/-! ## The size of the FIFO writes for a threshold of at most 66 -/

theorem refill_chunks_bounded (bus : Bus) (fuel : Nat) (dev : rf_dev_t)
    (ht : dev.fifo_thresh ≤ 66) (k : Nat) :
    ∀ (data : List Nat) (n : Nat), ∀ e ∈ (refill_loop bus fuel dev k data n).2,
      e.1.is_write RegFifo = true → e.1.tx.length ≤ 66 - dev.fifo_thresh := by
  induction k with
  | zero =>
    intro data n e he
    unfold refill_loop at he
    split at he <;> simp at he
  | succ k ih =>
    intro data n
    by_cases hl : data.length = 0
    · rw [refill_loop_done _ _ _ _ _ _ hl]
      simp
    · rw [refill_loop_succ _ _ _ _ _ _ hl]
      simp only [send_len_refill _ _ ht, ret_write_fifo]
      apply TRY_forall
      · intro e he hw
        rw [poll_quiet bus RegIrqFlags2 _ (by decide) fuel n e he] at hw
        exact absurd hw (by decide)
      · intro m
        apply TRY_forall
        · intro e he _
          simp only [List.mem_singleton] at he
          subst he
          simp only [List.length_take]
          omega
        · intro m2
          exact ih _ m2

/-- With a cached threshold of at most 66, in every run of `rf_send` the prefill carries
at most 66 bytes and every later FIFO write at most `66 - fifo_thresh` bytes. -/
theorem rf_send_chunks_bounded (bus : Bus) (fuel : Nat) (dev : rf_dev_t)
    (ht : dev.fifo_thresh ≤ 66) (data : List Nat) (n : Nat) :
    ∃ tl, (rf_send bus fuel dev data n).2 =
        (⟨0x80, true, data.take (min data.length 66), min data.length 66⟩, bus n) :: tl ∧
      (data.take (min data.length 66)).length ≤ 66 ∧
      ∀ e ∈ tl, e.1.is_write RegFifo = true → e.1.tx.length ≤ 66 - dev.fifo_thresh := by
  have hrest : ∀ m, ∀ e ∈ (TRY m (_switch_mode bus fuel OP_MODE_MODE_TX) fun n =>
      TRY n (refill_loop bus fuel dev fuel (data.drop (min data.length 66))) fun n =>
      TRY n (poll_reg bus RegIrqFlags2 (fun val => val &&& IRQ_FLAGS2_PACKETSENT = 0) fuel)
        fun n =>
      TRY n (_switch_mode bus fuel OP_MODE_MODE_STDBY) fun _ => (Ret.code 0, [])).2,
      e.1.is_write RegFifo = true → e.1.tx.length ≤ 66 - dev.fifo_thresh := by
    intro m
    apply TRY_forall
    · intro e he hw
      rw [switch_mode_quiet bus fuel _ _ e he] at hw
      exact absurd hw (by decide)
    · intro m2
      apply TRY_forall
      · exact refill_chunks_bounded bus fuel dev ht fuel _ m2
      · intro m3
        apply TRY_forall
        · intro e he hw
          rw [poll_quiet bus RegIrqFlags2 _ (by decide) fuel m3 e he] at hw
          exact absurd hw (by decide)
        · intro m4
          apply TRY_forall
          · intro e he hw
            rw [switch_mode_quiet bus fuel _ _ e he] at hw
            exact absurd hw (by decide)
          · simp
  have hlen : (data.take (min data.length 66)).length ≤ 66 := by
    simp only [List.length_take]
    omega
  rw [rf_send_unfold, TRY_events]
  by_cases hok : (bus n).ok = true
  · simp only [hok, ↓reduceIte, List.length_singleton, List.singleton_append]
    exact ⟨_, rfl, hlen, hrest _⟩
  · simp only [hok, Bool.false_eq_true, ↓reduceIte, List.length_singleton]
    refine ⟨[], ?_, hlen, by simp⟩
    have : ¬ (Ret.code ERR_SPI_IOCTL = Ret.code 0) := fun h =>
      ERR_SPI_IOCTL_ne_zero (by injection h)
    simp [this]

/-! ## C2: the refill chunk when the cached threshold exceeds the FIFO size -/

set_option maxRecDepth 100000 in
/-- C2, the code at a threshold above 66: with `fifo_thresh = 100` (a value `rf_open` can
cache) and a 200-byte buffer, `SX1231_FIFO_SIZE - dev->fifo_thresh` is negative, becomes a
huge `size_t` in the comparison with `len`, and the single refill writes all the 134
remaining bytes to the 66-byte FIFO at once; the call returns `ERR_OK`. -/
theorem rf_send_refill_exceeds_fifo :
    (rf_send (const_bus 0x88) 5 ⟨3, 100⟩ (List.replicate 200 0xAA) 0).1 = Ret.code ERR_OK ∧
      (fifo_writes (rf_send (const_bus 0x88) 5 ⟨3, 100⟩ (List.replicate 200 0xAA) 0).2).map
        List.length = [66, 134] ∧
      refill_room 100 = 2 ^ 64 - 34 := by
  decide

/-! ## C3: the number of FIFO writes -/

/-- C3: in a run of `rf_send` that returns `ERR_OK`, a buffer of at most 66 bytes (the
empty one included) is written to the FIFO by exactly one write, the first transfer of the
call, carrying all its bytes, and the write of Transmit (0x0C) to the op-mode register
follows it; with `fifo_thresh < 66` the number of FIFO writes is
`1 + ceil(max(0, len - 66) / (66 - fifo_thresh))` (the ceiling written as
`(a + c - 1) / c`, the subtraction `len - 66` stopping at 0). -/
theorem rf_send_fifo_write_count (bus : Bus) (fuel : Nat) (dev : rf_dev_t) (data : List Nat)
    (n : Nat) (h : (rf_send bus fuel dev data n).1 = Ret.code ERR_OK) :
    (data.length ≤ 66 →
      fifo_writes (rf_send bus fuel dev data n).2 = [data] ∧
      ∃ tl, (rf_send bus fuel dev data n).2 =
          (⟨0x80, true, data, data.length⟩, bus n) ::
            (⟨0x81, true, [0x0C], 1⟩, bus (n + 1)) :: tl ∧
        fifo_writes tl = []) ∧
    (dev.fifo_thresh < 66 →
      (fifo_writes (rf_send bus fuel dev data n).2).length =
        1 + ((data.length - 66) + (66 - dev.fifo_thresh) - 1) / (66 - dev.fifo_thresh)) := by
  constructor
  · intro hl
    obtain ⟨n3, n4, n5, _, h2, h3, _, _, hev⟩ := rf_send_ok_parts bus fuel dev data n h
    obtain ⟨tl, htl, _, hrd⟩ := switch_mode_ok_shape bus fuel _ _ h2
    have hd : data.drop (min data.length 66) = [] := by
      apply List.drop_eq_nil_of_le
      omega
    have hr : (refill_loop bus fuel dev fuel (data.drop (min data.length 66)) n3).2 = [] := by
      rw [refill_loop_done _ _ _ _ _ _ (by rw [hd]; rfl)]
    have ht : data.take (min data.length 66) = data := by
      apply List.take_of_length_le
      omega
    have hq : fifo_writes (tl ++ ((poll_reg bus RegIrqFlags2
        (fun val => val &&& IRQ_FLAGS2_PACKETSENT = 0) fuel n4).2 ++
          (_switch_mode bus fuel OP_MODE_MODE_STDBY n5).2)) = [] := by
      rw [fifo_writes_append, fifo_writes_append,
        fifo_writes_quiet _ (switch_mode_quiet bus fuel OP_MODE_MODE_STDBY n5),
        fifo_writes_quiet _ (poll_quiet bus RegIrqFlags2 _ (by decide) fuel n4),
        fifo_writes_quiet tl (fun e he => by rw [hrd e he]; rfl)]
      rfl
    have hev' : (rf_send bus fuel dev data n).2 =
        (⟨0x80, true, data, data.length⟩, bus n) ::
          (⟨0x81, true, [0x0C], 1⟩, bus (n + 1)) ::
            (tl ++ ((poll_reg bus RegIrqFlags2
              (fun val => val &&& IRQ_FLAGS2_PACKETSENT = 0) fuel n4).2 ++
                (_switch_mode bus fuel OP_MODE_MODE_STDBY n5).2)) := by
      rw [hev, htl, hr, ht, Nat.min_eq_left hl]
      rfl
    refine ⟨?_, _, hev', hq⟩
    rw [hev', fifo_writes_cons_fifo,
      fifo_writes_cons_other (⟨0x81, true, [0x0C], 1⟩, bus (n + 1)) _ rfl, hq]
  · intro ht
    obtain ⟨n3, h3, hw⟩ := rf_send_ok_fifo bus fuel dev data n h
    rw [hw, List.length_cons, (refill_ok_content bus fuel dev ht fuel _ n3 h3).2.1,
      List.length_drop]
    have : data.length - min data.length 66 = data.length - 66 := by omega
    rw [this]
    omega

set_option maxRecDepth 100000 in
/-- C3 at concrete runs: 200 bytes with threshold 15 are written by four FIFO writes, of
66, 51, 51 and 32 bytes; the empty buffer is written by one FIFO write of no byte. -/
theorem rf_send_fifo_write_count_witness :
    (rf_send (const_bus 0x88) 5 ⟨3, 15⟩ (List.range 200) 0).1 = Ret.code ERR_OK ∧
    (fifo_writes (rf_send (const_bus 0x88) 5 ⟨3, 15⟩ (List.range 200) 0).2).length =
      1 + ((200 - 66) + (66 - 15) - 1) / (66 - 15) ∧
    (fifo_writes (rf_send (const_bus 0x88) 5 ⟨3, 15⟩ (List.range 200) 0).2).map List.length =
      [66, 51, 51, 32] ∧
    (rf_send (const_bus 0x88) 5 ⟨3, 15⟩ [] 0).1 = Ret.code ERR_OK ∧
    fifo_writes (rf_send (const_bus 0x88) 5 ⟨3, 15⟩ [] 0).2 = [[]] :=
  ⟨by decide,
    (rf_send_fifo_write_count (const_bus 0x88) 5 ⟨3, 15⟩ (List.range 200) 0 (by decide)).2
      (by decide),
    by decide, by decide,
    ((rf_send_fifo_write_count (const_bus 0x88) 5 ⟨3, 15⟩ [] 0 (by decide)).1
      (by decide)).1⟩

/-! ## The order of the transfers -/

theorem chain_quiet (l : List Event) (h : ∀ e ∈ l, e.1.is_write RegFifo = false) :
    List.Chain' Guarded l := by
  induction l with
  | nil => exact List.chain'_nil
  | cons a l ih =>
    rw [List.chain'_cons']
    refine ⟨?_, ih (fun e he => h e (List.mem_cons_of_mem a he))⟩
    intro y hy hw
    have hm : y ∈ l := List.mem_of_mem_head? hy
    rw [h y (List.mem_cons_of_mem a hm)] at hw
    exact absurd hw (by decide)

theorem Inner_quiet (l : List Event) (h : ∀ e ∈ l, e.1.is_write RegFifo = false) :
    Inner l :=
  ⟨chain_quiet l h, fun e he => h e (List.mem_of_mem_head? he)⟩

theorem Inner_nil : Inner [] := Inner_quiet [] (by simp)

theorem chain_append_Inner (l1 l2 : List Event) (h1 : List.Chain' Guarded l1)
    (h2 : Inner l2) : List.Chain' Guarded (l1 ++ l2) := by
  apply List.Chain'.append h1 h2.1
  intro x _ y hy hw
  rw [h2.2 y hy] at hw
  exact absurd hw (by decide)

theorem Inner_append (l1 l2 : List Event) (h1 : Inner l1) (h2 : Inner l2) :
    Inner (l1 ++ l2) := by
  refine ⟨chain_append_Inner l1 l2 h1.1 h2, ?_⟩
  cases l1 with
  | nil => exact h2.2
  | cons a l => exact h1.2

theorem Inner_TRY (n : Nat) (x rest : Nat → Out) (hx : Inner (x n).2)
    (hr : ∀ m, Inner (rest m).2) : Inner (TRY n x rest).2 := by
  rw [TRY_events]
  apply Inner_append _ _ hx
  split
  · exact hr _
  · exact Inner_nil

theorem Inner_switch_mode (bus : Bus) (fuel : Nat) (mode : Int) (n : Nat) :
    Inner (_switch_mode bus fuel mode n).2 :=
  Inner_quiet _ (switch_mode_quiet bus fuel mode n)

theorem Inner_poll (bus : Bus) (addr : Nat) (again : Nat → Bool) (ha : addr &&& 0x80 = 0)
    (fuel n : Nat) : Inner (poll_reg bus addr again fuel n).2 :=
  Inner_quiet _ (poll_quiet bus addr again ha fuel n)

theorem Inner_refill (bus : Bus) (fuel : Nat) (dev : rf_dev_t) (k : Nat) (data : List Nat)
    (n : Nat) : Inner (refill_loop bus fuel dev k data n).2 := by
  induction k generalizing data n with
  | zero =>
    unfold refill_loop
    split <;> exact Inner_nil
  | succ k ih =>
    by_cases hl : data.length = 0
    · rw [refill_loop_done _ _ _ _ _ _ hl]
      exact Inner_nil
    · rw [refill_loop_succ _ _ _ _ _ _ hl]
      simp only [ret_write_fifo]
      by_cases hp : (poll_reg bus RegIrqFlags2
          (fun val => val &&& IRQ_FLAGS2_FIFOLEVEL ≠ 0) fuel n).1 = Ret.code 0
      · rw [TRY_ok _ _ _ hp]
        simp only [TRY_events]
        obtain ⟨init, p, hev, hp1, hp2, hp3⟩ := poll_last bus _ _ (by decide) fuel n hp
        have hq := poll_quiet bus RegIrqFlags2
          (fun val => val &&& IRQ_FLAGS2_FIFOLEVEL ≠ 0) (by decide) fuel n
        constructor
        · apply List.Chain'.append (chain_quiet _ hq)
          · apply chain_append_Inner _ _ (List.chain'_singleton _)
            split
            · exact ih _ _
            · exact Inner_nil
          · intro x hx y hy _
            rw [hev] at hx
            simp at hx
            subst hx
            refine ⟨by rw [hp1]; rfl, hp2, ?_⟩
            simpa using hp3
        · intro e he
          apply hq
          rw [hev] at he ⊢
          cases init with
          | nil =>
            simp only [List.nil_append, List.singleton_append, List.head?_cons,
              Option.some.injEq] at he
            subst he
            simp
          | cons a l =>
            simp only [List.cons_append, List.head?_cons, Option.some.injEq] at he
            subst he
            simp
      · rw [TRY_stop _ _ _ hp]
        exact Inner_poll bus _ _ (by decide) fuel n

theorem chain_getElem {R : Event → Event → Prop} (l : List Event) (h : List.Chain' R l) :
    ∀ i a b, l[i]? = some a → l[i + 1]? = some b → R a b := by
  induction l with
  | nil =>
    intro i a b ha
    simp at ha
  | cons x t ih =>
    rw [List.chain'_cons'] at h
    intro i a b ha hb
    cases i with
    | zero =>
      simp only [List.getElem?_cons_zero, Option.some.injEq] at ha
      simp only [Nat.zero_add, List.getElem?_cons_succ] at hb
      subst ha
      apply h.1 b
      rw [List.head?_eq_getElem?]
      exact hb
    | succ j =>
      simp only [List.getElem?_cons_succ] at ha hb
      exact ih h.2 j a b ha hb

theorem take_min_length (data : List Nat) (m : Nat) :
    data.take (min data.length m) = data.take m := by
  rcases Nat.le_total data.length m with h | h
  · rw [Nat.min_eq_left h, List.take_of_length_le h, List.take_of_length_le (le_refl _)]
  · rw [Nat.min_eq_right h]

theorem rf_send_events (bus : Bus) (fuel : Nat) (dev : rf_dev_t) (data : List Nat) (n : Nat) :
    ∃ tl, (rf_send bus fuel dev data n).2 =
        (⟨0x80, true, data.take 66, min data.length 66⟩, bus n) :: tl ∧ Inner tl := by
  rw [rf_send_unfold, TRY_events, take_min_length]
  refine ⟨_, rfl, ?_⟩
  split
  · apply Inner_TRY
    · exact Inner_switch_mode bus fuel _ _
    · intro m2
      apply Inner_TRY
      · exact Inner_refill bus fuel dev fuel _ m2
      · intro m3
        apply Inner_TRY
        · exact Inner_poll bus _ _ (by decide) fuel m3
        · intro m4
          apply Inner_TRY
          · exact Inner_switch_mode bus fuel _ m4
          · intro _
            exact Inner_nil
  · exact Inner_nil

/-! ## C5: the order of the steps of `rf_send` -/

/-- C5: in every run of `rf_send` (whatever the bus answers, whether the call returns or
not) the first transfer is the prefill write to the FIFO register, so every write to the
op-mode register (the one selecting Transmit, 0x0C, included) comes after it; every later
write to the FIFO register is immediately preceded by a successful read of IrqFlags2
(0x28) whose FIFO-level bit (0x20) is clear; and when `rf_send` returns `ERR_OK`, the
transfers after the last FIFO write end with a successful read of IrqFlags2 with the
packet-sent bit (0x08) set, then the write of Standby (0x04) to the op-mode register
(0x01), then only the mode-ready polls. -/
theorem rf_send_order (bus : Bus) (fuel : Nat) (dev : rf_dev_t) (data : List Nat) (n : Nat) :
    (∃ tl, (rf_send bus fuel dev data n).2 =
        (⟨0x80, true, data.take 66, min data.length 66⟩, bus n) :: tl) ∧
    (∀ i e, (rf_send bus fuel dev data n).2[i]? = some e →
        e.1.is_write RegOpMode = true → 0 < i) ∧
    (∀ i a b, (rf_send bus fuel dev data n).2[i]? = some a →
        (rf_send bus fuel dev data n).2[i + 1]? = some b → b.1.is_write RegFifo = true →
        a.1.is_read RegIrqFlags2 = true ∧ a.2.ok = true ∧
          a.2.val &&& IRQ_FLAGS2_FIFOLEVEL = 0) ∧
    ((rf_send bus fuel dev data n).1 = Ret.code ERR_OK →
      ∃ pre p s post, (rf_send bus fuel dev data n).2 = pre ++ p :: s :: post ∧
        fifo_writes pre ≠ [] ∧ fifo_writes (p :: s :: post) = [] ∧
        p.1.is_read RegIrqFlags2 = true ∧ p.2.ok = true ∧
        p.2.val &&& IRQ_FLAGS2_PACKETSENT ≠ 0 ∧
        s.1 = ⟨0x81, true, [0x04], 1⟩ ∧ s.2.ok = true ∧
        ∀ e ∈ post, e.1.is_read RegIrqFlags1 = true) := by
  obtain ⟨tl, htl, hin⟩ := rf_send_events bus fuel dev data n
  refine ⟨⟨tl, htl⟩, ?_, ?_, ?_⟩
  · intro i e hi hw
    cases i with
    | zero =>
      rw [htl] at hi
      simp only [List.getElem?_cons_zero, Option.some.injEq] at hi
      subst hi
      simp [Xfer.is_write, RegOpMode] at hw
    | succ j => exact Nat.succ_pos j
  · have hc : List.Chain' Guarded (rf_send bus fuel dev data n).2 := by
      rw [htl, ← List.singleton_append]
      exact chain_append_Inner _ _ (List.chain'_singleton _) hin
    intro i a b ha hb hw
    exact chain_getElem _ hc i a b ha hb hw
  · intro h
    obtain ⟨n3, n4, n5, _, _, _, h4, h5, hev⟩ := rf_send_ok_parts bus fuel dev data n h
    obtain ⟨init, p, hp, hp1, hp2, hp3⟩ := poll_last bus _ _ (by decide) fuel n4 h4
    obtain ⟨post, hs, hs1, hs2⟩ := switch_mode_ok_shape bus fuel _ _ h5
    refine ⟨(⟨0x80, true, data.take (min data.length 66), min data.length 66⟩, bus n) ::
        ((_switch_mode bus fuel OP_MODE_MODE_TX (n + 1)).2 ++
          ((refill_loop bus fuel dev fuel (data.drop (min data.length 66)) n3).2 ++ init)),
      p, (⟨0x81, true, [0x04], 1⟩, bus n5), post, ?_, ?_, ?_, ?_, hp2, ?_, rfl, hs1, ?_⟩
    · rw [hev, hp, hs]
      simp
      rfl
    · rw [fifo_writes_cons_fifo]
      exact List.cons_ne_nil _ _
    · rw [fifo_writes_cons_other p _ (by rw [hp1]; rfl),
        fifo_writes_cons_other (⟨0x81, true, [0x04], 1⟩, bus n5) _ rfl]
      exact fifo_writes_quiet post (fun e he => by rw [hs2 e he]; rfl)
    · rw [hp1]
      rfl
    · simpa using hp3
    · intro e he
      rw [hs2 e he]
      rfl

/-! ## Buffers -/

theorem store_same (m : Mem) (i v : Nat) : store m i v i = v := by
  simp [store]

theorem store_ne (m : Mem) (i v j : Nat) (h : j ≠ i) : store m i v j = m j := by
  simp [store, h]

theorem bytes_of_length (m : Mem) (len : Nat) : (bytes_of m len).length = len := by
  simp [bytes_of]

theorem bytes_of_getElem? (m : Mem) (len i : Nat) (h : i < len) :
    (bytes_of m len)[i]? = some (m i) := by
  simp [bytes_of, List.getElem?_map, List.getElem?_range h]

set_option maxRecDepth 100000 in
theorem msb_at_testBit_fin :
    ∀ b : Fin 256, ∀ s : Fin 8, msb_at s.1 b.1 = b.1.testBit (7 - s.1) := by
  decide

/-- After `s` left shifts of a byte, the top bit is bit `7 - s` of the byte. -/
theorem msb_at_testBit (b s : Nat) (hb : b < 256) (hs : s < 8) :
    msb_at s b = b.testBit (7 - s) :=
  msb_at_testBit_fin ⟨b, hb⟩ ⟨s, hs⟩

/-! ## `encode_kaku` -/

theorem encode_kaku_loop_succ (i : Nat) (m : Mem) (p b : Nat) :
    encode_kaku_loop (i + 1) m p b =
      encode_kaku_loop i
        (if b &&& 0x80 ≠ 0 then
          store (store (store (store (store (store (store m
            (p + 0) 0xff) (p + 1) 0x00) (p + 2) 0x00)
            (p + 3) 0x00) (p + 4) 0x00) (p + 5) 0xff) (p + 6) 0x00
        else
          store (store (store (store (store (store (store m
            (p + 0) 0xff) (p + 1) 0x00) (p + 2) 0xff)
            (p + 3) 0x00) (p + 4) 0x00) (p + 5) 0x00) (p + 6) 0x00)
        (p + 7) ((b <<< 1) % 256) := rfl

theorem kaku_stores_outside (m : Mem) (p q : Nat) (v0 v1 v2 v3 v4 v5 v6 : Nat)
    (h : q < p ∨ p + 7 ≤ q) :
    store (store (store (store (store (store (store m
      (p + 0) v0) (p + 1) v1) (p + 2) v2) (p + 3) v3) (p + 4) v4) (p + 5) v5) (p + 6) v6 q =
      m q := by
  rw [store_ne _ _ _ _ (by omega), store_ne _ _ _ _ (by omega), store_ne _ _ _ _ (by omega),
    store_ne _ _ _ _ (by omega), store_ne _ _ _ _ (by omega), store_ne _ _ _ _ (by omega),
    store_ne _ _ _ _ (by omega)]

theorem kaku_stores_inside (m : Mem) (p t : Nat) (v0 v1 v2 v3 v4 v5 v6 : Nat) (h : t < 7) :
    store (store (store (store (store (store (store m
      (p + 0) v0) (p + 1) v1) (p + 2) v2) (p + 3) v3) (p + 4) v4) (p + 5) v5) (p + 6) v6
        (p + t) = [v0, v1, v2, v3, v4, v5, v6].getD t 0 := by
  interval_cases t <;> simp [store]

theorem encode_kaku_loop_spec (i : Nat) :
    ∀ (m : Mem) (p b : Nat),
      (encode_kaku_loop i m p b).2 = p + 7 * i ∧
      (∀ q, q < p ∨ p + 7 * i ≤ q → (encode_kaku_loop i m p b).1 q = m q) ∧
      (∀ s t, s < i → t < 7 →
        (encode_kaku_loop i m p b).1 (p + 7 * s + t) =
          (kaku_symbol (msb_at s b)).getD t 0) := by
  induction i with
  | zero =>
    intro m p b
    refine ⟨rfl, fun q _ => rfl, fun s t hs => absurd hs (Nat.not_lt_zero s)⟩
  | succ i ih =>
    intro m p b
    rw [encode_kaku_loop_succ]
    obtain ⟨h1, h2, h3⟩ := ih
      (if b &&& 0x80 ≠ 0 then
          store (store (store (store (store (store (store m
            (p + 0) 0xff) (p + 1) 0x00) (p + 2) 0x00)
            (p + 3) 0x00) (p + 4) 0x00) (p + 5) 0xff) (p + 6) 0x00
        else
          store (store (store (store (store (store (store m
            (p + 0) 0xff) (p + 1) 0x00) (p + 2) 0xff)
            (p + 3) 0x00) (p + 4) 0x00) (p + 5) 0x00) (p + 6) 0x00)
      (p + 7) ((b <<< 1) % 256)
    refine ⟨by rw [h1]; omega, ?_, ?_⟩
    · intro q hq
      rw [h2 q (by omega)]
      split <;> exact kaku_stores_outside m p q _ _ _ _ _ _ _ (by omega)
    · intro s t hs ht
      cases s with
      | zero =>
        rw [h2 _ (by omega)]
        simp only [Nat.mul_zero, Nat.add_zero, msb_at]
        by_cases hb : b &&& 0x80 = 0
        · simp only [hb, ne_eq, not_true_eq_false, ↓reduceIte, kaku_symbol, bne_self_eq_false,
            Bool.false_eq_true]
          exact kaku_stores_inside m p t _ _ _ _ _ _ _ ht
        · have hb' : (b &&& 0x80 != 0) = true := by simpa using hb
          simp only [hb, ne_eq, not_false_eq_true, ↓reduceIte, kaku_symbol, hb']
          exact kaku_stores_inside m p t _ _ _ _ _ _ _ ht
      | succ s' =>
        have := h3 s' t (by omega) ht
        rw [show p + 7 * (s' + 1) + t = p + 7 + 7 * s' + t by omega, this]
        rfl

theorem encode_kaku_spec (m : Mem) (p b : Nat) :
    (encode_kaku m p b).2 = p + 56 ∧
    (∀ q, q < p ∨ p + 56 ≤ q → (encode_kaku m p b).1 q = m q) ∧
    (∀ s t, s < 8 → t < 7 →
      (encode_kaku m p b).1 (p + 7 * s + t) = (kaku_symbol (msb_at s b)).getD t 0) :=
  encode_kaku_loop_spec 8 m p b

/-- The contents of `frame_buf`: byte 0 and byte 233 are 0xFF, bytes 1..8 are 0, and the
seven bytes of data bit `s` of `data[a]` start at offset `9 + 56 a + 7 s`. -/
theorem kaku_frame_mem_spec (data : List Nat) :
    kaku_frame_mem data 0 = 0xff ∧ (∀ q, 1 ≤ q → q < 9 → kaku_frame_mem data q = 0) ∧
    kaku_frame_mem data 233 = 0xff ∧
    (∀ a s t, a < 4 → s < 8 → t < 7 →
      kaku_frame_mem data (9 + 56 * a + 7 * s + t) =
        (kaku_symbol (msb_at s (data.getD a 0))).getD t 0) := by
  unfold kaku_frame_mem
  simp only [KAKU_PREAMBLE_IVALS, Nat.zero_add]
  obtain ⟨e1, o1, i1⟩ := encode_kaku_spec (store (fun _ => 0) 0 0xff) 9 (data.getD 0 0)
  rw [e1]
  obtain ⟨e2, o2, i2⟩ := encode_kaku_spec
    (encode_kaku (store (fun _ => 0) 0 0xff) 9 (data.getD 0 0)).1 (9 + 56) (data.getD 1 0)
  rw [e2]
  obtain ⟨e3, o3, i3⟩ := encode_kaku_spec
    (encode_kaku (encode_kaku (store (fun _ => 0) 0 0xff) 9 (data.getD 0 0)).1 (9 + 56)
      (data.getD 1 0)).1 (9 + 56 + 56) (data.getD 2 0)
  rw [e3]
  obtain ⟨e4, o4, i4⟩ := encode_kaku_spec
    (encode_kaku (encode_kaku (encode_kaku (store (fun _ => 0) 0 0xff) 9 (data.getD 0 0)).1
      (9 + 56) (data.getD 1 0)).1 (9 + 56 + 56) (data.getD 2 0)).1 (9 + 56 + 56 + 56)
      (data.getD 3 0)
  rw [e4]
  refine ⟨?_, ?_, ?_, ?_⟩
  · rw [store_ne _ _ _ _ (by omega), o4 _ (by omega), o3 _ (by omega), o2 _ (by omega),
      o1 _ (by omega), store_same]
  · intro q h1 h9
    rw [store_ne _ _ _ _ (by omega), o4 _ (by omega), o3 _ (by omega), o2 _ (by omega),
      o1 _ (by omega), store_ne _ _ _ _ (by omega)]
  · exact store_same _ _ _
  · intro a s t ha hs ht
    rw [store_ne _ _ _ _ (by omega)]
    interval_cases a
    · rw [o4 _ (by omega), o3 _ (by omega), o2 _ (by omega)]
      exact i1 s t hs ht
    · rw [o4 _ (by omega), o3 _ (by omega)]
      exact i2 s t hs ht
    · rw [o4 _ (by omega)]
      rw [show 9 + 56 * 2 + 7 * s + t = 9 + 56 + 56 + 7 * s + t by omega]
      exact i3 s t hs ht
    · rw [show 9 + 56 * 3 + 7 * s + t = 9 + 56 + 56 + 56 + 7 * s + t by omega]
      exact i4 s t hs ht

/-! ## The repeat loop -/

theorem send_loop_spec (bus : Bus) (fuel : Nat) (dev : rf_dev_t) (frame : List Nat)
    (cnt : Nat) :
    ∀ n, (∀ c ∈ (send_loop bus fuel dev frame cnt n).2, c.1 = frame) ∧
      ((∀ c ∈ (send_loop bus fuel dev frame cnt n).2, c.2 = Ret.code ERR_OK) →
        (send_loop bus fuel dev frame cnt n).2.length = cnt ∧
        (send_loop bus fuel dev frame cnt n).1.1 = Ret.code ERR_OK) ∧
      (∀ k c, (send_loop bus fuel dev frame cnt n).2[k]? = some c → c.2 ≠ Ret.code ERR_OK →
        (send_loop bus fuel dev frame cnt n).2.length = k + 1 ∧
        (send_loop bus fuel dev frame cnt n).1.1 = c.2) := by
  induction cnt with
  | zero =>
    intro n
    simp [send_loop]
  | succ cnt ih =>
    intro n
    unfold send_loop
    by_cases ho : (rf_send bus fuel dev frame n).1 = Ret.code ERR_OK
    · obtain ⟨h1, h2, h3⟩ := ih (n + (rf_send bus fuel dev frame n).2.length)
      simp only [ho, ne_eq, not_true_eq_false, ↓reduceIte, List.mem_cons, List.length_cons]
      refine ⟨?_, ?_, ?_⟩
      · rintro c (rfl | hc)
        · rfl
        · exact h1 c hc
      · intro hall
        have := h2 (fun c hc => hall c (Or.inr hc))
        exact ⟨by omega, this.2⟩
      · intro k c hk hc
        cases k with
        | zero =>
          simp only [List.getElem?_cons_zero, Option.some.injEq] at hk
          subst hk
          exact absurd rfl hc
        | succ j =>
          simp only [List.getElem?_cons_succ] at hk
          have := h3 j c hk hc
          exact ⟨by omega, this.2⟩
    · simp only [ho, ne_eq, not_false_eq_true, ↓reduceIte, List.mem_singleton,
        List.length_singleton]
      refine ⟨fun c hc => by rw [hc], fun hall => absurd (hall _ rfl) ho, ?_⟩
      intro k c hk _
      cases k with
      | zero =>
        simp only [List.getElem?_cons_zero, Option.some.injEq] at hk
        subst hk
        exact ⟨rfl, rfl⟩
      | succ j => simp at hk

/-! ## C6: the PWM frame -/

theorem KAKU_FRAME_IVALS_eq : KAKU_FRAME_IVALS = 234 := by decide

/-- The first call of a repeat loop that runs at least once gets the frame. -/
theorem send_loop_head (bus : Bus) (fuel : Nat) (dev : rf_dev_t) (frame : List Nat)
    (cnt n : Nat) :
    (send_loop bus fuel dev frame (cnt + 1) n).2.head? =
      some (frame, (rf_send bus fuel dev frame n).1) := by
  unfold send_loop
  simp only
  split <;> rfl

/-- C6: for every 4-byte `data`, `kaku_send` calls `rf_send`, and the frame it passes (in
the first call and in every later one) is `kaku_frame data`, which has exactly
234 = 9 + 32·7 + 1 bytes; for `j = 0..31` the seven bytes at offset `9 + 7j` are
FF 00 00 00 00 FF 00 when bit `7 - j mod 8` of `data[j div 8]` is 1 and
FF 00 FF 00 00 00 00 when it is 0 (most significant bit first); the last byte, index 233,
is FF. -/
theorem kaku_frame_layout (data : List Nat) (hlen : data.length = 4)
    (hb : ∀ x ∈ data, x < 256) :
    (kaku_frame data).length = 234 ∧ 234 = 9 + 32 * 7 + 1 ∧
    (∀ j t, j < 32 → t < 7 →
      (kaku_frame data)[9 + 7 * j + t]? =
        (if (data.getD (j / 8) 0).testBit (7 - j % 8)
          then [0xff, 0x00, 0x00, 0x00, 0x00, 0xff, 0x00]
          else [0xff, 0x00, 0xff, 0x00, 0x00, 0x00, 0x00])[t]?) ∧
    (kaku_frame data)[233]? = some 0xff ∧
    (∀ bus fuel dev n, ∀ c ∈ (kaku_send bus fuel dev data n).2, c.1 = kaku_frame data) ∧
    (∀ bus fuel dev n,
      (kaku_send bus fuel dev data n).2.head? =
        some (kaku_frame data, (rf_send bus fuel dev (kaku_frame data) n).1) ∧
      (kaku_send bus fuel dev data n).2 ≠ []) := by
  obtain ⟨_, _, h233, hsym⟩ := kaku_frame_mem_spec data
  have hhead : ∀ bus fuel dev n,
      (kaku_send bus fuel dev data n).2.head? =
        some (kaku_frame data, (rf_send bus fuel dev (kaku_frame data) n).1) :=
    fun bus fuel dev n => send_loop_head bus fuel dev (kaku_frame data) 3 n
  refine ⟨bytes_of_length _ _, rfl, ?_, ?_, ?_, fun bus fuel dev n =>
    ⟨hhead bus fuel dev n, fun hnil => ?_⟩⟩
  · intro j t hj ht
    have hd : data.getD (j / 8) 0 < 256 := by
      have hlt : j / 8 < data.length := by omega
      rw [List.getD_eq_getElem _ _ hlt]
      exact hb _ (List.getElem_mem hlt)
    unfold kaku_frame
    rw [KAKU_FRAME_IVALS_eq, bytes_of_getElem? _ _ _ (by omega),
      show 9 + 7 * j + t = 9 + 56 * (j / 8) + 7 * (j % 8) + t by omega,
      hsym (j / 8) (j % 8) t (by omega) (by omega) ht,
      msb_at_testBit _ _ hd (by omega)]
    unfold kaku_symbol
    split <;> interval_cases t <;> rfl
  · unfold kaku_frame
    rw [KAKU_FRAME_IVALS_eq, bytes_of_getElem? _ _ _ (by decide), h233]
  · intro bus fuel dev n
    exact (send_loop_spec bus fuel dev (kaku_frame data) KAKU_FRAME_REPEAT n).1
  · have := hhead bus fuel dev n
    rw [hnil] at this
    exact absurd this (by simp)

set_option maxRecDepth 100000 in
/-- C6 at a concrete payload, sent on a chip that answers every poll: the first call of
`rf_send` gets the frame. -/
theorem kaku_frame_layout_witness :
    ([0xAA, 0x55, 0x0F, 0xF0] : List Nat).length = 4 ∧
    (∀ x ∈ ([0xAA, 0x55, 0x0F, 0xF0] : List Nat), x < 256) ∧
    (kaku_frame [0xAA, 0x55, 0x0F, 0xF0]).length = 234 ∧
    (kaku_frame [0xAA, 0x55, 0x0F, 0xF0])[9 + 7 * 0 + 5]? = some 0xff ∧
    (kaku_frame [0xAA, 0x55, 0x0F, 0xF0])[9 + 7 * 1 + 2]? = some 0xff ∧
    (kaku_frame [0xAA, 0x55, 0x0F, 0xF0])[233]? = some 0xff ∧
    (kaku_send (const_bus 0x88) 5 ⟨3, 15⟩ [0xAA, 0x55, 0x0F, 0xF0] 0).2.head? =
      some (kaku_frame [0xAA, 0x55, 0x0F, 0xF0],
        (rf_send (const_bus 0x88) 5 ⟨3, 15⟩ (kaku_frame [0xAA, 0x55, 0x0F, 0xF0]) 0).1) ∧
    (kaku_send (const_bus 0x88) 5 ⟨3, 15⟩ [0xAA, 0x55, 0x0F, 0xF0] 0).2 ≠ [] :=
  ⟨rfl, by decide,
    (kaku_frame_layout [0xAA, 0x55, 0x0F, 0xF0] rfl (by decide)).1,
    (kaku_frame_layout [0xAA, 0x55, 0x0F, 0xF0] rfl (by decide)).2.2.1 0 5
      (by decide) (by decide),
    (kaku_frame_layout [0xAA, 0x55, 0x0F, 0xF0] rfl (by decide)).2.2.1 1 2
      (by decide) (by decide),
    (kaku_frame_layout [0xAA, 0x55, 0x0F, 0xF0] rfl (by decide)).2.2.2.1,
    ((kaku_frame_layout [0xAA, 0x55, 0x0F, 0xF0] rfl (by decide)).2.2.2.2.2
      (const_bus 0x88) 5 ⟨3, 15⟩ 0).1,
    ((kaku_frame_layout [0xAA, 0x55, 0x0F, 0xF0] rfl (by decide)).2.2.2.2.2
      (const_bus 0x88) 5 ⟨3, 15⟩ 0).2⟩

/-! ## C7: the preamble of the PWM frame -/

set_option maxRecDepth 100000 in
/-- C7 as stated fails: the second byte of the frame built for the payload
AA 55 0F F0 is 0x00, so the first nine bytes are not all 0xFF. -/
theorem kaku_preamble_not_all_on :
    ¬ (∀ i, i < 9 → (kaku_frame [0xAA, 0x55, 0x0F, 0xF0])[i]? = some 0xff) := by
  intro h
  exact absurd (h 1 (by decide)) (by decide)

/-- C7 amended: for every `data`, the first nine bytes of the frame built by `kaku_send`
are one carrier-on byte (0xFF) followed by eight carrier-off bytes (0x00): `kaku_send`
zeroes the buffer, sets its first byte and moves the head past the nine preamble
intervals. -/
theorem kaku_preamble (data : List Nat) :
    (kaku_frame data).take 9 = [0xff, 0x00, 0x00, 0x00, 0x00, 0x00, 0x00, 0x00, 0x00] := by
  obtain ⟨h0, h18, _, _⟩ := kaku_frame_mem_spec data
  have : (kaku_frame data).take 9 = bytes_of (kaku_frame_mem data) 9 := by
    unfold kaku_frame bytes_of
    rw [← List.map_take, List.take_range]
    rfl
  rw [this]
  simp only [bytes_of, List.range_succ, List.range_zero, List.nil_append, List.cons_append,
    List.map_cons, List.map_nil, h0, h18 1 (by decide) (by decide),
    h18 2 (by decide) (by decide), h18 3 (by decide) (by decide),
    h18 4 (by decide) (by decide), h18 5 (by decide) (by decide),
    h18 6 (by decide) (by decide), h18 7 (by decide) (by decide),
    h18 8 (by decide) (by decide)]

/-! ## `encode_rts` -/

theorem store_store (m : Mem) (i a b : Nat) : store (store m i a) i b = store m i b := by
  funext j
  simp only [store]
  split <;> rfl

theorem encode_rts_loop_succ (i : Nat) (m : Mem) (p b : Nat) :
    encode_rts_loop (i + 1) m p b =
      encode_rts_loop i (store m p (shift_in (m p) (msb_at 0 b)))
        (if i + 1 = 5 then p + 1 else p) ((b <<< 1) % 256) := by
  conv_lhs => unfold encode_rts_loop
  by_cases hb : b &&& 0x80 = 0
  · simp [hb, store_store, store_same, shift_in, msb_at, rts_symbol_of]
  · simp [hb, store_store, store_same, shift_in, msb_at, rts_symbol_of]

theorem rts_symbol_of_pos (bit : Bool) : 1 ≤ rts_symbol_of bit ∧ rts_symbol_of bit ≤ 2 := by
  cases bit <;> decide

theorem shift_in_eq (v : Nat) (bit : Bool) :
    shift_in v bit = 4 * (v % 64) + rts_symbol_of bit := by
  unfold shift_in
  have h1 : (v <<< 2) % 256 = 2 ^ 2 * (v % 64) := by
    rw [Nat.shiftLeft_eq]
    omega
  have h2 : rts_symbol_of bit < 2 ^ 2 := by
    have := rts_symbol_of_pos bit
    omega
  rw [h1, ← Nat.mul_add_lt_is_or h2]

theorem shift_in_four (v : Nat) (b0 b1 b2 b3 : Bool) :
    shift_in (shift_in (shift_in (shift_in v b0) b1) b2) b3 =
      64 * rts_symbol_of b0 + 16 * rts_symbol_of b1 + 4 * rts_symbol_of b2 +
        rts_symbol_of b3 := by
  simp only [shift_in_eq]
  have := rts_symbol_of_pos b0
  have := rts_symbol_of_pos b1
  have := rts_symbol_of_pos b2
  have := rts_symbol_of_pos b3
  omega

theorem encode_rts_eq (m : Mem) (p b : Nat) :
    encode_rts m p b = (store (store m p (rts_hi b)) (p + 1) (rts_lo b), p + 2) := by
  unfold encode_rts
  have h8 : encode_rts_loop 8 m p b =
      (store (store m p (rts_hi b)) (p + 1) (rts_lo b), p + 1) := by
    rw [show (8 : Nat) = 7 + 1 from rfl, encode_rts_loop_succ,
      show (7 : Nat) = 6 + 1 from rfl, encode_rts_loop_succ,
      show (6 : Nat) = 5 + 1 from rfl, encode_rts_loop_succ,
      show (5 : Nat) = 4 + 1 from rfl, encode_rts_loop_succ,
      show (4 : Nat) = 3 + 1 from rfl, encode_rts_loop_succ,
      show (3 : Nat) = 2 + 1 from rfl, encode_rts_loop_succ,
      show (2 : Nat) = 1 + 1 from rfl, encode_rts_loop_succ,
      show (1 : Nat) = 0 + 1 from rfl, encode_rts_loop_succ]
    simp only [Nat.reduceAdd, Nat.reduceEqDiff, ↓reduceIte, store_same, store_store,
      store_ne _ _ _ _ (Nat.succ_ne_self p), encode_rts_loop, shift_in_four, msb_at, rts_hi,
      rts_lo]
  rw [h8]

theorem encode_rts_spec (m : Mem) (p b : Nat) :
    (encode_rts m p b).2 = p + 2 ∧ (encode_rts m p b).1 p = rts_hi b ∧
    (encode_rts m p b).1 (p + 1) = rts_lo b ∧
    ∀ q, q < p ∨ p + 2 ≤ q → (encode_rts m p b).1 q = m q := by
  rw [encode_rts_eq]
  refine ⟨rfl, ?_, store_same _ _ _, ?_⟩
  · show store (store m p (rts_hi b)) (p + 1) (rts_lo b) p = rts_hi b
    rw [store_ne _ _ _ _ (by omega), store_same]
  · intro q hq
    show store (store m p (rts_hi b)) (p + 1) (rts_lo b) q = m q
    rw [store_ne _ _ _ _ (by omega), store_ne _ _ _ _ (by omega)]

theorem rts_encode_from_spec (data : List Nat) (k : Nat) :
    ∀ (i : Nat) (m : Mem) (head : Nat),
      (rts_encode_from data k i m head).2 = head + 2 * k ∧
      (∀ q, q < head ∨ head + 2 * k ≤ q → (rts_encode_from data k i m head).1 q = m q) ∧
      (∀ j, j < k →
        (rts_encode_from data k i m head).1 (head + 2 * j) = rts_hi (data.getD (i + j) 0) ∧
        (rts_encode_from data k i m head).1 (head + 2 * j + 1) =
          rts_lo (data.getD (i + j) 0)) := by
  induction k with
  | zero =>
    intro i m head
    exact ⟨rfl, fun q _ => rfl, fun j hj => absurd hj (Nat.not_lt_zero j)⟩
  | succ k ih =>
    intro i m head
    obtain ⟨e, hhi, hlo, hout⟩ := encode_rts_spec m head (data.getD i 0)
    obtain ⟨h1, h2, h3⟩ := ih (i + 1) (encode_rts m head (data.getD i 0)).1
      (encode_rts m head (data.getD i 0)).2
    rw [e] at h1 h2 h3
    have hunf : rts_encode_from data (k + 1) i m head =
        rts_encode_from data k (i + 1) (encode_rts m head (data.getD i 0)).1
          (encode_rts m head (data.getD i 0)).2 := rfl
    rw [hunf, e]
    refine ⟨by rw [h1]; omega, ?_, ?_⟩
    · intro q hq
      rw [h2 q (by omega), hout q (by omega)]
    · intro j hj
      cases j with
      | zero =>
        rw [h2 _ (by omega), h2 _ (by omega)]
        exact ⟨hhi, hlo⟩
      | succ j' =>
        have := h3 j' (by omega)
        rw [show head + 2 * (j' + 1) = head + 2 + 2 * j' by omega,
          show i + (j' + 1) = i + 1 + j' by omega]
        exact this

/-- The encoding part of `sx1231_rts_send`: the head ends at 23, the bytes outside
9..22 keep their value, and bytes `9 + 2i`, `10 + 2i` hold the expansion of `data[i]`,
whatever the array held before. -/
theorem rts_encode_spec (g : Mem) (data : List Nat) :
    (rts_encode g data).2 = 23 ∧
    (∀ q, q < 9 ∨ 23 ≤ q → (rts_encode g data).1 q = g q) ∧
    (∀ i, i < 7 →
      (rts_encode g data).1 (9 + 2 * i) = rts_hi (data.getD i 0) ∧
      (rts_encode g data).1 (9 + 2 * i + 1) = rts_lo (data.getD i 0)) := by
  obtain ⟨h1, h2, h3⟩ := rts_encode_from_spec data 7 0 g bRts_PreambleSize_c
  refine ⟨h1, h2, fun i hi => ?_⟩
  have := h3 i hi
  rw [Nat.zero_add] at this
  exact this

theorem rts_state_sync (prev : List (List Nat)) :
    ∀ q, q < 9 → rts_state prev q = abRts_FrameArray q := by
  have key : ∀ (l : List (List Nat)) (g : Mem), (∀ q, q < 9 → g q = abRts_FrameArray q) →
      ∀ q, q < 9 → l.foldl (fun g d => (rts_encode g d).1) g q = abRts_FrameArray q := by
    intro l
    induction l with
    | nil => exact fun g hg => hg
    | cons d l ih =>
      intro g hg
      rw [List.foldl_cons]
      apply ih
      intro q hq
      rw [(rts_encode_spec g d).2.1 q (Or.inl hq)]
      exact hg q hq
  exact key prev abRts_FrameArray (fun _ _ => rfl)

theorem bytes_of_take (m : Mem) (len k : Nat) (h : k ≤ len) :
    (bytes_of m len).take k = bytes_of m k := by
  unfold bytes_of
  rw [← List.map_take, List.take_range, Nat.min_eq_left h]

theorem bytes_of_getD (m : Mem) (len i : Nat) (h : i < len) :
    (bytes_of m len).getD i 0 = m i := by
  rw [List.getD_eq_getElem?_getD, bytes_of_getElem? m len i h]
  rfl

/-! ## C8: the rolling-code frame -/

/-- C8: for every `data` and after any earlier calls of `sx1231_rts_send` (with the
payloads `prev`), the frame passed to `rf_send`, in every call of it, has exactly 23 bytes
and its first 9 bytes are 01 E1 E1 E1 E1 E1 E1 E1 FE; encoding the 7 data bytes changes
no byte outside the indices 9..22, whatever the array held, and leaves the head at
index 23. -/
theorem rts_frame_sync (prev : List (List Nat)) (data : List Nat) :
    (rts_frame (rts_state prev) data).length = 23 ∧
    (rts_frame (rts_state prev) data).take 9 =
      [0x01, 0xe1, 0xe1, 0xe1, 0xe1, 0xe1, 0xe1, 0xe1, 0xfe] ∧
    (∀ g : Mem, (rts_encode g data).2 = 23 ∧
      ∀ q, q < 9 ∨ 23 ≤ q → (rts_encode g data).1 q = g q) ∧
    (∀ bus fuel dev long_press n,
      ∀ c ∈ (sx1231_rts_send bus fuel (rts_state prev) dev data long_press n).1.2,
        c.1 = rts_frame (rts_state prev) data) := by
  refine ⟨bytes_of_length _ _, ?_, fun g => ⟨(rts_encode_spec g data).1,
    (rts_encode_spec g data).2.1⟩, ?_⟩
  · have hq : ∀ q, q < 9 → (rts_encode (rts_state prev) data).1 q = abRts_FrameArray q :=
      fun q hq => by
        rw [(rts_encode_spec _ data).2.1 q (Or.inl hq), rts_state_sync prev q hq]
    unfold rts_frame
    rw [bytes_of_take _ _ _ (by decide)]
    simp only [bytes_of, List.range_succ, List.range_zero, List.nil_append, List.cons_append,
      List.map_cons, List.map_nil, hq 0 (by decide), hq 1 (by decide), hq 2 (by decide),
      hq 3 (by decide), hq 4 (by decide), hq 5 (by decide), hq 6 (by decide),
      hq 7 (by decide), hq 8 (by decide)]
    rfl
  · intro bus fuel dev long_press n
    exact (send_loop_spec bus fuel dev _ _ n).1

/-! ## C9: the bit order of the rolling-code encoder -/

theorem rts_pack_symbol :
    ∀ b0 b1 b2 b3 : Bool, ∀ r : Fin 4,
      ((64 * rts_symbol_of b0 + 16 * rts_symbol_of b1 + 4 * rts_symbol_of b2 +
        rts_symbol_of b3) >>> (6 - 2 * r.1)) &&& 3 =
        rts_symbol_of ([b0, b1, b2, b3].getD r.1 false) := by
  decide

theorem rts_hi_symbol (b k : Nat) (hk : k < 4) :
    (rts_hi b >>> (6 - 2 * k)) &&& 3 = rts_symbol_of (msb_at k b) := by
  have := rts_pack_symbol (msb_at 0 b) (msb_at 1 b) (msb_at 2 b) (msb_at 3 b) ⟨k, hk⟩
  unfold rts_hi
  rw [this]
  interval_cases k <;> rfl

theorem rts_lo_symbol (b k : Nat) (hk : k < 4) :
    (rts_lo b >>> (6 - 2 * k)) &&& 3 = rts_symbol_of (msb_at (4 + k) b) := by
  have := rts_pack_symbol (msb_at 4 b) (msb_at 5 b) (msb_at 6 b) (msb_at 7 b) ⟨k, hk⟩
  unfold rts_lo
  rw [this]
  interval_cases k <;> rfl

set_option maxRecDepth 100000 in
/-- C9 as stated fails: for the payload 01 00 00 00 00 00 00 the symbol in the top two
bits of `frame[9]` (k = 0) is 10, the symbol of a clear bit, although bit 0 of `data[0]`
is set; the only symbol 01 of the expansion of `data[0]` is the last one (k = 7). -/
theorem rts_not_lsb_first :
    ¬ (∀ i k, i < 7 → k < 8 →
        rts_symbol (rts_frame abRts_FrameArray [0x01, 0, 0, 0, 0, 0, 0]) i k =
          rts_symbol_of ((([0x01, 0, 0, 0, 0, 0, 0] : List Nat).getD i 0).testBit k)) ∧
    (List.range 8).map (rts_symbol (rts_frame abRts_FrameArray [0x01, 0, 0, 0, 0, 0, 0]) 0) =
      [2, 2, 2, 2, 2, 2, 2, 1] := by
  refine ⟨fun h => absurd (h 0 0 (by decide) (by decide)) (by decide), by decide⟩

/-- C9 amended: the rolling-code encoder expands each payload byte most-significant bit
first, the same bit order as the PWM encoder: for each `data[i]`, the `k`-th 2-bit symbol
of its expansion (k = 0..7, counted from the top two bits of `frame[9+2i]` down to the
bottom two bits of `frame[10+2i]`) encodes bit `7 - k` of `data[i]`, as 01 for a set bit
and 10 for a clear bit, whatever the frame array held before. -/
theorem rts_msb_first (g : Mem) (data : List Nat) (hlen : data.length = 7)
    (hb : ∀ x ∈ data, x < 256) (i k : Nat) (hi : i < 7) (hk : k < 8) :
    rts_symbol (rts_frame g data) i k =
      rts_symbol_of ((data.getD i 0).testBit (7 - k)) := by
  have hd : data.getD i 0 < 256 := by
    have hlt : i < data.length := by omega
    rw [List.getD_eq_getElem _ _ hlt]
    exact hb _ (List.getElem_mem hlt)
  obtain ⟨hhi, hlo⟩ := (rts_encode_spec g data).2.2 i hi
  unfold rts_symbol rts_frame
  rw [bytes_of_getD _ _ _ (by unfold bRts_MaxFrameSize_c; omega),
    ← msb_at_testBit _ _ hd hk]
  rcases Nat.lt_or_ge k 4 with h4 | h4
  · rw [show 9 + 2 * i + k / 4 = 9 + 2 * i by omega, hhi, show k % 4 = k by omega]
    exact rts_hi_symbol _ k h4
  · rw [show 9 + 2 * i + k / 4 = 9 + 2 * i + 1 by omega, hlo,
      show k % 4 = k - 4 by omega, rts_lo_symbol _ (k - 4) (by omega),
      show 4 + (k - 4) = k by omega]

set_option maxRecDepth 100000 in
/-- C9 amended, at a concrete payload: the top symbol of `frame[9]` is 01 for a first
byte 0x80. -/
theorem rts_msb_first_witness :
    ([0x80, 0, 0, 0, 0, 0, 0x01] : List Nat).length = 7 ∧
    (∀ x ∈ ([0x80, 0, 0, 0, 0, 0, 0x01] : List Nat), x < 256) ∧
    rts_symbol (rts_frame abRts_FrameArray [0x80, 0, 0, 0, 0, 0, 0x01]) 0 0 =
      rts_symbol_of ((([0x80, 0, 0, 0, 0, 0, 0x01] : List Nat).getD 0 0).testBit (7 - 0)) ∧
    rts_symbol (rts_frame abRts_FrameArray [0x80, 0, 0, 0, 0, 0, 0x01]) 0 0 = 1 :=
  ⟨rfl, by decide,
    rts_msb_first abRts_FrameArray [0x80, 0, 0, 0, 0, 0, 0x01] rfl (by decide) 0 0
      (by decide) (by decide),
    by decide⟩

/-! ## C10: the repeats of `sx1231_rts_send` -/

/-- C10: every call of `rf_send` made by `sx1231_rts_send` gets the same 23-byte frame;
when every call returns `ERR_OK` there are exactly 4 calls for a short press and exactly
200 for a long press, and `sx1231_rts_send` returns `ERR_OK`; when the call of index `k`
(counted from 0, so the `k+1`-th call) returns an error `e`, `sx1231_rts_send` returns `e`
and that call is the last one: exactly `k + 1` calls were made. -/
theorem rts_send_repeats (bus : Bus) (fuel : Nat) (g : Mem) (dev : rf_dev_t)
    (data : List Nat) (long_press : Bool) (n : Nat) :
    (∀ c ∈ (sx1231_rts_send bus fuel g dev data long_press n).1.2,
      c.1 = rts_frame g data ∧ c.1.length = 23) ∧
    ((∀ c ∈ (sx1231_rts_send bus fuel g dev data long_press n).1.2, c.2 = Ret.code ERR_OK) →
      (sx1231_rts_send bus fuel g dev data long_press n).1.2.length =
        (if long_press then 200 else 4) ∧
      (sx1231_rts_send bus fuel g dev data long_press n).1.1.1 = Ret.code ERR_OK) ∧
    (∀ k e, (sx1231_rts_send bus fuel g dev data long_press n).1.2[k]? =
        some (rts_frame g data, Ret.code e) → e ≠ ERR_OK →
      (sx1231_rts_send bus fuel g dev data long_press n).1.2.length = k + 1 ∧
      (sx1231_rts_send bus fuel g dev data long_press n).1.1.1 = Ret.code e) := by
  obtain ⟨h1, h2, h3⟩ := send_loop_spec bus fuel dev (rts_frame g data)
    (if long_press then 200 else 4) n
  refine ⟨fun c hc => ?_, h2, fun k e hk he => ?_⟩
  · have := h1 c hc
    exact ⟨this, by rw [this]; exact bytes_of_length _ _⟩
  · exact h3 k _ hk (fun h => he (by injection h))

set_option maxRecDepth 100000 in
/-- C10 at concrete runs: a short press on a chip that always answers makes 4 calls; a
long press whose tenth transfer fails (inside the second call) makes 2 calls and returns
the error of the transport. -/
theorem rts_send_repeats_witness :
    (sx1231_rts_send (const_bus 0x88) 3 abRts_FrameArray ⟨3, 15⟩ [1, 2, 3, 4, 5, 6, 7]
      false 0).1.2.length = 4 ∧
    (sx1231_rts_send (failing_bus 9 0x88) 3 abRts_FrameArray ⟨3, 15⟩ [1, 2, 3, 4, 5, 6, 7]
      true 0).1.2.length = 1 + 1 ∧
    (sx1231_rts_send (failing_bus 9 0x88) 3 abRts_FrameArray ⟨3, 15⟩ [1, 2, 3, 4, 5, 6, 7]
      true 0).1.1.1 = Ret.code ERR_SPI_IOCTL :=
  ⟨((rts_send_repeats (const_bus 0x88) 3 abRts_FrameArray ⟨3, 15⟩ [1, 2, 3, 4, 5, 6, 7]
      false 0).2.1 (by decide)).1,
    (rts_send_repeats (failing_bus 9 0x88) 3 abRts_FrameArray ⟨3, 15⟩ [1, 2, 3, 4, 5, 6, 7]
      true 0).2.2 1 ERR_SPI_IOCTL (by decide) (by decide)⟩

/-! ## Single register transfers -/

theorem spi_write_reg_low (bus : Bus) (n : Nat) (addr v : Nat) (ha : addr &&& 0x80 = 0) :
    spi_write_reg bus n addr v =
      (if (bus n).ok = true then ERR_OK else ERR_SPI_IOCTL,
        [(⟨addr ||| 0x80, true, [v % 256], 1⟩, bus n)]) := by
  unfold spi_write_reg _spi_transfer
  cases h : (bus n).ok <;> simp [ha, h]

theorem spi_write_regs_low (bus : Bus) (n : Nat) (addr : Nat) (data : List Nat) (len : Nat)
    (ha : addr &&& 0x80 = 0) :
    spi_write_regs bus n addr data len =
      (if (bus n).ok = true then ERR_OK else ERR_SPI_IOCTL,
        [(⟨addr ||| 0x80, true, data.take len, len⟩, bus n)]) := by
  unfold spi_write_regs _spi_transfer
  cases h : (bus n).ok <;> simp [ha, h]

theorem ERR_INVAL_ne_zero : ERR_INVAL ≠ 0 := by decide

theorem ERR_INVAL_ne_IOCTL : ERR_INVAL ≠ ERR_SPI_IOCTL := by decide

/-! ## C11, C12: `rf_set_pa` -/

set_option maxRecDepth 100000 in
theorem pa_bits_fin :
    ∀ level : Fin 256, ∀ pa1_on : Bool,
      (¬ ((pa1_on = false ∧ level.1 > 31) ∨ (pa1_on = true ∧ level.1 > 35)) →
        spec_pa_byte level.1 pa1_on < 256 ∧
        pa_decode (spec_pa_byte level.1 pa1_on) = (level.1, pa1_on) ∧
        spec_pa_byte level.1 pa1_on &&& 0x1f ≤ 31 ∧
        spec_pa_byte level.1 pa1_on &&& 0x1f = (if level.1 ≤ 31 then level.1 else level.1 - 4) ∧
        spec_pa_byte level.1 pa1_on &&& 0xe0 =
          (if pa1_on then (if level.1 ≤ 31 then 0x40 else 0x60) else 0x80)) := by
  decide

/-- What `rf_set_pa` does: it refuses the arguments with `ERR_INVAL` and no transfer, or
writes one byte to the PA-level register and returns the code of that write. -/
theorem rf_set_pa_eq (bus : Bus) (dev : rf_dev_t) (level : Nat) (pa1_on : Bool) (n : Nat)
    (hl : level < 256) :
    rf_set_pa bus dev level pa1_on n =
      if (pa1_on = false ∧ level > 31) ∨ (pa1_on = true ∧ level > 35) then
        (Ret.code ERR_INVAL, [])
      else ret (spi_write_reg bus n RegPaLevel (spec_pa_byte level pa1_on)) := by
  unfold rf_set_pa spec_pa_byte
  cases pa1_on
  · simp only [Bool.false_eq_true, ↓reduceIte, true_and, false_and, or_false]
    split
    · rfl
    · simp
  · simp only [↓reduceIte, Bool.true_eq_false, false_and, true_and, false_or]
    by_cases h31 : level > 0x1f
    · simp only [h31, ↓reduceIte]
      have h1 : (level + 256 - 4) % 256 = level - 4 := by omega
      rw [h1]
      by_cases h35 : level > 35
      · have : level - 4 > 0x1f := by omega
        simp [this, h35]
      · have : ¬ level - 4 > 0x1f := by omega
        have h2 : ¬ level ≤ 31 := by omega
        simp [this, h35, h2]
    · have h35 : ¬ level > 35 := by omega
      have h2 : level ≤ 31 := by omega
      simp [h31, h35, h2]

/-- C11: for every `level` in 0..255, `rf_set_pa` returns `ERR_INVAL` exactly when
(`pa1_on` is false and `level > 31`) or (`pa1_on` is true and `level > 35`), and then it
performs no transfer; in every other case it performs exactly one transfer, a write of one
byte to the PA-level register (0x11), and returns the code of that write. -/
theorem rf_set_pa_refuses (bus : Bus) (dev : rf_dev_t) (level : Nat) (pa1_on : Bool)
    (n : Nat) (hl : level < 256) :
    ((rf_set_pa bus dev level pa1_on n).1 = Ret.code ERR_INVAL ↔
      ((pa1_on = false ∧ level > 31) ∨ (pa1_on = true ∧ level > 35))) ∧
    (((pa1_on = false ∧ level > 31) ∨ (pa1_on = true ∧ level > 35)) →
      (rf_set_pa bus dev level pa1_on n).2 = []) ∧
    (¬ ((pa1_on = false ∧ level > 31) ∨ (pa1_on = true ∧ level > 35)) →
      ∃ v, rf_set_pa bus dev level pa1_on n = ret (spi_write_reg bus n RegPaLevel v) ∧
        (rf_set_pa bus dev level pa1_on n).2 = [(⟨0x11 ||| 0x80, true, [v % 256], 1⟩, bus n)] ∧
        (rf_set_pa bus dev level pa1_on n).1 =
          Ret.code (if (bus n).ok = true then ERR_OK else ERR_SPI_IOCTL)) := by
  rw [rf_set_pa_eq bus dev level pa1_on n hl]
  by_cases h : (pa1_on = false ∧ level > 31) ∨ (pa1_on = true ∧ level > 35)
  · simp only [h, ↓reduceIte, true_iff, not_true_eq_false, false_implies, and_true,
      implies_true]
  · simp only [h, ↓reduceIte, iff_false, false_implies, not_false_eq_true, true_implies,
      true_and]
    rw [spi_write_reg_low bus n RegPaLevel _ (by decide)]
    refine ⟨?_, spec_pa_byte level pa1_on, ?_, rfl, rfl⟩
    · intro hc
      have : (if (bus n).ok = true then ERR_OK else ERR_SPI_IOCTL) = ERR_INVAL := by
        injection hc
      split at this
      · exact ERR_INVAL_ne_zero this.symm
      · exact ERR_INVAL_ne_IOCTL this.symm
    · rw [spi_write_reg_low bus n RegPaLevel _ (by decide)]

/-- C11 at concrete arguments: level 36 on the secondary bank is refused, level 35 is
written. -/
theorem rf_set_pa_refuses_witness :
    (36 : Nat) < 256 ∧
    (rf_set_pa (const_bus 0) ⟨3, 15⟩ 36 true 0).1 = Ret.code ERR_INVAL ∧
    (rf_set_pa (const_bus 0) ⟨3, 15⟩ 36 true 0).2 = [] ∧
    (rf_set_pa (const_bus 0) ⟨3, 15⟩ 35 true 0).1 ≠ Ret.code ERR_INVAL :=
  ⟨by decide,
    (rf_set_pa_refuses (const_bus 0) ⟨3, 15⟩ 36 true 0 (by decide)).1.2
      (Or.inr ⟨rfl, by decide⟩),
    (rf_set_pa_refuses (const_bus 0) ⟨3, 15⟩ 36 true 0 (by decide)).2.1
      (Or.inr ⟨rfl, by decide⟩),
    fun h => absurd ((rf_set_pa_refuses (const_bus 0) ⟨3, 15⟩ 35 true 0 (by decide)).1.1 h)
      (by decide)⟩

/-- C12: whenever `rf_set_pa` accepts its arguments, the single byte it writes to the
PA-level register (0x11) is `0x80 | level` for the primary bank, `0x40 | level` for the
secondary bank with `level ≤ 31`, and `0x60 | (level - 4)` for the secondary bank with
`level` in 32..35; its low five bits hold the level written (at most 31), its top three
bits hold the bank bits alone, and two accepted settings that differ give different
bytes. -/
theorem rf_set_pa_byte (bus : Bus) (dev : rf_dev_t) (level : Nat) (pa1_on : Bool) (n : Nat)
    (hl : level < 256)
    (hacc : ¬ ((pa1_on = false ∧ level > 31) ∨ (pa1_on = true ∧ level > 35))) :
    (rf_set_pa bus dev level pa1_on n).2 =
      [(⟨0x11 ||| 0x80, true,
        [if pa1_on then (if level ≤ 31 then 0x40 ||| level else 0x60 ||| (level - 4))
          else 0x80 ||| level], 1⟩, bus n)] ∧
    spec_pa_byte level pa1_on &&& 0x1f = (if level ≤ 31 then level else level - 4) ∧
    spec_pa_byte level pa1_on &&& 0x1f ≤ 31 ∧
    spec_pa_byte level pa1_on &&& 0xe0 =
      (if pa1_on then (if level ≤ 31 then 0x40 else 0x60) else 0x80) ∧
    (∀ level2 pa2, level2 < 256 →
      ¬ ((pa2 = false ∧ level2 > 31) ∨ (pa2 = true ∧ level2 > 35)) →
      (rf_set_pa bus dev level pa1_on n).2 = (rf_set_pa bus dev level2 pa2 n).2 →
      level = level2 ∧ pa1_on = pa2) := by
  have key := pa_bits_fin ⟨level, hl⟩ pa1_on hacc
  have hev : ∀ l p, l < 256 → ¬ ((p = false ∧ l > 31) ∨ (p = true ∧ l > 35)) →
      (rf_set_pa bus dev l p n).2 = [(⟨0x11 ||| 0x80, true, [spec_pa_byte l p], 1⟩, bus n)] := by
    intro l p hl' hp
    rw [rf_set_pa_eq bus dev l p n hl']
    simp only [hp, ↓reduceIte]
    rw [spi_write_reg_low bus n RegPaLevel _ (by decide)]
    have := (pa_bits_fin ⟨l, hl'⟩ p hp).1
    simp only [ret, RegPaLevel, Nat.mod_eq_of_lt this]
  refine ⟨hev level pa1_on hl hacc, key.2.2.2.1, key.2.2.1, key.2.2.2.2, ?_⟩
  intro level2 pa2 hl2 hacc2 heq
  rw [hev level pa1_on hl hacc, hev level2 pa2 hl2 hacc2] at heq
  have hb : spec_pa_byte level pa1_on = spec_pa_byte level2 pa2 := by
    simpa using heq
  have d1 := key.2.1
  have d2 := (pa_bits_fin ⟨level2, hl2⟩ pa2 hacc2).2.1
  rw [hb, d2] at d1
  simp only [Prod.mk.injEq] at d1
  exact ⟨d1.1.symm, d1.2.symm⟩

/-- C12 at concrete arguments: level 35 on the secondary bank writes 0x7F. -/
theorem rf_set_pa_byte_witness :
    (35 : Nat) < 256 ∧
    (rf_set_pa (const_bus 0) ⟨3, 15⟩ 35 true 0).2 =
      [(⟨0x91, true, [0x7f], 1⟩, const_bus 0 0)] :=
  ⟨by decide,
    (rf_set_pa_byte (const_bus 0) ⟨3, 15⟩ 35 true 0 (by decide) (by decide)).1⟩

/-! ## C13, C14: `rf_open` -/

/-- The four ways through `rf_open` once the device file is open. -/
theorem rf_open_eq (bus : Bus) (fd : Int) (dev : rf_dev_t) (n : Nat) (hfd : fd ≠ -1) :
    rf_open bus fd dev n =
      if (bus n).ok = false then
        ((Ret.code ERR_SPI_IOCTL, [(⟨0x10, false, [], 1⟩, bus n)]), ⟨-1, dev.fifo_thresh⟩)
      else if (bus n).val &&& 0xF0 ≠ 0x20 then
        ((Ret.code ERR_RFM_CHIP_VERSION, [(⟨0x10, false, [], 1⟩, bus n)]),
          ⟨-1, dev.fifo_thresh⟩)
      else if (bus (n + 1)).ok = false then
        ((Ret.code ERR_SPI_IOCTL,
          [(⟨0x10, false, [], 1⟩, bus n), (⟨0x3C, false, [], 1⟩, bus (n + 1))]),
          ⟨-1, dev.fifo_thresh⟩)
      else
        ((Ret.code ERR_OK,
          [(⟨0x10, false, [], 1⟩, bus n), (⟨0x3C, false, [], 1⟩, bus (n + 1))]),
          ⟨fd, (bus (n + 1)).val &&& 0x7f⟩) := by
  unfold rf_open _sync_config
  rw [spi_read_reg_low bus n RegVersion (by decide)]
  simp only [hfd, ↓reduceIte, List.length_singleton]
  rw [spi_read_reg_low bus (n + 1) RegFifoThresh (by decide)]
  cases h0 : (bus n).ok
  · simp [ERR_SPI_IOCTL_ne_zero, rf_close, RegVersion]
  · by_cases hv : (bus n).val &&& 0xF0 = 0x20
    · cases h1 : (bus (n + 1)).ok
      · simp [hv, ERR_SPI_IOCTL_ne_zero, rf_close, RegVersion, RegFifoThresh, ERR_OK,
          SX1231_VERSION, SX1231_VERSION_MASK]
      · simp [hv, rf_close, RegVersion, RegFifoThresh, ERR_OK, SX1231_VERSION,
          SX1231_VERSION_MASK]
    · simp [hv, rf_close, RegVersion, ERR_OK, SX1231_VERSION, SX1231_VERSION_MASK]

theorem ERR_RFM_CHIP_VERSION_ne_zero : ERR_RFM_CHIP_VERSION ≠ 0 := by decide

/-- C13: once the device file is open (`open` returned a descriptor other than -1), every
failure of `rf_open` leaves `dev->fd = -1` and returns a nonzero code. When the version
read fails the code is the transport's (`ERR_SPI_IOCTL`); when it succeeds with
`(version & 0xF0) ≠ 0x20` the code is `ERR_RFM_CHIP_VERSION` and the version read is the
only transfer; when the version is accepted the failure is that of the FIFO-threshold
read, whose transport error is returned. -/
theorem rf_open_failure_closes (bus : Bus) (fd : Int) (dev : rf_dev_t) (n : Nat)
    (hfd : fd ≠ -1) (hfail : (rf_open bus fd dev n).1.1 ≠ Ret.code ERR_OK) :
    (rf_open bus fd dev n).2.fd = -1 ∧
    (∃ e, e ≠ 0 ∧ (rf_open bus fd dev n).1.1 = Ret.code e) ∧
    ((bus n).ok = false →
      (rf_open bus fd dev n).1 =
        (Ret.code ERR_SPI_IOCTL, [(⟨0x10, false, [], 1⟩, bus n)])) ∧
    ((bus n).ok = true → (bus n).val &&& 0xF0 ≠ 0x20 →
      (rf_open bus fd dev n).1 =
        (Ret.code ERR_RFM_CHIP_VERSION, [(⟨0x10, false, [], 1⟩, bus n)])) ∧
    ((bus n).ok = true → (bus n).val &&& 0xF0 = 0x20 →
      (bus (n + 1)).ok = false ∧
      (rf_open bus fd dev n).1 =
        (Ret.code ERR_SPI_IOCTL,
          [(⟨0x10, false, [], 1⟩, bus n), (⟨0x3C, false, [], 1⟩, bus (n + 1))])) := by
  rw [rf_open_eq bus fd dev n hfd] at hfail ⊢
  cases h0 : (bus n).ok
  · simp only [↓reduceIte, true_implies, Bool.false_eq_true, false_implies, and_true,
      true_and]
    exact ⟨ERR_SPI_IOCTL, ERR_SPI_IOCTL_ne_zero, rfl⟩
  · by_cases hv : (bus n).val &&& 0xF0 = 0x20
    · cases h1 : (bus (n + 1)).ok
      · simp only [Bool.true_eq_false, ↓reduceIte, hv, ne_eq, not_true_eq_false,
          false_implies, true_implies, and_self, and_true, true_and]
        exact ⟨ERR_SPI_IOCTL, ERR_SPI_IOCTL_ne_zero, rfl⟩
      · simp [h0, hv, h1] at hfail
    · simp only [Bool.true_eq_false, ↓reduceIte, hv, ne_eq, not_false_eq_true,
        false_implies, true_implies, and_true, true_and]
      exact ⟨ERR_RFM_CHIP_VERSION, ERR_RFM_CHIP_VERSION_ne_zero, rfl⟩

/-- C13 at concrete runs: a chip that reports version 0x31, and a chip whose
FIFO-threshold read fails. -/
theorem rf_open_failure_closes_witness :
    (3 : Int) ≠ -1 ∧
    (rf_open (script_bus [0x31]) 3 ⟨0, 0⟩ 0).1.1 ≠ Ret.code ERR_OK ∧
    (rf_open (script_bus [0x31]) 3 ⟨0, 0⟩ 0).2.fd = -1 ∧
    (rf_open (script_bus [0x31]) 3 ⟨0, 0⟩ 0).1 =
      (Ret.code ERR_RFM_CHIP_VERSION, [(⟨0x10, false, [], 1⟩, ⟨true, [0x31]⟩)]) ∧
    (rf_open (failing_bus 1 0x24) 3 ⟨0, 0⟩ 0).2.fd = -1 :=
  ⟨by decide, by decide,
    (rf_open_failure_closes (script_bus [0x31]) 3 ⟨0, 0⟩ 0 (by decide) (by decide)).1,
    (rf_open_failure_closes (script_bus [0x31]) 3 ⟨0, 0⟩ 0 (by decide) (by decide)).2.2.2.1
      rfl (by decide),
    (rf_open_failure_closes (failing_bus 1 0x24) 3 ⟨0, 0⟩ 0 (by decide) (by decide)).1⟩

set_option maxRecDepth 100000 in
theorem version_nibble_fin :
    ∀ v : Fin 256, (v.1 &&& 0xF0 = 0x20 ↔ 0x20 ≤ v.1 ∧ v.1 ≤ 0x2F) := by
  decide

theorem resp_val_lt (r : Resp) : r.val < 256 := by
  unfold Resp.val
  omega

/-- The outcome of `rf_open`: when it returns `ERR_OK`, its transfers and the device
structure it leaves. -/
theorem rf_open_outcome (bus : Bus) (fd : Int) (dev : rf_dev_t) (n : Nat) :
    ((rf_open bus fd dev n).1.1 = Ret.code ERR_OK ↔
      fd ≠ -1 ∧ (bus n).ok = true ∧ (0x20 ≤ (bus n).val ∧ (bus n).val ≤ 0x2F) ∧
        (bus (n + 1)).ok = true) ∧
    ((rf_open bus fd dev n).1.1 = Ret.code ERR_OK →
      (rf_open bus fd dev n).1.2 =
        [(⟨0x10, false, [], 1⟩, bus n), (⟨0x3C, false, [], 1⟩, bus (n + 1))] ∧
      (rf_open bus fd dev n).2.fifo_thresh = (bus (n + 1)).val &&& 0x7f ∧
      (rf_open bus fd dev n).2.fifo_thresh ≤ 127 ∧
      (rf_open bus fd dev n).2.fd = fd ∧ (rf_open bus fd dev n).2.fd ≠ -1) := by
  have hnib := version_nibble_fin ⟨(bus n).val, resp_val_lt _⟩
  simp only at hnib
  rw [← hnib]
  by_cases hfd : fd = -1
  · have : rf_open bus fd dev n = ((Ret.code ERR_SPI_OPEN_DEV, []), dev) := by
      unfold rf_open
      simp [hfd]
    rw [this]
    have hne : ¬ (Ret.code ERR_SPI_OPEN_DEV = Ret.code ERR_OK) := by decide
    simp [hfd, hne]
  · rw [rf_open_eq bus fd dev n hfd]
    have hio : ¬ (Ret.code ERR_SPI_IOCTL = Ret.code ERR_OK) := by decide
    have hcv : ¬ (Ret.code ERR_RFM_CHIP_VERSION = Ret.code ERR_OK) := by decide
    cases h0 : (bus n).ok
    · simp [hio]
    · by_cases hv : (bus n).val &&& 0xF0 = 0x20
      · cases h1 : (bus (n + 1)).ok
        · simp [hv, hio]
        · simp only [Bool.true_eq_false, ↓reduceIte, hv, ne_eq, not_true_eq_false, hfd,
            not_false_eq_true, and_self, true_implies, true_and, iff_true]
          exact ⟨Nat.and_le_right, trivial⟩
      · simp [hv, hcv]

/-- C14: `rf_open` returns `ERR_OK` exactly when the device file opens (`fd ≠ -1`), the
read of the version register (0x10) succeeds with upper nibble 0x2, that is with any value
0x20..0x2F, and the read of the FIFO-threshold register (0x3C) succeeds; then these two
reads are its transfers, `dev->fifo_thresh` is that register's value `& 0x7F`, so at most
127, and `dev->fd` is the open descriptor. -/
theorem rf_open_ok_iff (bus : Bus) (fd : Int) (dev : rf_dev_t) (n : Nat) :
    ((rf_open bus fd dev n).1.1 = Ret.code ERR_OK ↔
      fd ≠ -1 ∧ (bus n).ok = true ∧ (0x20 ≤ (bus n).val ∧ (bus n).val ≤ 0x2F) ∧
        (bus (n + 1)).ok = true) ∧
    ((rf_open bus fd dev n).1.1 = Ret.code ERR_OK →
      (rf_open bus fd dev n).1.2 =
        [(⟨0x10, false, [], 1⟩, bus n), (⟨0x3C, false, [], 1⟩, bus (n + 1))] ∧
      (rf_open bus fd dev n).2.fifo_thresh = (bus (n + 1)).val &&& 0x7f ∧
      (rf_open bus fd dev n).2.fifo_thresh ≤ 127 ∧
      (rf_open bus fd dev n).2.fd = fd ∧ (rf_open bus fd dev n).2.fd ≠ -1) :=
  rf_open_outcome bus fd dev n

/-- C14 at a concrete run: version 0x24, FIFO-threshold register 0x8F. -/
theorem rf_open_ok_iff_witness :
    (rf_open (script_bus [0x24, 0x8f]) 3 ⟨0, 0⟩ 0).1.1 = Ret.code ERR_OK ∧
    (rf_open (script_bus [0x24, 0x8f]) 3 ⟨0, 0⟩ 0).2 = ⟨3, 15⟩ ∧
    (rf_open (script_bus [0x24, 0x8f]) 3 ⟨0, 0⟩ 0).2.fifo_thresh ≤ 127 :=
  ⟨by decide, by decide,
    ((rf_open_ok_iff (script_bus [0x24, 0x8f]) 3 ⟨0, 0⟩ 0).2 (by decide)).2.2.1⟩

/-! ## C17: the address check of `spi.c` -/

theorem low_addr_fin : ∀ a : Fin 128, a.1 &&& 0x80 = 0 := by
  decide

/-- C17: a register read or write through `spi_read_reg`, `spi_read_regs`,
`spi_write_reg` or `spi_write_regs` whose address has the high bit (0x80) set returns
`ERR_INVAL` and performs no bus transfer; for an address below 0x80 the transfer performed
carries the address byte `addr` for a read and `addr | 0x80` for a write, followed by
`len` data bytes (one for the single-register calls). -/
theorem spi_address_check (bus : Bus) (n addr val : Nat) (data : List Nat) (len : Nat) :
    (addr &&& 0x80 ≠ 0 →
      (spi_read_reg bus n addr).1 = ERR_INVAL ∧ (spi_read_reg bus n addr).2.2 = [] ∧
      (spi_read_regs bus n addr data len).1 = ERR_INVAL ∧
      (spi_read_regs bus n addr data len).2.2 = [] ∧
      spi_write_reg bus n addr val = (ERR_INVAL, []) ∧
      spi_write_regs bus n addr data len = (ERR_INVAL, [])) ∧
    (addr < 0x80 →
      (spi_read_reg bus n addr).2.2 = [(⟨addr, false, [], 1⟩, bus n)] ∧
      (spi_read_regs bus n addr data len).2.2 = [(⟨addr, false, [], len⟩, bus n)] ∧
      (spi_write_reg bus n addr val).2 = [(⟨addr ||| 0x80, true, [val % 256], 1⟩, bus n)] ∧
      (spi_write_regs bus n addr data len).2 =
        [(⟨addr ||| 0x80, true, data.take len, len⟩, bus n)] ∧
      (len ≤ data.length → (data.take len).length = len)) := by
  constructor
  · intro h
    simp [spi_read_reg, spi_read_regs, spi_write_reg, spi_write_regs, _spi_transfer, h]
  · intro h
    have ha : addr &&& 0x80 = 0 := low_addr_fin ⟨addr, h⟩
    refine ⟨?_, ?_, ?_, ?_, fun hl => by rw [List.length_take]; omega⟩
    · rw [spi_read_reg_low bus n addr ha]
    · unfold spi_read_regs _spi_transfer
      cases hok : (bus n).ok <;> simp [ha, hok]
    · rw [spi_write_reg_low bus n addr val ha]
    · rw [spi_write_regs_low bus n addr data len ha]

/-- C17 at concrete addresses: 0x90 is refused, 0x10 is put on the bus as 0x10 for a
read and as 0x90 for a write. -/
theorem spi_address_check_witness :
    spi_write_reg (const_bus 0) 0 0x90 7 = (ERR_INVAL, []) ∧
    (spi_read_reg (const_bus 0) 0 0x10).2.2 = [(⟨0x10, false, [], 1⟩, const_bus 0 0)] ∧
    (spi_write_reg (const_bus 0) 0 0x10 7).2 = [(⟨0x90, true, [7], 1⟩, const_bus 0 0)] :=
  ⟨((spi_address_check (const_bus 0) 0 0x90 7 [] 0).1 (by decide)).2.2.2.2.1,
    ((spi_address_check (const_bus 0) 0 0x10 7 [] 0).2 (by decide)).1,
    ((spi_address_check (const_bus 0) 0 0x10 7 [] 0).2 (by decide)).2.2.1⟩

/-! ## C18: `_switch_mode` -/

theorem poll_nonempty (bus : Bus) (addr : Nat) (again : Nat → Bool) (ha : addr &&& 0x80 = 0)
    (f n : Nat) : (poll_reg bus addr again (f + 1) n).2 ≠ [] := by
  rw [poll_reg_succ bus addr again ha]
  split
  · split <;> exact List.cons_ne_nil _ _
  · exact List.cons_ne_nil _ _

/-- A successful read whose value stops the loop is the last transfer of the loop, and
the loop ends normally. -/
theorem poll_stop (bus : Bus) (addr : Nat) (again : Nat → Bool) (ha : addr &&& 0x80 = 0)
    (fuel : Nat) :
    ∀ n i e, (poll_reg bus addr again fuel n).2[i]? = some e → e.2.ok = true →
      again e.2.val = false →
      i + 1 = (poll_reg bus addr again fuel n).2.length ∧
        (poll_reg bus addr again fuel n).1 = Ret.code 0 := by
  induction fuel with
  | zero =>
    intro n i e hi
    simp [poll_reg] at hi
  | succ f ih =>
    intro n i e hi hok hag
    rw [poll_reg_succ bus addr again ha] at hi ⊢
    by_cases h0 : (bus n).ok = true
    · by_cases h1 : again (bus n).val = true
      · simp only [h0, h1, ↓reduceIte] at hi ⊢
        cases i with
        | zero =>
          simp only [List.getElem?_cons_zero, Option.some.injEq] at hi
          subst hi
          rw [h1] at hag
          exact absurd hag (by decide)
        | succ j =>
          simp only [List.getElem?_cons_succ] at hi
          have := ih (n + 1) j e hi hok hag
          exact ⟨by simp only [List.length_cons]; omega, this.2⟩
      · simp only [h0, h1, Bool.false_eq_true, ↓reduceIte] at hi ⊢
        cases i with
        | zero => simp
        | succ j => simp at hi
    · simp only [h0, Bool.false_eq_true, ↓reduceIte] at hi
      cases i with
      | zero =>
        simp only [List.getElem?_cons_zero, Option.some.injEq] at hi
        subst hi
        exact absurd hok h0
      | succ j => simp at hi

/-- A successful read whose value does not stop the loop is followed by another read,
unless the bound of the model is reached. -/
theorem poll_go_on (bus : Bus) (addr : Nat) (again : Nat → Bool) (ha : addr &&& 0x80 = 0)
    (fuel : Nat) :
    ∀ n i e, (poll_reg bus addr again fuel n).2[i]? = some e → e.2.ok = true →
      again e.2.val = true →
      i + 1 < (poll_reg bus addr again fuel n).2.length ∨
        (poll_reg bus addr again fuel n).1 = Ret.spin := by
  induction fuel with
  | zero =>
    intro n i e hi
    simp [poll_reg] at hi
  | succ f ih =>
    intro n i e hi hok hag
    rw [poll_reg_succ bus addr again ha] at hi ⊢
    by_cases h0 : (bus n).ok = true
    · by_cases h1 : again (bus n).val = true
      · simp only [h0, h1, ↓reduceIte] at hi ⊢
        cases i with
        | zero =>
          cases f with
          | zero => exact Or.inr rfl
          | succ f' =>
            left
            have := poll_nonempty bus addr again ha f' (n + 1)
            have hpos := List.length_pos.2 this
            simp only [List.length_cons]
            omega
        | succ j =>
          simp only [List.getElem?_cons_succ] at hi
          rcases ih (n + 1) j e hi hok hag with h | h
          · left
            simp only [List.length_cons]
            omega
          · exact Or.inr h
      · simp only [h0, h1, Bool.false_eq_true, ↓reduceIte] at hi
        cases i with
        | zero =>
          simp only [List.getElem?_cons_zero, Option.some.injEq] at hi
          subst hi
          exact absurd hag h1
        | succ j => simp at hi
    · simp only [h0, Bool.false_eq_true, ↓reduceIte] at hi
      cases i with
      | zero =>
        simp only [List.getElem?_cons_zero, Option.some.injEq] at hi
        subst hi
        exact absurd hok h0
      | succ j => simp at hi

theorem mode_mask_bits : ∀ i : Fin 32, 5 ≤ i.1 → (0xFFFFFFE3 : Nat).testBit i.1 = true := by
  decide

theorem mode_mask_low : ∀ u : Fin 32, u.1 &&& 0xFFFFFFE3 = 0 → u.1 ≤ 0x1c := by
  decide

/-- A mode that passes the assertion of `_switch_mode` lies in 0..0x1C. -/
theorem mode_check_range (mode : Int) (hr : -2 ^ 31 ≤ mode ∧ mode < 2 ^ 31)
    (hc : int_bits mode &&& int_bits (-0x1c - 1) = 0) : 0 ≤ mode ∧ mode ≤ 0x1c := by
  have hm : int_bits (-0x1c - 1) = 0xFFFFFFE3 := by decide
  rw [hm] at hc
  have hu : int_bits mode < 2 ^ 32 := by
    unfold int_bits
    omega
  have h5 : int_bits mode < 2 ^ 5 := by
    apply Nat.lt_pow_two_of_testBit
    intro i hi
    by_cases h32 : i < 32
    · have hb := congrArg (fun x => x.testBit i) hc
      simp only [Nat.testBit_and, Nat.zero_testBit, mode_mask_bits ⟨i, h32⟩ hi,
        Bool.and_true] at hb
      exact hb
    · apply Nat.testBit_lt_two_pow
      calc int_bits mode < 2 ^ 32 := hu
        _ ≤ 2 ^ i := Nat.pow_le_pow_right (by decide) (by omega)
  have hle := mode_mask_low ⟨int_bits mode, h5⟩ hc
  simp only at hle
  unfold int_bits at hle h5
  omega

theorem switch_mode_eq (bus : Bus) (fuel : Nat) (mode : Int) (n : Nat)
    (hc : int_bits mode &&& int_bits (-0x1c - 1) = 0) :
    _switch_mode bus fuel mode n =
      if (bus n).ok = true then
        ((poll_reg bus RegIrqFlags1 (fun val => val &&& IRQ_FLAGS1_MODEREADY = 0) fuel (n + 1)).1,
          (⟨0x81, true, [(mode % 256).toNat % 256], 1⟩, bus n) ::
            (poll_reg bus RegIrqFlags1
              (fun val => val &&& IRQ_FLAGS1_MODEREADY = 0) fuel (n + 1)).2)
      else (Ret.code ERR_SPI_IOCTL, [(⟨0x81, true, [(mode % 256).toNat % 256], 1⟩, bus n)]) := by
  unfold _switch_mode
  simp only [hc, ne_eq, not_true_eq_false, ↓reduceIte, ret_write_opmode]
  by_cases h0 : (bus n).ok = true
  · rw [TRY_ok _ _ _ (by simp [h0])]
    simp only [h0, ↓reduceIte, List.length_singleton, List.singleton_append]
    by_cases hp : (poll_reg bus RegIrqFlags1
        (fun val => val &&& IRQ_FLAGS1_MODEREADY = 0) fuel (n + 1)).1 = Ret.code 0
    · rw [TRY_ok _ _ _ hp, hp]
      simp [ERR_OK]
    · rw [TRY_stop _ _ _ hp]
  · have hne : ¬ (Ret.code ERR_SPI_IOCTL = Ret.code 0) := fun h =>
      ERR_SPI_IOCTL_ne_zero (by injection h)
    rw [TRY_stop _ _ _ (by simp [h0, hne])]
    simp [h0]

/-- C18: for every `int` mode that passes the assertion `(mode & ~0x1C) == 0` (the five
defined modes Sleep, Standby, FS, TX and RX do, and with them the two the library passes,
Standby 0x04 and TX 0x0C), `_switch_mode` writes that value once, as its first transfer,
to the op-mode register (0x01), and all later transfers are reads of IrqFlags1 (0x27). It
returns `ERR_OK` exactly when one of those reads succeeds with the mode-ready bit (0x80)
set; such a read is the last transfer; a successful read with the bit clear is followed
by another read (or the wait is still running when the bound of the model is reached). -/
theorem switch_mode_spec (bus : Bus) (fuel : Nat) (mode : Int) (n : Nat)
    (hr : -2 ^ 31 ≤ mode ∧ mode < 2 ^ 31)
    (hc : int_bits mode &&& int_bits (-0x1c - 1) = 0) :
    (0 ≤ mode ∧ mode ≤ 0x1c) ∧
    (∃ tl, (_switch_mode bus fuel mode n).2 = (⟨0x81, true, [mode.toNat], 1⟩, bus n) :: tl ∧
      (∀ e ∈ tl, e.1 = ⟨0x27, false, [], 1⟩) ∧
      ((_switch_mode bus fuel mode n).1 = Ret.code ERR_OK ↔
        ∃ e ∈ tl, e.2.ok = true ∧ e.2.val &&& 0x80 ≠ 0) ∧
      (∀ i e, tl[i]? = some e → e.2.ok = true → e.2.val &&& 0x80 ≠ 0 →
        i + 1 = tl.length) ∧
      (∀ i e, tl[i]? = some e → e.2.ok = true → e.2.val &&& 0x80 = 0 →
        i + 1 < tl.length ∨ (_switch_mode bus fuel mode n).1 = Ret.spin)) ∧
    (∀ m ∈ [OP_MODE_MODE_SLEEP, OP_MODE_MODE_STDBY, OP_MODE_MODE_FS, OP_MODE_MODE_TX,
        OP_MODE_MODE_RX], int_bits m &&& int_bits (-0x1c - 1) = 0) := by
  have hrange := mode_check_range mode hr hc
  have hbyte : (mode % 256).toNat % 256 = mode.toNat := by omega
  refine ⟨hrange, ?_, by decide⟩
  rw [switch_mode_eq bus fuel mode n hc, hbyte]
  by_cases h0 : (bus n).ok = true
  · simp only [h0, ↓reduceIte]
    refine ⟨_, rfl, poll_reads bus _ _ (by decide) fuel (n + 1), ?_, ?_, ?_⟩
    · constructor
      · intro h
        obtain ⟨init, p, hp, _, hp2, hp3⟩ := poll_last bus _ _ (by decide) fuel (n + 1) h
        refine ⟨p, ?_, hp2, ?_⟩
        · rw [hp]
          simp
        · simpa [IRQ_FLAGS1_MODEREADY] using hp3
      · rintro ⟨e, he, hok, hv⟩
        obtain ⟨i, hi⟩ := List.getElem?_of_mem he
        exact (poll_stop bus _ _ (by decide) fuel (n + 1) i e hi hok
          (by simpa [IRQ_FLAGS1_MODEREADY] using hv)).2
    · intro i e hi hok hv
      exact (poll_stop bus _ _ (by decide) fuel (n + 1) i e hi hok
        (by simpa [IRQ_FLAGS1_MODEREADY] using hv)).1
    · intro i e hi hok hv
      exact poll_go_on bus _ _ (by decide) fuel (n + 1) i e hi hok
        (by simpa [IRQ_FLAGS1_MODEREADY] using hv)
  · have hne : ¬ (Ret.code ERR_SPI_IOCTL = Ret.code ERR_OK) := by decide
    simp only [h0, Bool.false_eq_true, ↓reduceIte]
    refine ⟨[], rfl, by simp, ?_, by simp, by simp⟩
    simp [hne]

/-- C18 at a concrete run: Standby on a chip that reports mode-ready at the second
poll. -/
theorem switch_mode_spec_witness :
    (-2 ^ 31 ≤ OP_MODE_MODE_STDBY ∧ OP_MODE_MODE_STDBY < 2 ^ 31) ∧
    int_bits OP_MODE_MODE_STDBY &&& int_bits (-0x1c - 1) = 0 ∧
    (0 ≤ OP_MODE_MODE_STDBY ∧ OP_MODE_MODE_STDBY ≤ 0x1c) ∧
    _switch_mode (script_bus [0, 0x00, 0x80]) 5 OP_MODE_MODE_STDBY 0 =
      (Ret.code ERR_OK,
        [(⟨0x81, true, [0x04], 1⟩, ⟨true, [0]⟩), (⟨0x27, false, [], 1⟩, ⟨true, [0x00]⟩),
          (⟨0x27, false, [], 1⟩, ⟨true, [0x80]⟩)]) :=
  ⟨by decide, by decide,
    (switch_mode_spec (script_bus [0, 0x00, 0x80]) 5 OP_MODE_MODE_STDBY 0 (by decide)
      (by decide)).1,
    by decide⟩

/-! ## The rounding of `double` operations -/

theorem round_even_near (r : ℚ) (m : Int) (h : |r - m| < 1 / 2) : round_even r = m := by
  rw [abs_lt] at h
  unfold round_even
  rcases le_or_lt (m : ℚ) r with hle | hlt
  · have hf : ⌊r⌋ = m := by
      rw [Int.floor_eq_iff]
      constructor
      · exact hle
      · linarith
    rw [hf, if_pos (by linarith)]
  · have hf : ⌊r⌋ = m - 1 := by
      rw [Int.floor_eq_iff]
      push_cast
      constructor <;> linarith
    rw [hf]
    push_cast
    rw [if_neg (by linarith), if_pos (by linarith)]
    ring

theorem round_even_int (m : Int) : round_even (m : ℚ) = m :=
  round_even_near _ m (by simp)

theorem round_even_err (r : ℚ) : |(round_even r : ℚ) - r| ≤ 1 / 2 := by
  have h1 := Int.floor_le r
  have h2 := Int.lt_floor_add_one r
  unfold round_even
  rw [abs_le]
  split
  · constructor <;> linarith
  · split
    · push_cast
      constructor <;> linarith
    · split
      · constructor <;> linarith
      · push_cast
        constructor <;> linarith

theorem log2_eq (x : ℚ) (e : Int) (h1 : (2 : ℚ) ^ e ≤ |x|) (h2 : |x| < 2 ^ (e + 1)) :
    Int.log 2 |x| = e := by
  have hpos : 0 < |x| := lt_of_lt_of_le (by positivity) h1
  have a := (Int.zpow_le_iff_le_log (by decide : 1 < 2) hpos).1 (by exact_mod_cast h1)
  have b := (Int.lt_zpow_iff_log_lt (by decide : 1 < 2) hpos).1 (by exact_mod_cast h2)
  omega

theorem fp_quantum_pos (p : Nat) (qmin : Int) (x : ℚ) : 0 < fp_quantum p qmin x := by
  unfold fp_quantum
  positivity

/-- A value with at most `p` significand bits above the least exponent is not changed by
the rounding. -/
theorem fp_round_exact (p : Nat) (qmin emax : Int) (x : ℚ) (n k : Int)
    (hx : x = n * 2 ^ k) (hn : |n| < 2 ^ p) (hk : qmin ≤ k) (hmax : |x| < 2 ^ emax) :
    fp_round p qmin emax x = some x := by
  have key : ∃ N : Int, x / fp_quantum p qmin x = N := by
    by_cases h0 : x = 0
    · exact ⟨0, by rw [h0]; simp⟩
    · have hpos : 0 < |x| := abs_pos.2 h0
      have hlog := Int.zpow_log_le_self (by decide : 1 < 2) hpos
      have hlt : ((2 : ℕ) : ℚ) ^ Int.log 2 |x| < (2 : ℚ) ^ ((p : Int) + k) := by
        apply lt_of_le_of_lt hlog
        rw [hx, abs_mul, abs_of_pos (by positivity : (0 : ℚ) < 2 ^ k),
          zpow_add₀ (by norm_num : (2 : ℚ) ≠ 0)]
        apply mul_lt_mul_of_pos_right _ (by positivity)
        have : ((|n| : Int) : ℚ) < ((2 ^ p : Int) : ℚ) := by exact_mod_cast hn
        push_cast at this
        exact_mod_cast this
      have hL := (zpow_lt_zpow_iff_right₀ (by norm_num : (1 : ℚ) < ((2 : ℕ) : ℚ))).1
        (by exact_mod_cast hlt)
      have hle : max (Int.log 2 |x| - ((p : Int) - 1)) qmin ≤ k := max_le (by omega) hk
      unfold fp_quantum
      generalize max (Int.log 2 |x| - ((p : Int) - 1)) qmin = s at hle
      obtain ⟨t, ht⟩ : ∃ t : Nat, k = s + t := ⟨(k - s).toNat, by omega⟩
      refine ⟨n * 2 ^ t, ?_⟩
      rw [hx, ht, zpow_add₀ (by norm_num : (2 : ℚ) ≠ 0)]
      push_cast
      field_simp
      ring
  obtain ⟨N, hN⟩ := key
  unfold fp_round
  simp only
  rw [hN, round_even_int, ← hN, div_mul_cancel₀ _ (ne_of_gt (fp_quantum_pos p qmin x)),
    if_pos hmax]

/-- The rounding of a value in the normal range, from the binade and the nearest
multiple of the spacing. -/
theorem fp_round_near (p : Nat) (qmin emax : Int) (x : ℚ) (e m : Int)
    (h1 : (2 : ℚ) ^ e ≤ |x|) (h2 : |x| < 2 ^ (e + 1)) (he : qmin ≤ e - ((p : Int) - 1))
    (hm : |x / 2 ^ (e - ((p : Int) - 1)) - m| < 1 / 2)
    (hmax : |(m : ℚ) * 2 ^ (e - ((p : Int) - 1))| < 2 ^ emax) :
    fp_round p qmin emax x = some ((m : ℚ) * 2 ^ (e - ((p : Int) - 1))) := by
  unfold fp_round fp_quantum
  simp only
  rw [log2_eq x e h1 h2, max_eq_left he, round_even_near _ m hm, if_pos hmax]

/-- The rounding of a value in the normal range has a relative error of at most
`2^-p`. -/
theorem fp_round_err (p : Nat) (qmin emax : Int) (x : ℚ) (hp : 0 < p)
    (hmin : (2 : ℚ) ^ (qmin + ((p : Int) - 1)) ≤ |x|) (hmax : 2 * |x| ≤ 2 ^ emax) :
    ∃ r, fp_round p qmin emax x = some r ∧ |r - x| ≤ |x| / 2 ^ p := by
  have hpos : 0 < |x| := lt_of_lt_of_le (by positivity) hmin
  have hlog := Int.zpow_log_le_self (by decide : 1 < 2) hpos
  have hL : qmin + ((p : Int) - 1) ≤ Int.log 2 |x| :=
    (Int.zpow_le_iff_le_log (by decide : 1 < 2) hpos).1 (by exact_mod_cast hmin)
  have hq : fp_quantum p qmin x = 2 ^ (Int.log 2 |x| - ((p : Int) - 1)) := by
    unfold fp_quantum
    rw [max_eq_left (by omega)]
  have hqle : fp_quantum p qmin x ≤ |x| * 2 / 2 ^ p := by
    rw [hq, zpow_sub₀ (by norm_num : (2 : ℚ) ≠ 0), zpow_sub₀ (by norm_num : (2 : ℚ) ≠ 0)]
    have hl : (2 : ℚ) ^ Int.log 2 |x| ≤ |x| := by exact_mod_cast hlog
    rw [zpow_natCast, zpow_one, div_div_eq_mul_div]
    apply div_le_div_of_nonneg_right _ (by positivity)
    exact mul_le_mul_of_nonneg_right hl (by norm_num)
  have hqpos := fp_quantum_pos p qmin x
  have herr : |(round_even (x / fp_quantum p qmin x) : ℚ) * fp_quantum p qmin x - x| ≤
      |x| / 2 ^ p := by
    have e1 := round_even_err (x / fp_quantum p qmin x)
    have : (round_even (x / fp_quantum p qmin x) : ℚ) * fp_quantum p qmin x - x =
        ((round_even (x / fp_quantum p qmin x) : ℚ) - x / fp_quantum p qmin x) *
          fp_quantum p qmin x := by
      field_simp
    rw [this, abs_mul, abs_of_pos hqpos]
    calc _ ≤ 1 / 2 * fp_quantum p qmin x := mul_le_mul_of_nonneg_right e1 (le_of_lt hqpos)
      _ ≤ 1 / 2 * (|x| * 2 / 2 ^ p) := mul_le_mul_of_nonneg_left hqle (by norm_num)
      _ = |x| / 2 ^ p := by ring
  refine ⟨_, ?_, herr⟩
  unfold fp_round
  simp only
  rw [if_pos]
  have h3 := abs_sub_abs_le_abs_sub
    ((round_even (x / fp_quantum p qmin x) : ℚ) * fp_quantum p qmin x) x
  have h4 : |x| / 2 ^ p ≤ |x| / 2 := by
    apply div_le_div_of_nonneg_left (le_of_lt hpos) (by norm_num)
    calc (2 : ℚ) = 2 ^ 1 := by norm_num
      _ ≤ 2 ^ p := pow_le_pow_right₀ (by norm_num) hp
  have h5 : |x| / 2 < |x| := by linarith
  linarith

theorem to_double_near (x : ℚ) (e m : Int) (q : ℚ) (hq : q = 2 ^ (e - 52))
    (he : -1022 ≤ e) (hemax : e ≤ 1000) (h1 : (2 : ℚ) ^ e ≤ x) (h2 : x < 2 ^ (e + 1))
    (hlo : (m : ℚ) - 1 / 2 < x / q) (hhi : x / q < m + 1 / 2) (hm : 0 ≤ m) :
    to_double x = some (m * q) := by
  have hx : 0 < x := lt_of_lt_of_le (by positivity) h1
  have hq0 : 0 < q := by rw [hq]; positivity
  have h52 : e - (((53 : ℕ) : ℤ) - 1) = e - 52 := by push_cast; ring
  have hm0 : (0 : ℚ) ≤ m := by exact_mod_cast hm
  have hqle : q ≤ 2 ^ (e + 1) := by
    rw [hq]
    exact zpow_le_zpow_right₀ (by norm_num) (by omega)
  have hmq : (m : ℚ) * q < 2 ^ (e + 1) + 2 ^ (e + 1) := by
    have h3 : (m : ℚ) * q < (x / q + 1 / 2) * q :=
      mul_lt_mul_of_pos_right (by linarith) hq0
    have h4 : (x / q + 1 / 2) * q = x + q / 2 := by
      field_simp
      ring
    linarith
  have hmax : (m : ℚ) * q < 2 ^ (1024 : Int) := by
    have h5 : (2 : ℚ) ^ (e + 1) + 2 ^ (e + 1) = 2 ^ (e + 2) := by
      rw [zpow_add₀ (by norm_num : (2 : ℚ) ≠ 0), zpow_add₀ (by norm_num : (2 : ℚ) ≠ 0)]
      norm_num
      ring
    have h6 : (2 : ℚ) ^ (e + 2) ≤ 2 ^ (1024 : Int) :=
      zpow_le_zpow_right₀ (by norm_num) (by omega)
    linarith
  have := fp_round_near 53 (-1074) 1024 x e m (by rw [abs_of_pos hx]; exact h1)
    (by rw [abs_of_pos hx]; exact h2) (by rw [h52]; omega)
    (by
      rw [h52, ← hq, abs_lt]
      constructor <;> linarith)
    (by
      rw [h52, ← hq, abs_of_nonneg (mul_nonneg hm0 (le_of_lt hq0))]
      exact hmax)
  unfold to_double
  rw [this, h52, ← hq]

theorem kaku_rate_product :
    to_double ((7505999378950827 / 2 ^ 48 : ℚ) * 1000) = some (7330077518506667 / 2 ^ 38) := by
  rw [to_double_near _ 14 7330077518506667 (1 / 2 ^ 38) (by norm_num) (by norm_num)
    (by norm_num) (by norm_num) (by norm_num) (by norm_num) (by norm_num) (by norm_num)]
  norm_num

theorem kaku_rate_quotient :
    to_double (SX1231_FXOSC / (7330077518506667 / 2 ^ 38)) = some 1200 := by
  unfold SX1231_FXOSC
  rw [to_double_near _ 10 5277655813324800 (1 / 2 ^ 42) (by norm_num) (by norm_num)
    (by norm_num) (by norm_num) (by norm_num) (by norm_num) (by norm_num) (by norm_num)]
  norm_num

/-! ## The conversion to an unsigned integer, and the values of a `float` -/

theorem trunc_eq_floor (x : ℚ) (hx : 0 ≤ x) : trunc x = ⌊x⌋ := by
  unfold trunc
  rw [Rat.floor_def, Int.tdiv_eq_ediv (Rat.num_nonneg.2 hx) (Int.ofNat_nonneg _)]

theorem to_uint_of_nonneg (w : Nat) (x : ℚ) (hx : 0 ≤ x) :
    to_uint w x = if ⌊x⌋ < 2 ^ w then some ⌊x⌋.toNat else none := by
  unfold to_uint
  rw [trunc_eq_floor x hx]
  have h0 : 0 ≤ ⌊x⌋ := Int.floor_nonneg.2 hx
  simp only [h0, true_and]

theorem to_uint_eq (w : Nat) (x : ℚ) (k : Nat) (h1 : (k : ℚ) ≤ x) (h2 : x < k + 1)
    (hk : k < 2 ^ w) : to_uint w x = some k := by
  have hx : 0 ≤ x := le_trans (by positivity) h1
  have hf : ⌊x⌋ = (k : Int) := by
    rw [Int.floor_eq_iff]
    exact ⟨by exact_mod_cast h1, by exact_mod_cast h2⟩
  rw [to_uint_of_nonneg w x hx, hf, if_pos (by exact_mod_cast hk)]
  rfl

theorem to_uint_lt (w : Nat) (x : ℚ) (k : Nat) (h : to_uint w x = some k) : k < 2 ^ w := by
  unfold to_uint at h
  split at h
  · rename_i hr
    injection h with h
    have : ((trunc x).toNat : Int) < ((2 ^ w : Nat) : Int) := by
      rw [Int.toNat_of_nonneg hr.1]
      push_cast
      exact hr.2
    rw [← h]
    exact_mod_cast this
  · exact absurd h (by simp)

/-- A finite `float` is an integer of fewer than 24 bits times a power of two not below
`2^-149`, and is less than `2^128` in magnitude. -/
theorem float_repr (f : ℚ) (h : to_float f = some f) :
    ∃ n k : Int, f = n * 2 ^ k ∧ |n| < 2 ^ 24 ∧ -149 ≤ k ∧ |f| < 2 ^ (128 : Int) := by
  unfold to_float fp_round at h
  simp only at h
  split at h
  · rename_i hlt
    injection h with h
    rw [h] at hlt
    refine ⟨round_even (f / fp_quantum 24 (-149) f),
      max (Int.log 2 |f| - (((24 : ℕ) : Int) - 1)) (-149), ?_, ?_, le_max_right _ _, hlt⟩
    · exact h.symm
    · have hq := fp_quantum_pos 24 (-149) f
      have hn : (round_even (f / fp_quantum 24 (-149) f) : ℚ) = f / fp_quantum 24 (-149) f := by
        rw [eq_div_iff (ne_of_gt hq)]
        exact h
      have hlt2 : |(round_even (f / fp_quantum 24 (-149) f) : ℚ)| < 2 ^ 24 := by
        rw [hn, abs_div, abs_of_pos hq, div_lt_iff₀ hq]
        have h2 := Int.lt_zpow_succ_log_self (by decide : 1 < 2) |f|
        have h3 : (2 : ℚ) ^ (Int.log 2 |f| + 1) ≤ 2 ^ 24 * fp_quantum 24 (-149) f := by
          unfold fp_quantum
          rw [show (2 : ℚ) ^ 24 = 2 ^ (24 : Int) by norm_num,
            ← zpow_add₀ (by norm_num : (2 : ℚ) ≠ 0)]
          apply zpow_le_zpow_right₀ (by norm_num)
          have := le_max_left (Int.log 2 |f| - (((24 : ℕ) : Int) - 1)) (-149)
          push_cast at this ⊢
          omega
        have h4 : |f| < (2 : ℚ) ^ (Int.log 2 |f| + 1) := by exact_mod_cast h2
        linarith
      have : ((|round_even (f / fp_quantum 24 (-149) f)| : Int) : ℚ) < ((2 ^ 24 : Int) : ℚ) := by
        push_cast
        exact hlt2
      exact_mod_cast this
  · exact absurd h (by simp)

/-- The product of a finite `float` and a constant of few bits is a `double`: the
`double` multiplication is exact. -/
theorem float_scale_exact (f c : ℚ) (h : to_float f = some f) (cn ck : Int)
    (hc : c = cn * 2 ^ ck) (hcn : |cn| < 2 ^ 20) (hck : -100 ≤ ck) (hck2 : ck ≤ 100) :
    to_double (f * c) = some (f * c) := by
  obtain ⟨n, k, hf, hn, hk, hmax⟩ := float_repr f h
  unfold to_double
  apply fp_round_exact 53 (-1074) 1024 (f * c) (n * cn) (k + ck)
  · rw [hf, hc, zpow_add₀ (by norm_num : (2 : ℚ) ≠ 0)]
    push_cast
    ring
  · rw [abs_mul]
    have h0 : (0 : Int) ≤ |n| := abs_nonneg n
    have h1 : (0 : Int) ≤ |cn| := abs_nonneg cn
    calc |n| * |cn| ≤ 2 ^ 24 * 2 ^ 20 := by nlinarith
      _ < 2 ^ 53 := by norm_num
  · omega
  · rw [abs_mul, hc, abs_mul, abs_of_pos (by positivity : (0 : ℚ) < 2 ^ ck)]
    have hcn2 : |(cn : ℚ)| < 2 ^ (20 : Int) := by
      have : ((|cn| : Int) : ℚ) < ((2 ^ 20 : Int) : ℚ) := by exact_mod_cast hcn
      push_cast at this
      exact_mod_cast this
    have hck3 : (2 : ℚ) ^ ck ≤ 2 ^ (100 : Int) := zpow_le_zpow_right₀ (by norm_num) hck2
    have h5 : |f| * (|(cn : ℚ)| * 2 ^ ck) ≤ 2 ^ (128 : Int) * (2 ^ (20 : Int) * 2 ^ (100 : Int)) := by
      apply mul_le_mul (le_of_lt hmax) _ (by positivity) (by positivity)
      exact mul_le_mul (le_of_lt hcn2) hck3 (by positivity) (by positivity)
    have h6 : (2 : ℚ) ^ (128 : Int) * (2 ^ (20 : Int) * 2 ^ (100 : Int)) < 2 ^ (1024 : Int) := by
      rw [← zpow_add₀ (by norm_num : (2 : ℚ) ≠ 0), ← zpow_add₀ (by norm_num : (2 : ℚ) ≠ 0)]
      exact zpow_lt_zpow_right₀ (by norm_num) (by norm_num)
    exact lt_of_le_of_lt h5 h6

theorem freq_quotient (v : ℚ) (k : ℚ) :
    (v * k) / SX1231_FSTEP = v * k * 2 ^ 19 / 32000000 := by
  unfold SX1231_FSTEP SX1231_FXOSC
  norm_num
  ring

/-- For a finite `float` the `double` computation of the frequency register is exact:
the value converted is the exact quotient. -/
theorem reg_freq_exact (f : ℚ) (h : to_float f = some f) :
    reg_freq f = to_uint 32 (f * 10 ^ 6 * 2 ^ 19 / 32000000) := by
  unfold reg_freq
  rw [float_scale_exact f 1e6 h 15625 6 (by norm_num) (by norm_num) (by norm_num)
    (by norm_num), Option.some_bind,
    show f * 1e6 / SX1231_FSTEP = f * 2 ^ 14 by rw [freq_quotient]; norm_num; ring,
    float_scale_exact f (2 ^ 14) h 1 14 (by norm_num) (by norm_num) (by norm_num)
      (by norm_num), Option.some_bind]
  congr 1
  ring

theorem int_abs_ge_one (d : Int) (h : d ≠ 0) : (1 : ℚ) ≤ |(d : ℚ)| := by
  have : (1 : Int) ≤ |d| := Int.one_le_abs h
  exact_mod_cast this

/-- A quotient by 125 of a number of fewer than 24 bits times a power of two keeps away
from every integer it differs from by more than the rounding error of a `double`. -/
theorem fdev_gap (n s J : Int) (hn0 : 0 < n) (hn : n < 2 ^ 24) (Q : ℚ)
    (hQ : Q = n * 2 ^ s / 125) (hlt : Q < 2 ^ 16) (hne : Q ≠ J) :
    Q / 2 ^ 53 < |Q - J| := by
  have hn0q : (0 : ℚ) < n := by exact_mod_cast hn0
  have hnq : (n : ℚ) < 2 ^ 24 := by exact_mod_cast hn
  rcases le_or_lt 0 s with hs | hs
  · obtain ⟨t, ht⟩ : ∃ t : Nat, s = t := ⟨s.toNat, by omega⟩
    have hd : ((n * 2 ^ t - 125 * J : Int) : ℚ) = 125 * (Q - J) := by
      rw [hQ, ht]
      push_cast
      rw [zpow_natCast]
      ring
    have hd0 : (n * 2 ^ t - 125 * J : Int) ≠ 0 := by
      intro h0
      rw [h0] at hd
      apply hne
      push_cast at hd
      linarith
    have h1 := int_abs_ge_one _ hd0
    rw [hd, abs_mul, abs_of_pos (by norm_num : (0 : ℚ) < 125)] at h1
    have h2 : Q / 2 ^ 53 < 1 / 125 := by
      rw [div_lt_iff₀ (by positivity)]
      calc Q < 2 ^ 16 := hlt
        _ < 1 / 125 * 2 ^ 53 := by norm_num
    linarith
  · obtain ⟨t, ht⟩ : ∃ t : Nat, s = -(t : Int) := ⟨(-s).toNat, by omega⟩
    have hp : (0 : ℚ) < 2 ^ t := by positivity
    have hQ2 : Q = n / (125 * 2 ^ t) := by
      rw [hQ, ht, zpow_neg, zpow_natCast, ← div_eq_mul_inv, div_div, mul_comm (2 ^ t : ℚ) 125]
    have hd : ((n - 125 * J * 2 ^ t : Int) : ℚ) = 125 * 2 ^ t * (Q - J) := by
      rw [hQ2]
      push_cast
      field_simp
      ring
    have hd0 : (n - 125 * J * 2 ^ t : Int) ≠ 0 := by
      intro h0
      rw [h0] at hd
      apply hne
      push_cast at hd
      have h3 : (125 : ℚ) * 2 ^ t ≠ 0 := by positivity
      have := (mul_eq_zero.1 hd.symm).resolve_left h3
      linarith
    have h1 := int_abs_ge_one _ hd0
    rw [hd, abs_mul, abs_of_pos (by positivity : (0 : ℚ) < 125 * 2 ^ t)] at h1
    have h2 : Q / 2 ^ 53 * (125 * 2 ^ t) < 1 := by
      have e : Q / 2 ^ 53 * (125 * 2 ^ t) = n / 2 ^ 53 := by
        rw [hQ2]
        field_simp
        ring
      rw [e, div_lt_one (by positivity)]
      calc (n : ℚ) < 2 ^ 24 := hnq
        _ < 2 ^ 53 := by norm_num
    have h3 : Q / 2 ^ 53 * (125 * 2 ^ t) < 125 * 2 ^ t * |Q - J| := lt_of_lt_of_le h2 h1
    have h4 : (0 : ℚ) < 125 * 2 ^ t := by positivity
    nlinarith

theorem to_double_zero : to_double 0 = some 0 := by
  unfold to_double
  exact fp_round_exact 53 (-1074) 1024 0 0 0 (by simp) (by simp) (by norm_num)
    (by rw [abs_zero]; positivity)

theorem to_double_int (K : Int) (h0 : 0 ≤ K) (hK : K < 2 ^ 32) :
    to_double (K : ℚ) = some (K : ℚ) := by
  unfold to_double
  apply fp_round_exact 53 (-1074) 1024 (K : ℚ) K 0 (by simp)
  · rw [abs_of_nonneg h0]
    calc K < 2 ^ 32 := hK
      _ < 2 ^ 53 := by norm_num
  · norm_num
  · rw [abs_of_nonneg (by exact_mod_cast h0)]
    have h1 : (K : ℚ) < 2 ^ (32 : Int) := by
      have : (K : ℚ) < ((2 ^ 32 : Int) : ℚ) := by exact_mod_cast hK
      push_cast at this
      exact_mod_cast this
    exact lt_trans h1 (zpow_lt_zpow_right₀ (by norm_num) (by norm_num))

/-- For a non-negative finite `float` whose quotient fits 16 bits, the deviation register
is the floor of the exact quotient: the rounding of the `double` division never reaches
an integer. -/
theorem reg_fdev_floor (f : ℚ) (h : to_float f = some f) (h0 : 0 ≤ f)
    (hr : f * 10 ^ 3 * 2 ^ 19 / 32000000 < 2 ^ 16) :
    reg_fdev f = some ⌊f * 10 ^ 3 * 2 ^ 19 / 32000000⌋.toNat := by
  have hQe : f * 1e3 / SX1231_FSTEP = f * 10 ^ 3 * 2 ^ 19 / 32000000 := by
    rw [freq_quotient]
    norm_num
  unfold reg_fdev
  rw [float_scale_exact f 1e3 h 125 3 (by norm_num) (by norm_num) (by norm_num)
    (by norm_num), Option.some_bind, hQe]
  generalize hQ : f * 10 ^ 3 * 2 ^ 19 / 32000000 = Q at hr
  have hQ0 : 0 ≤ Q := by rw [← hQ]; positivity
  have hK0 : 0 ≤ ⌊Q⌋ := Int.floor_nonneg.2 hQ0
  have hKle : (⌊Q⌋ : ℚ) ≤ Q := Int.floor_le Q
  have hKlt : Q < ⌊Q⌋ + 1 := Int.lt_floor_add_one Q
  have hK16 : ⌊Q⌋ < 2 ^ 16 := by
    have : (⌊Q⌋ : ℚ) < ((2 ^ 16 : Int) : ℚ) := by
      push_cast
      linarith
    exact_mod_cast this
  have hcast : ((⌊Q⌋.toNat : Nat) : ℚ) = (⌊Q⌋ : ℚ) := by
    have : ((⌊Q⌋.toNat : Nat) : Int) = ⌊Q⌋ := Int.toNat_of_nonneg hK0
    exact_mod_cast this
  have hfin : ∀ q : ℚ, (⌊Q⌋ : ℚ) ≤ q → q < ⌊Q⌋ + 1 →
      to_uint 16 q = some ⌊Q⌋.toNat := by
    intro q h1 h2
    apply to_uint_eq 16 q ⌊Q⌋.toNat (by rw [hcast]; exact h1) (by rw [hcast]; exact h2)
    have : ((⌊Q⌋.toNat : Nat) : Int) < ((2 ^ 16 : Nat) : Int) := by
      rw [Int.toNat_of_nonneg hK0]
      exact_mod_cast hK16
    exact_mod_cast this
  by_cases hint : Q = ⌊Q⌋
  · rw [hint, to_double_int ⌊Q⌋ hK0 (lt_trans hK16 (by norm_num)), Option.some_bind]
    exact hfin _ (le_refl _) (by linarith)
  · have hfpos : 0 < f := by
      rcases eq_or_lt_of_le h0 with h | h
      · exfalso
        apply hint
        rw [← hQ, ← h]
        simp
      · exact h
    obtain ⟨n, k, hf, hn, hk, hmax⟩ := float_repr f h
    have hn0 : 0 < n := by
      have h2 : (0 : ℚ) < 2 ^ k := by positivity
      rw [hf] at hfpos
      have : (0 : ℚ) < n := (mul_pos_iff_of_pos_right h2).1 hfpos
      exact_mod_cast this
    have hn24 : n < 2 ^ 24 := lt_of_le_of_lt (le_abs_self n) hn
    have hQn : Q = n * 2 ^ (k + 11) / 125 := by
      rw [← hQ, hf, zpow_add₀ (by norm_num : (2 : ℚ) ≠ 0)]
      norm_num
      ring
    have hQpos : 0 < Q := by
      rw [hQn]
      have : (0 : ℚ) < n := by exact_mod_cast hn0
      positivity
    have hQmin : (2 : ℚ) ^ ((-1074 : Int) + (((53 : ℕ) : Int) - 1)) ≤ |Q| := by
      rw [abs_of_pos hQpos, hQn]
      have h1 : (1 : ℚ) ≤ n := by exact_mod_cast hn0
      have h2 : (2 : ℚ) ^ (-138 : Int) ≤ 2 ^ (k + 11) :=
        zpow_le_zpow_right₀ (by norm_num) (by omega)
      have h3 : (2 : ℚ) ^ ((-1074 : Int) + (((53 : ℕ) : Int) - 1)) ≤ 2 ^ (-145 : Int) :=
        zpow_le_zpow_right₀ (by norm_num) (by norm_num)
      have h4 : (2 : ℚ) ^ (-145 : Int) = 2 ^ (-138 : Int) / 128 := by
        rw [show (-145 : Int) = -138 + -7 by norm_num,
          zpow_add₀ (by norm_num : (2 : ℚ) ≠ 0)]
        norm_num
      have h5 : (2 : ℚ) ^ (-138 : Int) / 128 ≤ n * 2 ^ (k + 11) / 125 := by
        have hp : (0 : ℚ) < 2 ^ (-138 : Int) := by positivity
        have hp2 : (0 : ℚ) < 2 ^ (k + 11) := by positivity
        generalize (2 : ℚ) ^ (-138 : Int) = a at h2 hp ⊢
        generalize (2 : ℚ) ^ (k + 11) = b at h2 hp2 ⊢
        have : a ≤ n * b := by nlinarith
        linarith
      rw [h4] at h3
      exact le_trans h3 h5
    have hQmax : 2 * |Q| ≤ 2 ^ (1024 : Int) := by
      rw [abs_of_pos hQpos]
      have : (2 : ℚ) ^ (17 : Int) ≤ 2 ^ (1024 : Int) :=
        zpow_le_zpow_right₀ (by norm_num) (by norm_num)
      have h17 : (2 : ℚ) ^ (17 : Int) = 2 * 2 ^ 16 := by norm_num
      linarith
    obtain ⟨q, hq, herr⟩ := fp_round_err 53 (-1074) 1024 Q (by norm_num) hQmin hQmax
    rw [abs_of_pos hQpos, abs_le] at herr
    unfold to_double
    rw [hq, Option.some_bind]
    have g1 := fdev_gap n (k + 11) ⌊Q⌋ hn0 hn24 Q hQn hr hint
    have g2 := fdev_gap n (k + 11) (⌊Q⌋ + 1) hn0 hn24 Q hQn hr (by
      push_cast
      exact ne_of_lt hKlt)
    rw [abs_of_nonneg (by linarith)] at g1
    push_cast at g2
    rw [abs_of_neg (by linarith)] at g2
    exact hfin q (by linarith) (by linarith)

/-! ## The error of the bit-rate quotient -/

theorem quotient_err (C X y q u : ℚ) (hC : 0 < C) (hX : 0 < X) (hu0 : 0 ≤ u)
    (hu : u ≤ 1 / 4) (hy : |y - X| ≤ X * u) (hq : |q - C / y| ≤ C / y * u) :
    0 < y ∧ C / X * (1 - u) ≤ C / y ∧ C / y ≤ C / X * (1 + 2 * u) ∧
      C / X * (1 - 4 * u) ≤ q ∧ q ≤ C / X * (1 + 4 * u) := by
  rw [abs_le] at hy hq
  have hy0 : 0 < y := by nlinarith
  have hQ : 0 < C / X := div_pos hC hX
  have hCX : C = C / X * X := by field_simp
  generalize C / X = Q at hQ hCX ⊢
  have h1 : Q * (1 - u) ≤ C / y := by
    rw [le_div_iff₀ hy0, hCX]
    have : (1 - u) * y ≤ X := by nlinarith
    nlinarith
  have h2 : C / y ≤ Q * (1 + 2 * u) := by
    rw [div_le_iff₀ hy0, hCX]
    have : X ≤ (1 + 2 * u) * y := by nlinarith
    nlinarith
  have hp : 0 < C / y := div_pos hC hy0
  generalize C / y = P at hq h1 h2 hp
  refine ⟨hy0, h1, h2, ?_, ?_⟩
  · have : Q * (1 - 4 * u) ≤ P * (1 - u) := by nlinarith
    linarith
  · have : P * (1 + u) ≤ Q * (1 + 4 * u) := by nlinarith
    linarith

/-- For a positive bit rate of at most 32000 kbit/s whose exact quotient is at most
65535, the bit-rate register has a value, and this value is the floor of the exact
quotient up to a relative error of `2^-51`. -/
theorem reg_bitrate_bounds (x : ℚ) (hx : 0 < x) (hlo : 32000000 / (x * 1000) ≤ 65535)
    (hhi : x ≤ 32000) :
    ∃ b : Nat, reg_bitrate x = some b ∧
      ⌊32000000 / (x * 1000) * (1 - 1 / 2 ^ 51)⌋ ≤ (b : Int) ∧
      (b : Int) ≤ ⌊32000000 / (x * 1000) * (1 + 1 / 2 ^ 51)⌋ := by
  have hX : 0 < x * 1000 := by linarith
  have hX1 : 1 ≤ x * 1000 := by
    rw [div_le_iff₀ hX] at hlo
    linarith
  have hmin : ∀ v : ℚ, 1 / 4 ≤ v →
      (2 : ℚ) ^ ((-1074 : Int) + (((53 : ℕ) : Int) - 1)) ≤ |v| := by
    intro v hv
    rw [abs_of_pos (by linarith)]
    have : (2 : ℚ) ^ ((-1074 : Int) + (((53 : ℕ) : Int) - 1)) ≤ 2 ^ (-2 : Int) :=
      zpow_le_zpow_right₀ (by norm_num) (by norm_num)
    have h2 : (2 : ℚ) ^ (-2 : Int) = 1 / 4 := by norm_num
    exact le_trans this (by rw [h2]; exact hv)
  have hmax : ∀ v : ℚ, 0 < v → v ≤ 2 ^ 30 → 2 * |v| ≤ 2 ^ (1024 : Int) := by
    intro v hv hv2
    rw [abs_of_pos hv]
    have : (2 : ℚ) ^ (31 : Int) ≤ 2 ^ (1024 : Int) :=
      zpow_le_zpow_right₀ (by norm_num) (by norm_num)
    have h2 : (2 : ℚ) ^ (31 : Int) = 2 * 2 ^ 30 := by norm_num
    linarith
  obtain ⟨y, hy, hyerr⟩ := fp_round_err 53 (-1074) 1024 (x * 1000) (by norm_num)
    (hmin _ (by linarith)) (hmax _ hX (by norm_num; linarith))
  rw [abs_of_pos hX] at hyerr
  have hy0 : 0 < y := by
    rw [abs_le] at hyerr
    have : x * 1000 / 2 ^ 53 ≤ x * 1000 / 2 := by
      apply div_le_div_of_nonneg_left (le_of_lt hX) (by norm_num) (by norm_num)
    linarith
  have hQ1 : 1 ≤ 32000000 / (x * 1000) := by
    rw [le_div_iff₀ hX]
    linarith
  have hQ2 : 32000000 / (x * 1000) ≤ 65535 := hlo
  have hylo : (1 : ℚ) / 2 ≤ 32000000 / y ∧ 32000000 / y ≤ 2 ^ 17 := by
    obtain ⟨_, h1, h2, _, _⟩ := quotient_err 32000000 (x * 1000) y (32000000 / y)
      (1 / 2 ^ 53) (by norm_num) hX (by norm_num) (by norm_num)
      (by rw [mul_one_div]; exact hyerr) (by simp; positivity)
    constructor
    · have : (1 : ℚ) / 2 ≤ 32000000 / (x * 1000) * (1 - 1 / 2 ^ 53) := by
        have : (1 : ℚ) / 2 ≤ 1 - 1 / 2 ^ 53 := by norm_num
        nlinarith
      linarith
    · have : 32000000 / (x * 1000) * (1 + 2 * (1 / 2 ^ 53)) ≤ 2 ^ 17 := by
        have : (1 : ℚ) + 2 * (1 / 2 ^ 53) ≤ 2 := by norm_num
        have h3 : (65535 : ℚ) * 2 ≤ 2 ^ 17 := by norm_num
        nlinarith
      linarith
  have hP0 : (0 : ℚ) < 32000000 / y := by linarith [hylo.1]
  obtain ⟨q, hq, hqerr⟩ := fp_round_err 53 (-1074) 1024 (32000000 / y) (by norm_num)
    (hmin _ (by linarith [hylo.1])) (hmax _ hP0 (le_trans hylo.2 (by norm_num)))
  rw [abs_of_pos hP0] at hqerr
  obtain ⟨_, _, _, hql, hqh⟩ := quotient_err 32000000 (x * 1000) y q
    (1 / 2 ^ 53) (by norm_num) hX (by norm_num) (by norm_num)
    (by rw [mul_one_div]; exact hyerr) (by rw [mul_one_div]; exact hqerr)
  rw [show (4 : ℚ) * (1 / 2 ^ 53) = 1 / 2 ^ 51 by norm_num] at hql hqh
  have hq0 : 0 ≤ q := by
    have : (0 : ℚ) ≤ 1 - 1 / 2 ^ 51 := by norm_num
    have : 0 ≤ 32000000 / (x * 1000) * (1 - 1 / 2 ^ 51) := by positivity
    linarith
  have hq16 : q < 2 ^ 16 := by
    have : 32000000 / (x * 1000) * (1 + 1 / 2 ^ 51) ≤ 65535 * (1 + 1 / 2 ^ 51) := by
      apply mul_le_mul hQ2 (le_refl _) (by positivity) (by norm_num)
    have h3 : (65535 : ℚ) * (1 + 1 / 2 ^ 51) < 2 ^ 16 := by norm_num
    linarith
  have hf16 : ⌊q⌋ < 2 ^ 16 := by
    have h1 : (⌊q⌋ : ℚ) ≤ q := Int.floor_le q
    have : (⌊q⌋ : ℚ) < ((2 ^ 16 : Int) : ℚ) := by
      push_cast
      linarith
    exact_mod_cast this
  refine ⟨⌊q⌋.toNat, ?_, ?_, ?_⟩
  · have hy2 : to_double (x * 1000) = some y := hy
    have hq2 : to_double (32000000 / y) = some q := hq
    have hC : SX1231_FXOSC = 32000000 := by
      unfold SX1231_FXOSC
      norm_num
    unfold reg_bitrate
    rw [hy2]
    simp only [ne_of_gt hy0, ↓reduceIte]
    rw [hC, hq2, Option.some_bind, to_uint_of_nonneg 16 q hq0, if_pos hf16]
  · rw [Int.toNat_of_nonneg (Int.floor_nonneg.2 hq0)]
    exact Int.floor_le_floor hql
  · rw [Int.toNat_of_nonneg (Int.floor_nonneg.2 hq0)]
    exact Int.floor_le_floor hqh

/-! ## The register values of the settings the tools use -/

theorem FXOSC_eq : SX1231_FXOSC = 32000000 := by
  unfold SX1231_FXOSC
  norm_num

theorem to_float_near (x : ℚ) (e m : Int) (q : ℚ) (hq : q = 2 ^ (e - 23))
    (he : -126 ≤ e) (hemax : e ≤ 100) (h1 : (2 : ℚ) ^ e ≤ x) (h2 : x < 2 ^ (e + 1))
    (hlo : (m : ℚ) - 1 / 2 < x / q) (hhi : x / q < m + 1 / 2) (hm : 0 ≤ m) :
    to_float x = some (m * q) := by
  have hx : 0 < x := lt_of_lt_of_le (by positivity) h1
  have hq0 : 0 < q := by rw [hq]; positivity
  have h23 : e - (((24 : ℕ) : ℤ) - 1) = e - 23 := by push_cast; ring
  have hm0 : (0 : ℚ) ≤ m := by exact_mod_cast hm
  have hqle : q ≤ 2 ^ (e + 1) := by
    rw [hq]
    exact zpow_le_zpow_right₀ (by norm_num) (by omega)
  have hmq : (m : ℚ) * q < 2 ^ (e + 1) + 2 ^ (e + 1) := by
    have h3 : (m : ℚ) * q < (x / q + 1 / 2) * q :=
      mul_lt_mul_of_pos_right (by linarith) hq0
    have h4 : (x / q + 1 / 2) * q = x + q / 2 := by
      field_simp
      ring
    linarith
  have hmax : (m : ℚ) * q < 2 ^ (128 : Int) := by
    have h5 : (2 : ℚ) ^ (e + 1) + 2 ^ (e + 1) = 2 ^ (e + 2) := by
      rw [zpow_add₀ (by norm_num : (2 : ℚ) ≠ 0), zpow_add₀ (by norm_num : (2 : ℚ) ≠ 0)]
      norm_num
      ring
    have h6 : (2 : ℚ) ^ (e + 2) ≤ 2 ^ (128 : Int) :=
      zpow_le_zpow_right₀ (by norm_num) (by omega)
    linarith
  have := fp_round_near 24 (-149) 128 x e m (by rw [abs_of_pos hx]; exact h1)
    (by rw [abs_of_pos hx]; exact h2) (by rw [h23]; omega)
    (by
      rw [h23, ← hq, abs_lt]
      constructor <;> linarith)
    (by
      rw [h23, ← hq, abs_of_nonneg (mul_nonneg hm0 (le_of_lt hq0))]
      exact hmax)
  unfold to_float
  rw [this, h23, ← hq]

/-- The `float` nearest to 433.46, the frequency `sx1231_rts_init` passes. -/
theorem float_433_46 : to_float 433.46 = some (14203617 / 32768) := by
  rw [to_float_near _ 8 14203617 (1 / 2 ^ 15) (by norm_num) (by norm_num)
    (by norm_num) (by norm_num) (by norm_num) (by norm_num) (by norm_num) (by norm_num)]
  norm_num

/-- The `float` nearest to 433.92, the frequency `sx1231_kaku.c` passes. -/
theorem float_433_92 : to_float 433.92 = some (14218691 / 32768) := by
  rw [to_float_near _ 8 14218691 (1 / 2 ^ 15) (by norm_num) (by norm_num)
    (by norm_num) (by norm_num) (by norm_num) (by norm_num) (by norm_num) (by norm_num)]
  norm_num

theorem is_float_of_int (n : Int) (k : Nat) (hn : |n| < 2 ^ 24) (hk : k ≤ 100) :
    to_float ((n : ℚ) / 2 ^ k) = some ((n : ℚ) / 2 ^ k) := by
  unfold to_float
  apply fp_round_exact 24 (-149) 128 _ n (-(k : Int))
  · rw [zpow_neg, zpow_natCast, div_eq_mul_inv]
  · exact hn
  · omega
  · rw [abs_div, abs_of_pos (by positivity : (0 : ℚ) < 2 ^ k), div_lt_iff₀ (by positivity)]
    have h1 : |(n : ℚ)| < 2 ^ (24 : Int) := by
      have : ((|n| : Int) : ℚ) < ((2 ^ 24 : Int) : ℚ) := by exact_mod_cast hn
      push_cast at this
      exact_mod_cast this
    have h2 : (2 : ℚ) ^ (24 : Int) ≤ 2 ^ (128 : Int) :=
      zpow_le_zpow_right₀ (by norm_num) (by norm_num)
    have h3 : (1 : ℚ) ≤ 2 ^ k := one_le_pow₀ (by norm_num)
    have h4 : (0 : ℚ) < 2 ^ (128 : Int) := by positivity
    nlinarith

theorem reg_freq_433_46 : reg_freq (14203617 / 32768) = some 7101808 := by
  have h := is_float_of_int 14203617 15 (by norm_num) (by norm_num)
  norm_num at h
  rw [reg_freq_exact _ h]
  exact to_uint_eq 32 _ 7101808 (by norm_num) (by norm_num) (by norm_num)

theorem reg_freq_433_92 : reg_freq (14218691 / 32768) = some 7109345 := by
  have h := is_float_of_int 14218691 15 (by norm_num) (by norm_num)
  norm_num at h
  rw [reg_freq_exact _ h]
  exact to_uint_eq 32 _ 7109345 (by norm_num) (by norm_num) (by norm_num)

theorem reg_fdev_zero : reg_fdev 0 = some 0 := by
  unfold reg_fdev
  rw [zero_mul, to_double_zero, Option.some_bind, zero_div, to_double_zero, Option.some_bind]
  exact to_uint_eq 16 0 0 (by norm_num) (by norm_num) (by norm_num)

/-- The value of `ENCODED_BITRATE`, `1000.0 * 8 * 1.0 / 300.0`: the `double` nearest to
80/3. -/
theorem encoded_bitrate_double :
    to_double (1000.0 * 8 * 1.0 / 300.0) = some (7505999378950827 / 2 ^ 48) := by
  rw [to_double_near _ 4 7505999378950827 (1 / 2 ^ 48) (by norm_num) (by norm_num)
    (by norm_num) (by norm_num) (by norm_num) (by norm_num) (by norm_num) (by norm_num)]
  norm_num

theorem reg_bitrate_of (x y q : ℚ) (k : Nat) (hy : to_double (x * 1000) = some y)
    (hy0 : y ≠ 0) (hq : to_double (SX1231_FXOSC / y) = some q) (h1 : (k : ℚ) ≤ q)
    (h2 : q < k + 1) (hk : k < 2 ^ 16) : reg_bitrate x = some k := by
  unfold reg_bitrate
  rw [hy]
  simp only [hy0, ↓reduceIte]
  rw [hq, Option.some_bind]
  exact to_uint_eq 16 q k h1 h2 hk

theorem reg_bitrate_kaku : reg_bitrate (7505999378950827 / 2 ^ 48) = some 1200 :=
  reg_bitrate_of _ _ _ 1200 kaku_rate_product (by norm_num) kaku_rate_quotient
    (by norm_num) (by norm_num) (by norm_num)

theorem floor_kaku : ⌊(32000000 : ℚ) / (7505999378950827 / 2 ^ 48 * 1000)⌋ = 1199 := by
  rw [Int.floor_eq_iff]
  norm_num

theorem reg_bitrate_80_3 : reg_bitrate (80 / 3) = some 1200 := by
  refine reg_bitrate_of _ (7330077518506667 / 2 ^ 38) _ 1200 ?_ (by norm_num)
    kaku_rate_quotient (by norm_num) (by norm_num) (by norm_num)
  rw [to_double_near _ 14 7330077518506667 (1 / 2 ^ 38) (by norm_num) (by norm_num)
    (by norm_num) (by norm_num) (by norm_num) (by norm_num) (by norm_num) (by norm_num)]
  norm_num

theorem reg_bitrate_rts : reg_bitrate (7456290773464135 / 2 ^ 52) = some 19328 := by
  refine reg_bitrate_of _ (7281533958461069 / 2 ^ 42) (5312840185647397 / 2 ^ 38) 19328
    ?_ (by norm_num) ?_ (by norm_num) (by norm_num) (by norm_num)
  · rw [to_double_near _ 10 7281533958461069 (1 / 2 ^ 42) (by norm_num) (by norm_num)
      (by norm_num) (by norm_num) (by norm_num) (by norm_num) (by norm_num) (by norm_num)]
    norm_num
  · rw [FXOSC_eq, to_double_near _ 14 5312840185647397 (1 / 2 ^ 38) (by norm_num)
      (by norm_num) (by norm_num) (by norm_num) (by norm_num) (by norm_num) (by norm_num)
      (by norm_num)]
    norm_num

theorem double_rts_rate :
    to_double 1.655629139 = some (7456290773464135 / 2 ^ 52) := by
  rw [to_double_near _ 0 7456290773464135 (1 / 2 ^ 52) (by norm_num) (by norm_num)
    (by norm_num) (by norm_num) (by norm_num) (by norm_num) (by norm_num) (by norm_num)]
  norm_num

theorem reg_bitrate_eighth : reg_bitrate (1 / 8) = none := by
  have h1 : to_double ((1 / 8 : ℚ) * 1000) = some 125 := by
    have := to_double_int 125 (by norm_num) (by norm_num)
    norm_num at this ⊢
    exact this
  have h2 : to_double (SX1231_FXOSC / 125) = some 256000 := by
    have := to_double_int 256000 (by norm_num) (by norm_num)
    rw [FXOSC_eq]
    norm_num at this ⊢
    exact this
  unfold reg_bitrate
  rw [h1]
  simp only [show (125 : ℚ) ≠ 0 by norm_num, ↓reduceIte]
  rw [h2, Option.some_bind, to_uint_of_nonneg 16 _ (by norm_num)]
  rw [if_neg]
  rw [show ⌊(256000 : ℚ)⌋ = 256000 from Int.floor_eq_iff.2 ⟨by norm_num, by norm_num⟩]
  norm_num

theorem reg_freq_decimal_433_92 : reg_freq 433.92 = some 7109345 := by
  have h1 : to_double ((433.92 : ℚ) * 1e6) = some 433920000 := by
    have := to_double_int 433920000 (by norm_num) (by norm_num)
    norm_num at this ⊢
    exact this
  have h2 : to_double ((433920000 : ℚ) / SX1231_FSTEP) =
      some (7633601368392991 / 2 ^ 30) := by
    unfold SX1231_FSTEP
    rw [FXOSC_eq, to_double_near _ 22 7633601368392991 (1 / 2 ^ 30) (by norm_num)
      (by norm_num) (by norm_num) (by norm_num) (by norm_num) (by norm_num) (by norm_num)
      (by norm_num)]
    norm_num
  unfold reg_freq
  rw [h1, Option.some_bind, h2, Option.some_bind]
  exact to_uint_eq 32 _ 7109345 (by norm_num) (by norm_num) (by norm_num)

/-! ## C20: the bytes of the frequency configuration -/

theorem reg_bitrate_lt (x : ℚ) (b : Nat) (h : reg_bitrate x = some b) : b < 2 ^ 16 := by
  unfold reg_bitrate at h
  split at h
  · injection h with h
    rw [← h]
    norm_num
  · split at h
    · exact absurd h (by simp)
    · obtain ⟨q, _, hq⟩ := Option.bind_eq_some.1 h
      exact to_uint_lt 16 q b hq

theorem reg_fdev_lt (x : ℚ) (d : Nat) (h : reg_fdev x = some d) : d < 2 ^ 16 := by
  unfold reg_fdev at h
  obtain ⟨p, _, hp⟩ := Option.bind_eq_some.1 h
  obtain ⟨q, _, hq⟩ := Option.bind_eq_some.1 hp
  exact to_uint_lt 16 q d hq

theorem reg_freq_lt (x : ℚ) (f : Nat) (h : reg_freq x = some f) : f < 2 ^ 32 := by
  unfold reg_freq at h
  obtain ⟨p, _, hp⟩ := Option.bind_eq_some.1 h
  obtain ⟨q, _, hq⟩ := Option.bind_eq_some.1 hp
  exact to_uint_lt 32 q f hq

/-- The body of `rf_config` once the three register values are computed. -/
theorem rf_config_unfold (bus : Bus) (fuel : Nat) (dev : rf_dev_t) (freq_mhz fdev_khz : ℚ)
    (modulation : Int) (data_rate_kbps : ℚ) (pa1 : Bool) (n : Nat) (bitrate fdev freq : Nat)
    (hb : reg_bitrate data_rate_kbps = some bitrate) (hd : reg_fdev fdev_khz = some fdev)
    (hf : reg_freq freq_mhz = some freq) :
    rf_config bus fuel dev freq_mhz fdev_khz modulation data_rate_kbps pa1 n =
      TRY n (fun n => ret (spi_write_regs bus n RegBitrateMsb
        (config_buf bitrate fdev freq) (2 + 2 + 3))) fun n =>
      TRY n (fun n =>
        if modulation = SX1231_MODULATION_OOK then
          ret (spi_write_reg bus n RegDataModul 0x08)
        else ret (spi_write_reg bus n RegDataModul 0x00)) fun n =>
      TRY n (fun n => ret (spi_write_reg bus n RegDioMapping2 0x07)) fun n =>
      TRY n (fun n => ret (spi_write_reg bus n RegPreambleMsb 0x00)) fun n =>
      TRY n (fun n => ret (spi_write_reg bus n RegPreambleLsb 0x00)) fun n =>
      TRY n (fun n => ret (spi_write_reg bus n RegSyncConfig 0x18)) fun n =>
      TRY n (fun n => ret (spi_write_reg bus n RegPacketConfig1 0x00)) fun n =>
      TRY n (fun n => ret (spi_write_reg bus n RegPayloadLength 0x00)) fun n =>
      TRY n (fun n => ret (spi_write_reg bus n RegFifoThresh 0x8f)) fun n =>
      TRY n (rf_set_pa bus dev 0x1f pa1) fun n =>
      TRY n (_switch_mode bus fuel OP_MODE_MODE_STDBY) fun _ =>
      (Ret.code ERR_OK, []) := by
  unfold rf_config
  rw [TRY_ok _ _ _ rfl]
  simp only [_reset, List.length_nil, Nat.add_zero, List.nil_append, hb, hd, hf]

/-- When one of the three register values has no conversion, `rf_config` performs no
transfer. -/
theorem rf_config_undefined (bus : Bus) (fuel : Nat) (dev : rf_dev_t) (freq_mhz fdev_khz : ℚ)
    (modulation : Int) (data_rate_kbps : ℚ) (pa1 : Bool) (n : Nat)
    (h : reg_bitrate data_rate_kbps = none ∨ reg_fdev fdev_khz = none ∨
      reg_freq freq_mhz = none) :
    rf_config bus fuel dev freq_mhz fdev_khz modulation data_rate_kbps pa1 n =
      (Ret.undefined, []) := by
  unfold rf_config
  rw [TRY_ok _ _ _ rfl]
  simp only [_reset, List.length_nil, Nat.add_zero, List.nil_append]
  split
  · rename_i h1 h2 h3
    rcases h with h | h | h
    · rw [h3] at h
      exact absurd h (by simp)
    · rw [h2] at h
      exact absurd h (by simp)
    · rw [h1] at h
      exact absurd h (by simp)
  · rfl

theorem rf_config_first (bus : Bus) (fuel : Nat) (dev : rf_dev_t) (freq_mhz fdev_khz : ℚ)
    (modulation : Int) (data_rate_kbps : ℚ) (pa1 : Bool) (n : Nat) :
    (∃ bitrate fdev freq tl,
      reg_bitrate data_rate_kbps = some bitrate ∧ reg_fdev fdev_khz = some fdev ∧
      reg_freq freq_mhz = some freq ∧
      (rf_config bus fuel dev freq_mhz fdev_khz modulation data_rate_kbps pa1 n).2 =
        (⟨0x83, true, config_buf bitrate fdev freq, 7⟩, bus n) :: tl ∧
      bitrate < 2 ^ 16 ∧ fdev < 2 ^ 16 ∧ freq < 2 ^ 32) ∨
    ((reg_bitrate data_rate_kbps = none ∨ reg_fdev fdev_khz = none ∨
        reg_freq freq_mhz = none) ∧
      rf_config bus fuel dev freq_mhz fdev_khz modulation data_rate_kbps pa1 n =
        (Ret.undefined, [])) := by
  cases hb : reg_bitrate data_rate_kbps with
  | none => exact Or.inr ⟨Or.inl rfl, rf_config_undefined _ _ _ _ _ _ _ _ _ (Or.inl hb)⟩
  | some b =>
    cases hd : reg_fdev fdev_khz with
    | none =>
      exact Or.inr ⟨Or.inr (Or.inl rfl), rf_config_undefined _ _ _ _ _ _ _ _ _ (Or.inr (Or.inl hd))⟩
    | some d =>
      cases hf : reg_freq freq_mhz with
      | none =>
        exact Or.inr ⟨Or.inr (Or.inr rfl),
          rf_config_undefined _ _ _ _ _ _ _ _ _ (Or.inr (Or.inr hf))⟩
      | some f =>
        have hev : ∃ tl,
            (rf_config bus fuel dev freq_mhz fdev_khz modulation data_rate_kbps pa1 n).2 =
              (⟨0x83, true, config_buf b d f, 7⟩, bus n) :: tl := by
          rw [rf_config_unfold bus fuel dev freq_mhz fdev_khz modulation data_rate_kbps pa1 n
            b d f hb hd hf, TRY_events,
            spi_write_regs_low bus n RegBitrateMsb _ _ (by decide)]
          exact ⟨_, rfl⟩
        obtain ⟨tl, htl⟩ := hev
        exact Or.inl ⟨b, d, f, tl, rfl, rfl, rfl, htl, reg_bitrate_lt _ _ hb,
          reg_fdev_lt _ _ hd, reg_freq_lt _ _ hf⟩

/-- C20: for register values `bitrate` and `fdev` of 16 bits and `freq` of 32 bits, the
seven bytes of the burst at the bit-rate register (0x03) are `bitrate>>8`, `bitrate`,
`(fdev>>8) & 0x3F`, `fdev`, `freq>>16`, `freq>>8`, `freq`, each reduced to 8 bits; read
back most-significant byte first they give `bitrate`, `fdev mod 2^14` and `freq mod 2^24`,
so nothing is lost exactly when `fdev < 2^14` and `freq < 2^24`. The first transfer of
`rf_config` writes these bytes, for the register values it computed, at 0x03; it makes
no transfer when one of the three values has no conversion to its integer type. -/
theorem config_buf_roundtrip (bitrate fdev freq : Nat) (hb : bitrate < 2 ^ 16)
    (hf : fdev < 2 ^ 16) (hq : freq < 2 ^ 32) :
    config_buf bitrate fdev freq =
      [(bitrate >>> 8) % 256, bitrate % 256, ((fdev >>> 8) &&& 0x3f) % 256, fdev % 256,
        (freq >>> 16) % 256, (freq >>> 8) % 256, freq % 256] ∧
    (config_buf bitrate fdev freq).length = 7 ∧
    (∀ x ∈ config_buf bitrate fdev freq, x < 256) ∧
    read_be ((config_buf bitrate fdev freq).take 2) = bitrate ∧
    read_be (((config_buf bitrate fdev freq).drop 2).take 2) = fdev % 2 ^ 14 ∧
    read_be ((config_buf bitrate fdev freq).drop 4) = freq % 2 ^ 24 ∧
    ((read_be (((config_buf bitrate fdev freq).drop 2).take 2) = fdev ∧
        read_be ((config_buf bitrate fdev freq).drop 4) = freq) ↔
      (fdev < 2 ^ 14 ∧ freq < 2 ^ 24)) ∧
    (∀ bus fuel dev freq_mhz fdev_khz modulation data_rate_kbps pa1 n,
      (∃ bitrate fdev freq tl,
        reg_bitrate data_rate_kbps = some bitrate ∧ reg_fdev fdev_khz = some fdev ∧
        reg_freq freq_mhz = some freq ∧
        (rf_config bus fuel dev freq_mhz fdev_khz modulation data_rate_kbps pa1 n).2 =
          (⟨0x03 ||| 0x80, true, config_buf bitrate fdev freq, 7⟩, bus n) :: tl ∧
        bitrate < 2 ^ 16 ∧ fdev < 2 ^ 16 ∧ freq < 2 ^ 32) ∨
      ((reg_bitrate data_rate_kbps = none ∨ reg_fdev fdev_khz = none ∨
          reg_freq freq_mhz = none) ∧
        rf_config bus fuel dev freq_mhz fdev_khz modulation data_rate_kbps pa1 n =
          (Ret.undefined, []))) := by
  have hand : ∀ y : Nat, y &&& 63 = y % 64 := fun y =>
    Nat.and_pow_two_sub_one_eq_mod y 6
  have e1 : read_be ((config_buf bitrate fdev freq).take 2) = bitrate := by
    simp only [config_buf, read_be, List.take, List.foldl, Nat.shiftRight_eq_div_pow]
    omega
  have e2 : read_be (((config_buf bitrate fdev freq).drop 2).take 2) = fdev % 2 ^ 14 := by
    simp only [config_buf, read_be, List.drop, List.take, List.foldl, hand,
      Nat.shiftRight_eq_div_pow]
    omega
  have e3 : read_be ((config_buf bitrate fdev freq).drop 4) = freq % 2 ^ 24 := by
    simp only [config_buf, read_be, List.drop, List.foldl, Nat.shiftRight_eq_div_pow]
    omega
  refine ⟨rfl, rfl, ?_, e1, e2, e3, ?_, ?_⟩
  · intro x hx
    simp only [config_buf, List.mem_cons, List.mem_singleton, List.not_mem_nil,
      or_false] at hx
    rcases hx with h | h | h | h | h | h | h <;> (rw [h]; exact Nat.mod_lt _ (by decide))
  · rw [e2, e3]
    constructor
    · rintro ⟨h1, h2⟩
      constructor <;> omega
    · rintro ⟨h1, h2⟩
      constructor <;> omega
  · intro bus fuel dev freq_mhz fdev_khz modulation data_rate_kbps pa1 n
    exact rf_config_first bus fuel dev freq_mhz fdev_khz modulation data_rate_kbps pa1 n

/-- C20 at concrete register values: a deviation of 0x4123 loses its top two bits. -/
theorem config_buf_roundtrip_witness :
    (0x4B80 : Nat) < 2 ^ 16 ∧ (0x4123 : Nat) < 2 ^ 16 ∧ (0x6C5D70 : Nat) < 2 ^ 32 ∧
    config_buf 0x4B80 0x4123 0x6C5D70 = [0x4B, 0x80, 0x01, 0x23, 0x6C, 0x5D, 0x70] ∧
    read_be (((config_buf 0x4B80 0x4123 0x6C5D70).drop 2).take 2) = 0x4123 % 2 ^ 14 :=
  ⟨by decide, by decide, by decide, by decide,
    (config_buf_roundtrip 0x4B80 0x4123 0x6C5D70 (by decide) (by decide)
      (by decide)).2.2.2.2.1⟩

/-! ## C15: the sequence of `rf_config` -/

theorem IsSingle_write_reg (bus : Bus) (addr v : Nat) (ha : addr &&& 0x80 = 0) :
    IsSingle bus (fun n => ret (spi_write_reg bus n addr v))
      ⟨addr ||| 0x80, true, [v % 256], 1⟩ := by
  intro n
  simp only [spi_write_reg_low bus n addr v ha, ret, ERR_OK]

theorem IsSingle_write_regs (bus : Bus) (addr : Nat) (data : List Nat) (len : Nat)
    (ha : addr &&& 0x80 = 0) :
    IsSingle bus (fun n => ret (spi_write_regs bus n addr data len))
      ⟨addr ||| 0x80, true, data.take len, len⟩ := by
  intro n
  simp only [spi_write_regs_low bus n addr data len ha, ret, ERR_OK]

theorem TRY_single_events (bus : Bus) (n : Nat) (x rest : Nat → Out) (q : Xfer)
    (hx : IsSingle bus x q) :
    (TRY n x rest).2 = (q, bus n) :: (if (bus n).ok = true then (rest (n + 1)).2 else []) := by
  rw [TRY_events, hx n]
  cases h : (bus n).ok
  · have hne : ¬ (Ret.code ERR_SPI_IOCTL = Ret.code 0) := fun h =>
      ERR_SPI_IOCTL_ne_zero (by injection h)
    simp [hne]
  · simp

theorem TRY_single_prefix (bus : Bus) (n : Nat) (x rest : Nat → Out) (q : Xfer)
    (L : List Xfer) (hx : IsSingle bus x q)
    (hr : ∀ m, (rest m).2.map Prod.fst <+: L) :
    (TRY n x rest).2.map Prod.fst <+: q :: L := by
  rw [TRY_single_events bus n x rest q hx, List.map_cons, List.prefix_cons_inj]
  split
  · exact hr _
  · exact List.nil_prefix

theorem TRY_single_ok (bus : Bus) (n : Nat) (x rest : Nat → Out) (q : Xfer)
    (hx : IsSingle bus x q) (h : (TRY n x rest).1 = Ret.code 0) :
    (rest (n + 1)).1 = Ret.code 0 ∧ (TRY n x rest).2 = (q, bus n) :: (rest (n + 1)).2 := by
  obtain ⟨h1, h2, h3⟩ := TRY_fst_ok _ _ _ h
  rw [h3]
  rw [hx n] at h1 h2 ⊢
  exact ⟨h2, rfl⟩

theorem FailStop_IsSingle (bus : Bus) (n : Nat) (x : Nat → Out) (q : Xfer)
    (hx : IsSingle bus x q) : FailStop (x n) := by
  rw [hx n]
  exact FailStop_single bus n q

theorem poll_length_le (bus : Bus) (addr : Nat) (again : Nat → Bool)
    (ha : addr &&& 0x80 = 0) (fuel : Nat) :
    ∀ n, (poll_reg bus addr again fuel n).2.length ≤ fuel := by
  induction fuel with
  | zero =>
    intro n
    simp [poll_reg]
  | succ f ih =>
    intro n
    rw [poll_reg_succ bus addr again ha]
    have := ih (n + 1)
    split
    · split
      · simp only [List.length_cons]
        omega
      · simp
    · simp

theorem poll_requests (bus : Bus) (addr : Nat) (again : Nat → Bool)
    (ha : addr &&& 0x80 = 0) (fuel n : Nat) :
    (poll_reg bus addr again fuel n).2.map Prod.fst =
      List.replicate (poll_reg bus addr again fuel n).2.length ⟨addr, false, [], 1⟩ := by
  rw [List.eq_replicate_iff]
  refine ⟨List.length_map _ _, ?_⟩
  intro b hb
  obtain ⟨e, he, rfl⟩ := List.mem_map.1 hb
  exact poll_reads bus addr again ha fuel n e he

theorem replicate_prefix_of_le (a : Xfer) (k m : Nat) (h : k ≤ m) :
    List.replicate k a <+: List.replicate m a := by
  refine ⟨List.replicate (m - k) a, ?_⟩
  rw [List.append_replicate_replicate]
  congr 1
  omega

theorem IsSingle_modulation (bus : Bus) (modulation : Int) :
    IsSingle bus (fun n =>
      if modulation = SX1231_MODULATION_OOK then ret (spi_write_reg bus n RegDataModul 0x08)
      else ret (spi_write_reg bus n RegDataModul 0x00))
      ⟨0x02 ||| 0x80, true, [if modulation = 1 then 0x08 else 0x00], 1⟩ := by
  intro n
  by_cases h : modulation = 1
  · simp only [SX1231_MODULATION_OOK, h, ↓reduceIte]
    exact IsSingle_write_reg bus RegDataModul 0x08 (by decide) n
  · simp only [SX1231_MODULATION_OOK, h, ↓reduceIte]
    exact IsSingle_write_reg bus RegDataModul 0x00 (by decide) n

theorem IsSingle_default_pa (bus : Bus) (dev : rf_dev_t) :
    IsSingle bus (rf_set_pa bus dev 0x1f false) ⟨0x11 ||| 0x80, true, [0x9F], 1⟩ := by
  intro n
  rw [rf_set_pa_eq bus dev 0x1f false n (by decide)]
  simp only [Bool.false_eq_true, false_and, or_false, true_and]
  exact IsSingle_write_reg bus RegPaLevel (spec_pa_byte 0x1f false) (by decide) n

theorem TRY_last_events (n : Nat) (x : Nat → Out) (r : Ret) :
    (TRY n x fun _ => (r, [])).2 = (x n).2 := by
  rw [TRY_events]
  split <;> simp

theorem switch_standby_prefix (bus : Bus) (fuel n : Nat) :
    (_switch_mode bus fuel OP_MODE_MODE_STDBY n).2.map Prod.fst <+:
      ⟨0x01 ||| 0x80, true, [0x04], 1⟩ :: List.replicate fuel ⟨0x27, false, [], 1⟩ := by
  rw [switch_mode_eq bus fuel _ n (by decide)]
  split
  · rw [List.map_cons]
    apply (List.prefix_cons_inj _).2
    rw [poll_requests bus RegIrqFlags1 _ (by decide) fuel (n + 1)]
    exact replicate_prefix_of_le _ _ _ (poll_length_le bus RegIrqFlags1 _ (by decide) fuel _)
  · rw [List.map_cons]
    apply (List.prefix_cons_inj _).2
    exact List.nil_prefix

theorem switch_standby_ok (bus : Bus) (fuel n : Nat)
    (h : (_switch_mode bus fuel OP_MODE_MODE_STDBY n).1 = Ret.code 0) :
    ∃ j, (_switch_mode bus fuel OP_MODE_MODE_STDBY n).2.map Prod.fst =
      ⟨0x01 ||| 0x80, true, [0x04], 1⟩ :: List.replicate (j + 1) ⟨0x27, false, [], 1⟩ := by
  rw [switch_mode_eq bus fuel _ n (by decide)] at h ⊢
  by_cases h0 : (bus n).ok = true
  · simp only [h0, ↓reduceIte] at h ⊢
    obtain ⟨init, p, hp, _⟩ := poll_last bus RegIrqFlags1 _ (by decide) fuel (n + 1) h
    refine ⟨init.length, ?_⟩
    rw [List.map_cons, poll_requests bus RegIrqFlags1 _ (by decide) fuel (n + 1), hp]
    simp
    exact ⟨by decide, rfl⟩
  · simp only [h0, Bool.false_eq_true, ↓reduceIte] at h
    exact absurd (by injection h) ERR_SPI_IOCTL_ne_zero

theorem switch_mode_settles_ready (bus : Bus) (hok : ∀ m, (bus m).ok = true)
    (hready : ∀ k, ∃ m, k ≤ m ∧ (bus m).val &&& IRQ_FLAGS1_MODEREADY ≠ 0) (mode : Int)
    (hm : int_bits mode &&& int_bits (-0x1c - 1) = 0) (n : Nat) :
    Settles (fun fuel => _switch_mode bus fuel mode n) := by
  unfold _switch_mode
  simp only [hm, ne_eq, not_true_eq_false, ↓reduceIte]
  apply Settles_TRY n (fun _ n => ret (spi_write_reg bus n RegOpMode (mode % 256).toNat))
    (fun fuel n => TRY n (poll_reg bus RegIrqFlags1
      (fun val => val &&& IRQ_FLAGS1_MODEREADY = 0) fuel) fun _ => (Ret.code ERR_OK, []))
  · exact write_opmode_settles bus hok _ n
  · intro m
    apply Settles_TRY m (fun fuel => poll_reg bus RegIrqFlags1
      (fun val => val &&& IRQ_FLAGS1_MODEREADY = 0) fuel) (fun _ _ => (Ret.code ERR_OK, []))
    · apply poll_settles bus _ _ (by decide) hok
      obtain ⟨k, hk, h⟩ := hready m
      exact ⟨k, hk, by simpa using h⟩
    · intro _
      exact Settles_const _

theorem Settles_single (bus : Bus) (hok : ∀ m, (bus m).ok = true) (n : Nat) (x : Nat → Out)
    (q : Xfer) (hx : IsSingle bus x q) (rest : Nat → Nat → Out)
    (hr : ∀ m, Settles (fun fuel => rest fuel m)) :
    Settles (fun fuel => TRY n x (rest fuel)) := by
  apply Settles_TRY n (fun _ => x) rest _ hr
  simp only [hx n, hok n, ↓reduceIte]
  exact Settles_const _

/-- On a chip where every transfer succeeds and the mode-ready flag shows again and
again, `rf_config` returns `ERR_OK` for every large enough bound on its polling loop. -/
theorem rf_config_settles (bus : Bus) (hok : ∀ m, (bus m).ok = true)
    (hready : ∀ k, ∃ m, k ≤ m ∧ (bus m).val &&& IRQ_FLAGS1_MODEREADY ≠ 0) (dev : rf_dev_t)
    (freq_mhz fdev_khz : ℚ) (modulation : Int) (data_rate_kbps : ℚ) (n : Nat)
    (bitrate fdev freq : Nat) (hb : reg_bitrate data_rate_kbps = some bitrate)
    (hd : reg_fdev fdev_khz = some fdev) (hf : reg_freq freq_mhz = some freq) :
    Settles (fun fuel =>
      rf_config bus fuel dev freq_mhz fdev_khz modulation data_rate_kbps false n) := by
  simp only [rf_config_unfold bus _ dev freq_mhz fdev_khz modulation data_rate_kbps false n
    bitrate fdev freq hb hd hf]
  refine Settles_single bus hok n _ _ (IsSingle_write_regs bus RegBitrateMsb
    (config_buf bitrate fdev freq) (2 + 2 + 3) (by decide)) _ fun m => ?_
  refine Settles_single bus hok m _ _ (IsSingle_modulation bus modulation) _ fun m => ?_
  refine Settles_single bus hok m _ _
    (IsSingle_write_reg bus RegDioMapping2 0x07 (by decide)) _ fun m => ?_
  refine Settles_single bus hok m _ _
    (IsSingle_write_reg bus RegPreambleMsb 0x00 (by decide)) _ fun m => ?_
  refine Settles_single bus hok m _ _
    (IsSingle_write_reg bus RegPreambleLsb 0x00 (by decide)) _ fun m => ?_
  refine Settles_single bus hok m _ _
    (IsSingle_write_reg bus RegSyncConfig 0x18 (by decide)) _ fun m => ?_
  refine Settles_single bus hok m _ _
    (IsSingle_write_reg bus RegPacketConfig1 0x00 (by decide)) _ fun m => ?_
  refine Settles_single bus hok m _ _
    (IsSingle_write_reg bus RegPayloadLength 0x00 (by decide)) _ fun m => ?_
  refine Settles_single bus hok m _ _
    (IsSingle_write_reg bus RegFifoThresh 0x8f (by decide)) _ fun m => ?_
  refine Settles_single bus hok m _ _ (IsSingle_default_pa bus dev) _ fun m => ?_
  exact Settles_TRY m (fun fuel => _switch_mode bus fuel OP_MODE_MODE_STDBY)
    (fun _ _ => (Ret.code ERR_OK, []))
    (switch_mode_settles_ready bus hok hready _ (by decide) m) (fun _ => Settles_const _)

/-- C15: in the default build (`WITH_PA1_DEFAULT` not defined), with `bitrate`, `fdev`,
`freq` the three register values `rf_config` computes from its arguments: the requests it
puts on the bus are, in every run, a prefix of this sequence: 7 bytes at 0x03 (bit rate,
deviation, frequency); 0x02 ← 0x08 if `modulation` is OOK (1) and 0x00 otherwise;
0x26 ← 0x07; 0x2C ← 0x00; 0x2D ← 0x00; 0x2E ← 0x18; 0x37 ← 0x00; 0x38 ← 0x00; 0x3C ← 0x8F;
0x11 ← 0x9F; 0x01 ← 0x04; then reads of IrqFlags1 (0x27). When it returns `ERR_OK` the
whole sequence was performed, followed by at least one such read and nothing else. A
failed transfer is the last one performed, and `rf_config` returns its error. On a chip
where every transfer succeeds and the mode-ready flag shows again and again, `rf_config`
does return `ERR_OK`, having performed the whole sequence, for every large enough bound
on its polling loop. -/
theorem rf_config_sequence (bus : Bus) (dev : rf_dev_t) (freq_mhz fdev_khz : ℚ)
    (modulation : Int) (data_rate_kbps : ℚ) (n : Nat) (bitrate fdev freq : Nat)
    (hb : reg_bitrate data_rate_kbps = some bitrate) (hd : reg_fdev fdev_khz = some fdev)
    (hf : reg_freq freq_mhz = some freq) :
    (∀ fuel,
      (rf_config bus fuel dev freq_mhz fdev_khz modulation data_rate_kbps false n).2.map
          Prod.fst <+:
        config_requests (config_buf bitrate fdev freq) modulation ++
          List.replicate fuel ⟨0x27, false, [], 1⟩) ∧
    (∀ fuel,
      (rf_config bus fuel dev freq_mhz fdev_khz modulation data_rate_kbps false n).1 =
          Ret.code ERR_OK →
        ∃ j, (rf_config bus fuel dev freq_mhz fdev_khz modulation data_rate_kbps false n).2.map
            Prod.fst =
          config_requests (config_buf bitrate fdev freq) modulation ++
            List.replicate (j + 1) ⟨0x27, false, [], 1⟩) ∧
    (∀ fuel i e,
      (rf_config bus fuel dev freq_mhz fdev_khz modulation data_rate_kbps false n).2[i]? =
        some e → e.2.ok = false →
      i + 1 =
        (rf_config bus fuel dev freq_mhz fdev_khz modulation data_rate_kbps false n).2.length ∧
      (rf_config bus fuel dev freq_mhz fdev_khz modulation data_rate_kbps false n).1 =
        Ret.code ERR_SPI_IOCTL) ∧
    ((∀ m, (bus m).ok = true) →
      (∀ k, ∃ m, k ≤ m ∧ (bus m).val &&& IRQ_FLAGS1_MODEREADY ≠ 0) →
      ∃ N j, ∀ fuel, N ≤ fuel →
        (rf_config bus fuel dev freq_mhz fdev_khz modulation data_rate_kbps false n).1 =
          Ret.code ERR_OK ∧
        (rf_config bus fuel dev freq_mhz fdev_khz modulation data_rate_kbps false n).2.map
            Prod.fst =
          config_requests (config_buf bitrate fdev freq) modulation ++
            List.replicate (j + 1) ⟨0x27, false, [], 1⟩) := by
  have core : ∀ fuel,
      ((rf_config bus fuel dev freq_mhz fdev_khz modulation data_rate_kbps false n).2.map
          Prod.fst <+:
        config_requests (config_buf bitrate fdev freq) modulation ++
          List.replicate fuel ⟨0x27, false, [], 1⟩) ∧
      ((rf_config bus fuel dev freq_mhz fdev_khz modulation data_rate_kbps false n).1 =
          Ret.code ERR_OK →
        ∃ j, (rf_config bus fuel dev freq_mhz fdev_khz modulation data_rate_kbps false n).2.map
            Prod.fst =
          config_requests (config_buf bitrate fdev freq) modulation ++
            List.replicate (j + 1) ⟨0x27, false, [], 1⟩) ∧
      FailStop (rf_config bus fuel dev freq_mhz fdev_khz modulation data_rate_kbps false n) := by
    intro fuel
    rw [rf_config_unfold bus fuel dev freq_mhz fdev_khz modulation data_rate_kbps false n
      bitrate fdev freq hb hd hf]
    have s1 := IsSingle_write_regs bus RegBitrateMsb
      (config_buf bitrate fdev freq)
      (2 + 2 + 3) (by decide)
    have s2 := IsSingle_modulation bus modulation
    have s3 := IsSingle_write_reg bus RegDioMapping2 0x07 (by decide)
    have s4 := IsSingle_write_reg bus RegPreambleMsb 0x00 (by decide)
    have s5 := IsSingle_write_reg bus RegPreambleLsb 0x00 (by decide)
    have s6 := IsSingle_write_reg bus RegSyncConfig 0x18 (by decide)
    have s7 := IsSingle_write_reg bus RegPacketConfig1 0x00 (by decide)
    have s8 := IsSingle_write_reg bus RegPayloadLength 0x00 (by decide)
    have s9 := IsSingle_write_reg bus RegFifoThresh 0x8f (by decide)
    have s10 := IsSingle_default_pa bus dev
    refine ⟨?_, ?_, ?_⟩
    · simp only [config_requests, List.cons_append, List.nil_append]
      apply TRY_single_prefix bus n _ _ _ _ s1
      intro m
      apply TRY_single_prefix bus m _ _ _ _ s2
      intro m
      apply TRY_single_prefix bus m _ _ _ _ s3
      intro m
      apply TRY_single_prefix bus m _ _ _ _ s4
      intro m
      apply TRY_single_prefix bus m _ _ _ _ s5
      intro m
      apply TRY_single_prefix bus m _ _ _ _ s6
      intro m
      apply TRY_single_prefix bus m _ _ _ _ s7
      intro m
      apply TRY_single_prefix bus m _ _ _ _ s8
      intro m
      apply TRY_single_prefix bus m _ _ _ _ s9
      intro m
      apply TRY_single_prefix bus m _ _ _ _ s10
      intro m
      rw [TRY_last_events]
      exact switch_standby_prefix bus fuel m
    · intro h
      obtain ⟨h1, e1⟩ := TRY_single_ok bus n _ _ _ s1 h
      obtain ⟨h2, e2⟩ := TRY_single_ok bus _ _ _ _ s2 h1
      obtain ⟨h3, e3⟩ := TRY_single_ok bus _ _ _ _ s3 h2
      obtain ⟨h4, e4⟩ := TRY_single_ok bus _ _ _ _ s4 h3
      obtain ⟨h5, e5⟩ := TRY_single_ok bus _ _ _ _ s5 h4
      obtain ⟨h6, e6⟩ := TRY_single_ok bus _ _ _ _ s6 h5
      obtain ⟨h7, e7⟩ := TRY_single_ok bus _ _ _ _ s7 h6
      obtain ⟨h8, e8⟩ := TRY_single_ok bus _ _ _ _ s8 h7
      obtain ⟨h9, e9⟩ := TRY_single_ok bus _ _ _ _ s9 h8
      obtain ⟨h10, e10⟩ := TRY_single_ok bus _ _ _ _ s10 h9
      obtain ⟨h11, _, _⟩ := TRY_fst_ok _ _ _ h10
      obtain ⟨j, hj⟩ := switch_standby_ok bus fuel _ h11
      refine ⟨j, ?_⟩
      rw [e1, e2, e3, e4, e5, e6, e7, e8, e9, e10, TRY_last_events]
      simp only [List.map_cons, hj, config_requests, List.cons_append, List.nil_append]
      rfl
    · apply FailStop_TRY _ _ _ (FailStop_IsSingle bus _ _ _ s1)
      intro m
      apply FailStop_TRY _ _ _ (FailStop_IsSingle bus _ _ _ s2)
      intro m
      apply FailStop_TRY _ _ _ (FailStop_IsSingle bus _ _ _ s3)
      intro m
      apply FailStop_TRY _ _ _ (FailStop_IsSingle bus _ _ _ s4)
      intro m
      apply FailStop_TRY _ _ _ (FailStop_IsSingle bus _ _ _ s5)
      intro m
      apply FailStop_TRY _ _ _ (FailStop_IsSingle bus _ _ _ s6)
      intro m
      apply FailStop_TRY _ _ _ (FailStop_IsSingle bus _ _ _ s7)
      intro m
      apply FailStop_TRY _ _ _ (FailStop_IsSingle bus _ _ _ s8)
      intro m
      apply FailStop_TRY _ _ _ (FailStop_IsSingle bus _ _ _ s9)
      intro m
      apply FailStop_TRY _ _ _ (FailStop_IsSingle bus _ _ _ s10)
      intro m
      apply FailStop_TRY _ _ _ (FailStop_switch_mode bus fuel _ m)
      intro _
      exact FailStop_nil _
  refine ⟨fun fuel => (core fuel).1, fun fuel => (core fuel).2.1,
    fun fuel => (core fuel).2.2, ?_⟩
  intro hok hready
  obtain ⟨N, ev, hN⟩ := rf_config_settles bus hok hready dev freq_mhz fdev_khz modulation
    data_rate_kbps n bitrate fdev freq hb hd hf
  have h0 := hN N (le_refl N)
  simp only at h0
  obtain ⟨j, hj⟩ := (core N).2.1 (by rw [h0]; rfl)
  rw [h0] at hj
  refine ⟨N, j, fun fuel hfu => ?_⟩
  have h1 := hN fuel hfu
  simp only at h1
  rw [h1]
  exact ⟨rfl, hj⟩

set_option maxRecDepth 100000 in
/-- C15 at the settings of `sx1231_kaku.c` (the `float` nearest to 433.92 MHz, no
deviation, OOK, the `double` nearest to 80/3 kbit/s): on a chip that answers every poll
with mode-ready, `rf_config` returns `ERR_OK` after the eleven writes and the polls; when
the fourth transfer fails it returns the error of the transport after four transfers. -/
theorem rf_config_sequence_witness :
    reg_bitrate (7505999378950827 / 2 ^ 48) = some 1200 ∧ reg_fdev 0 = some 0 ∧
    reg_freq (14218691 / 32768) = some 7109345 ∧
    (∃ N j, ∀ fuel, N ≤ fuel →
      (rf_config (const_bus 0x80) fuel ⟨3, 15⟩ (14218691 / 32768) 0 SX1231_MODULATION_OOK
        (7505999378950827 / 2 ^ 48) false 0).1 = Ret.code ERR_OK ∧
      (rf_config (const_bus 0x80) fuel ⟨3, 15⟩ (14218691 / 32768) 0 SX1231_MODULATION_OOK
        (7505999378950827 / 2 ^ 48) false 0).2.map Prod.fst =
        config_requests (config_buf 1200 0 7109345) SX1231_MODULATION_OOK ++
          List.replicate (j + 1) ⟨0x27, false, [], 1⟩) ∧
    config_buf 1200 0 7109345 = [0x04, 0xB0, 0x00, 0x00, 0x6C, 0x7A, 0xE1] ∧
    (rf_config (const_bus 0x80) 1 ⟨3, 15⟩ (14218691 / 32768) 0 SX1231_MODULATION_OOK
      (7505999378950827 / 2 ^ 48) false 0).1 = Ret.code ERR_OK ∧
    (rf_config (failing_bus 3 0x80) 1 ⟨3, 15⟩ (14218691 / 32768) 0 SX1231_MODULATION_OOK
      (7505999378950827 / 2 ^ 48) false 0).1 = Ret.code ERR_SPI_IOCTL ∧
    (rf_config (failing_bus 3 0x80) 1 ⟨3, 15⟩ (14218691 / 32768) 0 SX1231_MODULATION_OOK
      (7505999378950827 / 2 ^ 48) false 0).2.length = 4 :=
  ⟨reg_bitrate_kaku, reg_fdev_zero, reg_freq_433_92,
    (rf_config_sequence (const_bus 0x80) ⟨3, 15⟩ (14218691 / 32768) 0 SX1231_MODULATION_OOK
      (7505999378950827 / 2 ^ 48) 0 1200 0 7109345 reg_bitrate_kaku reg_fdev_zero
      reg_freq_433_92).2.2.2 (fun _ => rfl)
      (fun k => ⟨k, le_refl k, by rw [const_bus_val]; decide⟩),
    by decide,
    by
      rw [rf_config_unfold _ _ _ _ _ _ _ _ _ 1200 0 7109345 reg_bitrate_kaku reg_fdev_zero
        reg_freq_433_92]
      decide,
    by
      rw [rf_config_unfold _ _ _ _ _ _ _ _ _ 1200 0 7109345 reg_bitrate_kaku reg_fdev_zero
        reg_freq_433_92]
      decide,
    by
      rw [rf_config_unfold _ _ _ _ _ _ _ _ _ 1200 0 7109345 reg_bitrate_kaku reg_fdev_zero
        reg_freq_433_92]
      decide⟩

/-! ## C16: the register values -/

theorem is_double_of_int (n : Int) (k : Nat) (hn : |n| < 2 ^ 53) (hk : k ≤ 1000) :
    to_double ((n : ℚ) / 2 ^ k) = some ((n : ℚ) / 2 ^ k) := by
  unfold to_double
  apply fp_round_exact 53 (-1074) 1024 _ n (-(k : Int))
  · rw [zpow_neg, zpow_natCast, div_eq_mul_inv]
  · exact hn
  · omega
  · rw [abs_div, abs_of_pos (by positivity : (0 : ℚ) < 2 ^ k), div_lt_iff₀ (by positivity)]
    have h1 : |(n : ℚ)| < 2 ^ (53 : Int) := by
      have : ((|n| : Int) : ℚ) < ((2 ^ 53 : Int) : ℚ) := by exact_mod_cast hn
      push_cast at this
      exact_mod_cast this
    have h2 : (2 : ℚ) ^ (53 : Int) ≤ 2 ^ (1024 : Int) :=
      zpow_le_zpow_right₀ (by norm_num) (by norm_num)
    have h3 : (1 : ℚ) ≤ 2 ^ k := one_le_pow₀ (by norm_num)
    have h4 : (0 : ℚ) < 2 ^ (1024 : Int) := by positivity
    nlinarith

theorem to_float_zero : to_float 0 = some 0 := by
  unfold to_float
  exact fp_round_exact 24 (-149) 128 0 0 0 (by simp) (by simp) (by norm_num)
    (by rw [abs_zero]; positivity)

theorem to_float_five : to_float 5 = some 5 := by
  have h := is_float_of_int 5 0 (by norm_num) (by norm_num)
  norm_num at h
  exact h

/-- C16 as stated fails for the bit rate. The rate `sx1231_kaku.c` passes,
`ENCODED_BITRATE = 1000.0 * 8 * 1.0 / 300.0`, is the `double` 7505999378950827 / 2^48
(the nearest to 80/3, a little above it); `rf_config` computes the register value 1200
from it, while the floor of the exact quotient 32000000 / (rate · 1000) is 1199: the
`double` product and the `double` quotient are rounded before the fraction is discarded.
And for the rate 0.125 kbit/s, which `sx1231_raw` accepts, the quotient 256000 does not
fit the 16-bit register, so that the conversion has no defined value. -/
theorem reg_bitrate_not_floor :
    ¬ (∀ rate : ℚ, to_double rate = some rate → 0 < rate →
        reg_bitrate rate = some ⌊32000000 / (rate * 1000)⌋.toNat) ∧
    to_double (1000.0 * 8 * 1.0 / 300.0) = some (7505999378950827 / 2 ^ 48) ∧
    reg_bitrate (7505999378950827 / 2 ^ 48) = some 1200 ∧
    ⌊(32000000 : ℚ) / (7505999378950827 / 2 ^ 48 * 1000)⌋ = 1199 ∧
    reg_bitrate (1 / 8) = none ∧ ⌊(32000000 : ℚ) / (1 / 8 * 1000)⌋ = 256000 := by
  refine ⟨fun h => ?_, encoded_bitrate_double, reg_bitrate_kaku, floor_kaku,
    reg_bitrate_eighth, ?_⟩
  · have hd : to_double ((7505999378950827 : ℚ) / 2 ^ 48) =
        some (7505999378950827 / 2 ^ 48) := by
      have h0 := is_double_of_int 7505999378950827 48 (by norm_num) (by norm_num)
      norm_num at h0 ⊢
      exact h0
    have h1 := h ((7505999378950827 : ℚ) / 2 ^ 48) hd (by norm_num)
    rw [reg_bitrate_kaku, floor_kaku] at h1
    exact absurd h1 (by decide)
  · rw [Int.floor_eq_iff]
    norm_num

/-- C16 amended: with the 32 MHz crystal, `rf_config` computes the three register values
in `double` arithmetic and discards the fraction of the result (truncation toward zero,
not rounding to nearest). For a non-negative `float` frequency and deviation whose
quotients are below `2^32` and `2^16`, the `double` arithmetic loses nothing:
`reg_freq = floor(freq_MHz·10^6·2^19 / 32000000)` and
`reg_fdev = floor(fdev_kHz·10^3·2^19 / 32000000)`. For a positive bit rate of at most
32000 kbit/s whose exact quotient `Q = 32000000 / (rate_kbps·1000)` is at most 65535, the
register has a value `b`, the integral part of the rounded quotient of the rounded
product, with `floor(Q·(1 − 2^-51)) ≤ b ≤ floor(Q·(1 + 2^-51))`: it is `floor(Q)` unless
`Q` lies that close to an integer. These are the values the first transfer of `rf_config`
writes. The `float` nearest to 433.46 MHz (14203617 / 32768, the exact quotient being
7101808.5) gives 7101808 = 0x6C5D70 and the one nearest to 433.92 MHz gives
7109345 = 0x6C7AE1; a deviation of 5 kHz gives 81, the exact quotient being 81.92 and the
nearest integer 82; the rate `sx1231_kaku.c` passes gives 1200, `floor(Q)` being 1199. -/
theorem rf_config_regs_truncate (freq_mhz fdev_khz data_rate_kbps : ℚ)
    (hf : to_float freq_mhz = some freq_mhz) (hd : to_float fdev_khz = some fdev_khz)
    (h0 : 0 ≤ freq_mhz) (r0 : freq_mhz * 10 ^ 6 * 2 ^ 19 / 32000000 < 2 ^ 32)
    (h1 : 0 ≤ fdev_khz) (r1 : fdev_khz * 10 ^ 3 * 2 ^ 19 / 32000000 < 2 ^ 16)
    (h2 : 0 < data_rate_kbps) (r2 : 32000000 / (data_rate_kbps * 1000) ≤ 65535)
    (r3 : data_rate_kbps ≤ 32000) :
    reg_freq freq_mhz = some ⌊freq_mhz * 10 ^ 6 * 2 ^ 19 / 32000000⌋.toNat ∧
    reg_fdev fdev_khz = some ⌊fdev_khz * 10 ^ 3 * 2 ^ 19 / 32000000⌋.toNat ∧
    (∃ b : Nat, reg_bitrate data_rate_kbps = some b ∧
      ⌊32000000 / (data_rate_kbps * 1000) * (1 - 1 / 2 ^ 51)⌋ ≤ (b : Int) ∧
      (b : Int) ≤ ⌊32000000 / (data_rate_kbps * 1000) * (1 + 1 / 2 ^ 51)⌋ ∧
      ∀ bus fuel dev modulation pa1 n, ∃ tl,
        (rf_config bus fuel dev freq_mhz fdev_khz modulation data_rate_kbps pa1 n).2 =
          (⟨0x83, true,
            config_buf b ⌊fdev_khz * 10 ^ 3 * 2 ^ 19 / 32000000⌋.toNat
              ⌊freq_mhz * 10 ^ 6 * 2 ^ 19 / 32000000⌋.toNat, 7⟩, bus n) :: tl) ∧
    to_float 433.46 = some (14203617 / 32768) ∧
    reg_freq (14203617 / 32768) = some 7101808 ∧
    (14203617 / 32768 : ℚ) * 10 ^ 6 * 2 ^ 19 / 32000000 = 7101808.5 ∧
    to_float 433.92 = some (14218691 / 32768) ∧
    reg_freq (14218691 / 32768) = some 7109345 ∧
    (7101808 : Nat) = 0x6C5D70 ∧ (7109345 : Nat) = 0x6C7AE1 ∧
    reg_fdev 5 = some 81 ∧ (5 : ℚ) * 10 ^ 3 * 2 ^ 19 / 32000000 = 81.92 ∧
    round ((5 : ℚ) * 10 ^ 3 * 2 ^ 19 / 32000000) = 82 ∧
    reg_bitrate (7505999378950827 / 2 ^ 48) = some 1200 ∧
    ⌊(32000000 : ℚ) / (7505999378950827 / 2 ^ 48 * 1000)⌋ = 1199 := by
  have hfreq : reg_freq freq_mhz = some ⌊freq_mhz * 10 ^ 6 * 2 ^ 19 / 32000000⌋.toNat := by
    rw [reg_freq_exact _ hf, to_uint_of_nonneg 32 _ (by positivity), if_pos]
    have hle := Int.floor_le (freq_mhz * 10 ^ 6 * 2 ^ 19 / 32000000)
    have : ((⌊freq_mhz * 10 ^ 6 * 2 ^ 19 / 32000000⌋ : Int) : ℚ) < ((2 ^ 32 : Int) : ℚ) := by
      push_cast
      linarith
    exact_mod_cast this
  have hfdev := reg_fdev_floor fdev_khz hd h1 r1
  have h5 : reg_fdev 5 = some 81 := by
    rw [reg_fdev_floor 5 to_float_five (by norm_num) (by norm_num),
      show ⌊(5 : ℚ) * 10 ^ 3 * 2 ^ 19 / 32000000⌋ = 81 from
        Int.floor_eq_iff.2 ⟨by norm_num, by norm_num⟩]
    rfl
  refine ⟨hfreq, hfdev, ?_, float_433_46, reg_freq_433_46, by norm_num, float_433_92,
    reg_freq_433_92, by norm_num, by norm_num, h5, by norm_num, ?_, reg_bitrate_kaku,
    floor_kaku⟩
  · obtain ⟨b, hb, hlo, hhi⟩ := reg_bitrate_bounds data_rate_kbps h2 r2 r3
    refine ⟨b, hb, hlo, hhi, fun bus fuel dev modulation pa1 n => ?_⟩
    rw [rf_config_unfold bus fuel dev freq_mhz fdev_khz modulation data_rate_kbps pa1 n
      b _ _ hb hfdev hfreq, TRY_events, spi_write_regs_low bus n RegBitrateMsb _ _ (by decide)]
    exact ⟨_, rfl⟩
  · rw [round_eq, Int.floor_eq_iff]
    norm_num

/-- C16 amended, at the settings of the rolling-code tool: the `float` nearest to
433.46 MHz, no deviation, the `double` nearest to 1.655629139 kbit/s. -/
theorem rf_config_regs_truncate_witness :
    to_float (14203617 / 32768) = some (14203617 / 32768) ∧ to_float 0 = some 0 ∧
    (0 : ℚ) ≤ 14203617 / 32768 ∧
    (14203617 / 32768 : ℚ) * 10 ^ 6 * 2 ^ 19 / 32000000 < 2 ^ 32 ∧
    (0 : ℚ) ≤ 0 ∧ (0 : ℚ) * 10 ^ 3 * 2 ^ 19 / 32000000 < 2 ^ 16 ∧
    (0 : ℚ) < 7456290773464135 / 2 ^ 52 ∧
    32000000 / ((7456290773464135 / 2 ^ 52 : ℚ) * 1000) ≤ 65535 ∧
    (7456290773464135 / 2 ^ 52 : ℚ) ≤ 32000 ∧
    to_double 1.655629139 = some (7456290773464135 / 2 ^ 52) ∧
    reg_freq (14203617 / 32768) = some 7101808 ∧ reg_fdev 0 = some 0 ∧
    reg_bitrate (7456290773464135 / 2 ^ 52) = some 19328 ∧
    ∃ b : Nat, reg_bitrate (7456290773464135 / 2 ^ 52) = some b ∧
      ⌊32000000 / ((7456290773464135 / 2 ^ 52 : ℚ) * 1000) * (1 - 1 / 2 ^ 51)⌋ ≤ (b : Int) ∧
      (b : Int) ≤ ⌊32000000 / ((7456290773464135 / 2 ^ 52 : ℚ) * 1000) * (1 + 1 / 2 ^ 51)⌋ := by
  have hfl : to_float (14203617 / 32768) = some (14203617 / 32768) := by
    have h := is_float_of_int 14203617 15 (by norm_num) (by norm_num)
    norm_num at h
    exact h
  have key := rf_config_regs_truncate (14203617 / 32768) 0 (7456290773464135 / 2 ^ 52)
    hfl to_float_zero (by norm_num) (by norm_num) (le_refl 0) (by norm_num) (by norm_num)
    (by norm_num) (by norm_num)
  obtain ⟨b, hb, hlo, hhi, _⟩ := key.2.2.1
  exact ⟨hfl, to_float_zero, by norm_num, by norm_num, le_refl 0, by norm_num, by norm_num,
    by norm_num, by norm_num, double_rts_rate, reg_freq_433_46, reg_fdev_zero, reg_bitrate_rts,
    b, hb, hlo, hhi⟩

/-! ## The FIFO-threshold register under `rf_open`, `rf_set_pa` and `rf_send` -/

theorem regs_after_untouched (r : Nat) (ev : List Event) :
    ∀ init : Nat → Nat, (∀ e ∈ ev, Untouched r e) → regs_after init ev r = init r := by
  induction ev with
  | nil => exact fun _ _ => rfl
  | cons a l ih =>
    intro init h
    unfold regs_after
    rw [List.foldl_cons]
    have hl := ih (if a.2.ok && a.1.do_write then chip_write init a.1 else init)
      (fun e he => h e (List.mem_cons_of_mem a he))
    unfold regs_after at hl
    rw [hl]
    split
    · rename_i hc
      have hw : a.1.do_write = true := by
        simp only [Bool.and_eq_true] at hc
        exact hc.2
      have := h a (List.mem_cons_self a l) hw
      unfold chip_write
      simp only
      split
      · rename_i hcov
        omega
      · rfl
    · rfl

theorem read_untouched (r : Nat) (e : Event) (h : e.1.do_write = false) : Untouched r e := by
  intro hw
  rw [h] at hw
  exact absurd hw (by decide)

theorem switch_mode_untouched (bus : Bus) (fuel : Nat) (mode : Int) (n : Nat) :
    ∀ e ∈ (_switch_mode bus fuel mode n).2, Untouched RegFifoThresh e := by
  unfold _switch_mode
  split
  · simp
  · apply TRY_forall
    · rw [ret_write_opmode]
      intro e he _
      simp only [List.mem_singleton] at he
      subst he
      right
      right
      show (129 &&& 127) + 1 ≤ RegFifoThresh
      decide
    · intro m
      apply TRY_forall
      · intro e he
        exact read_untouched _ e (by rw [poll_reads bus _ _ (by decide) fuel m e he])
      · simp

theorem refill_untouched (bus : Bus) (fuel : Nat) (dev : rf_dev_t) (k : Nat) :
    ∀ (data : List Nat) (n : Nat), ∀ e ∈ (refill_loop bus fuel dev k data n).2,
      Untouched RegFifoThresh e := by
  induction k with
  | zero =>
    intro data n e he
    unfold refill_loop at he
    split at he <;> simp at he
  | succ k ih =>
    intro data n
    by_cases hl : data.length = 0
    · rw [refill_loop_done _ _ _ _ _ _ hl]
      simp
    · rw [refill_loop_succ _ _ _ _ _ _ hl]
      simp only [ret_write_fifo]
      apply TRY_forall
      · intro e he
        exact read_untouched _ e (by rw [poll_reads bus _ _ (by decide) fuel n e he])
      · intro m
        apply TRY_forall
        · intro e he _
          simp only [List.mem_singleton] at he
          subst he
          left
          show 128 &&& 127 = RegFifo
          decide
        · intro m2
          exact ih _ m2

/-- No transfer of `rf_send` writes the FIFO-threshold register. -/
theorem rf_send_untouched (bus : Bus) (fuel : Nat) (dev : rf_dev_t) (data : List Nat)
    (n : Nat) (init : Nat → Nat) :
    regs_after init (rf_send bus fuel dev data n).2 RegFifoThresh = init RegFifoThresh := by
  apply regs_after_untouched
  rw [rf_send_unfold]
  apply TRY_forall
  · intro e he _
    simp only [List.mem_singleton] at he
    subst he
    left
    show 128 &&& 127 = RegFifo
    decide
  · intro m1
    apply TRY_forall
    · exact switch_mode_untouched bus fuel _ m1
    · intro m2
      apply TRY_forall
      · exact refill_untouched bus fuel dev fuel _ m2
      · intro m3
        apply TRY_forall
        · intro e he
          exact read_untouched _ e (by rw [poll_reads bus _ _ (by decide) fuel m3 e he])
        · intro m4
          apply TRY_forall
          · exact switch_mode_untouched bus fuel _ m4
          · simp

/-- No transfer of `rf_set_pa` writes the FIFO-threshold register. -/
theorem rf_set_pa_untouched (bus : Bus) (dev : rf_dev_t) (level : Nat) (pa1_on : Bool)
    (n : Nat) (hl : level < 256) (init : Nat → Nat) :
    regs_after init (rf_set_pa bus dev level pa1_on n).2 RegFifoThresh =
      init RegFifoThresh := by
  apply regs_after_untouched
  rw [rf_set_pa_eq bus dev level pa1_on n hl]
  split
  · simp
  · rw [spi_write_reg_low bus n RegPaLevel _ (by decide)]
    intro e he _
    simp only [ret, List.mem_singleton] at he
    subst he
    right
    right
    show ((RegPaLevel ||| 128) &&& 127) + 1 ≤ RegFifoThresh
    decide

/-- A successful `rf_open` on a chip whose reads return the register contents caches the
low 7 bits of the FIFO-threshold register and writes nothing. -/
theorem rf_open_caches (bus : Bus) (fd : Int) (dev : rf_dev_t) (n : Nat) (init : Nat → Nat)
    (hok : (rf_open bus fd dev n).1.1 = Ret.code ERR_OK)
    (hcons : reads_consistent init (rf_open bus fd dev n).1.2 = true) :
    (rf_open bus fd dev n).2.fifo_thresh = init RegFifoThresh &&& 0x7f ∧
    regs_after init (rf_open bus fd dev n).1.2 RegFifoThresh = init RegFifoThresh := by
  have hiff := (rf_open_outcome bus fd dev n).1.1 hok
  have hfd : fd ≠ -1 := hiff.1
  rw [rf_open_eq bus fd dev n hfd] at hok hcons ⊢
  have hnib := (version_nibble_fin ⟨(bus n).val, resp_val_lt _⟩).2 hiff.2.2.1
  simp only at hnib
  simp only [hiff.2.1, hiff.2.2.2, hnib, Bool.true_eq_false, ↓reduceIte, ne_eq,
    not_true_eq_false] at hok hcons ⊢
  simp only [reads_consistent, hiff.2.1, hiff.2.2.2, Bool.not_false, Bool.and_self,
    beq_self_eq_true, ↓reduceIte, Bool.and_false, Bool.false_eq_true, Bool.and_true,
    Bool.and_eq_true, beq_iff_eq] at hcons
  refine ⟨by rw [hcons.2]; rfl, ?_⟩
  apply regs_after_untouched
  intro e he
  simp only [List.mem_cons, List.mem_singleton, List.not_mem_nil, or_false] at he
  rcases he with he | he <;> (subst he; exact read_untouched _ _ rfl)

/-! ## C19: the cached FIFO threshold after `rf_config` -/

set_option maxRecDepth 100000 in
/-- C19, the code on a chip whose FIFO-threshold register holds 0x05 when it is opened:
`rf_open` and then `rf_config` both return `ERR_OK`, every read returned the value its
register held, `rf_open` cached the threshold 5, `rf_config` programmed 0x8F (threshold
15) and left the cache at 5. -/
theorem rf_config_leaves_cache_stale :
    (rf_open stale_bus 3 ⟨0, 0⟩ 0).1.1 = Ret.code ERR_OK ∧
    (rf_open stale_bus 3 ⟨0, 0⟩ 0).2 = ⟨3, 5⟩ ∧
    regs_after stale_chip (rf_open stale_bus 3 ⟨0, 0⟩ 0).1.2 RegFifoThresh &&& 0x7f = 5 ∧
    (rf_config stale_bus 1 ⟨3, 5⟩ 433.92 0 SX1231_MODULATION_OOK (80 / 3) false 2).1 =
      Ret.code ERR_OK ∧
    reads_consistent stale_chip ((rf_open stale_bus 3 ⟨0, 0⟩ 0).1.2 ++
      (rf_config stale_bus 1 ⟨3, 5⟩ 433.92 0 SX1231_MODULATION_OOK (80 / 3) false 2).2) =
      true ∧
    regs_after stale_chip ((rf_open stale_bus 3 ⟨0, 0⟩ 0).1.2 ++
      (rf_config stale_bus 1 ⟨3, 5⟩ 433.92 0 SX1231_MODULATION_OOK (80 / 3) false 2).2)
      RegFifoThresh &&& 0x7f = 15 := by
  rw [rf_config_unfold stale_bus 1 ⟨3, 5⟩ 433.92 0 SX1231_MODULATION_OOK (80 / 3) false 2
    1200 0 7109345 reg_bitrate_80_3 reg_fdev_zero reg_freq_decimal_433_92]
  decide

/-! ## C22: `reverse_byte` -/

set_option maxRecDepth 100000 in
theorem reverse_byte_fin :
    ∀ b : Fin 256, reverse_byte b.1 < 256 ∧ reverse_byte (reverse_byte b.1) = b.1 ∧
      ∀ k : Fin 8, (reverse_byte b.1).testBit k.1 = b.1.testBit (7 - k.1) := by
  decide

/-- C22: `reverse_byte` reverses the bit order of a byte: for every byte `b` and every
`k` in 0..7, bit `k` of `reverse_byte(b)` is bit `7 - k` of `b`; the result is a byte,
`reverse_byte(reverse_byte(b)) = b`, and `reverse_byte` is a bijection on the bytes: two
bytes with the same image are equal and every byte is an image. -/
theorem reverse_byte_spec (b : Nat) (hb : b < 256) :
    (∀ k, k < 8 → (reverse_byte b).testBit k = b.testBit (7 - k)) ∧
    reverse_byte b < 256 ∧
    reverse_byte (reverse_byte b) = b ∧
    (∀ c, c < 256 → reverse_byte b = reverse_byte c → b = c) ∧
    (∃ a, a < 256 ∧ reverse_byte a = b) := by
  have h := reverse_byte_fin ⟨b, hb⟩
  refine ⟨fun k hk => h.2.2 ⟨k, hk⟩, h.1, h.2.1, ?_, ⟨reverse_byte b, h.1, h.2.1⟩⟩
  intro c hc heq
  have hc2 := (reverse_byte_fin ⟨c, hc⟩).2.1
  have := congrArg reverse_byte heq
  rw [h.2.1, hc2] at this
  exact this

/-- C22 at a concrete byte: 0x01 becomes 0x80. -/
theorem reverse_byte_spec_witness :
    (0x01 : Nat) < 256 ∧ reverse_byte 0x01 = 0x80 ∧
    reverse_byte (reverse_byte 0x01) = 0x01 :=
  ⟨by decide, by decide, (reverse_byte_spec 0x01 (by decide)).2.2.1⟩

/-! ## C24: `ERROR_ERRNO_VALID` -/

/-- C24, the code on the error codes of `sx1231_ods_error.h`: the macro `E` puts the
flag `ERR_FLAG_ERRNO_SET` (0x1) at bit 28, `ERROR_ERRNO_VALID` tests bit 30 (0x40000000),
so it is false for every defined code, the two built with the flag (`ERR_SPI_OPEN_DEV`,
`ERR_SPI_IOCTL`) included. -/
theorem errno_valid_never_set :
    ERROR_ERRNO_VALID ERR_SPI_OPEN_DEV = false ∧ ERROR_ERRNO_VALID ERR_SPI_IOCTL = false ∧
    ERROR_ERRNO_VALID ERR_OK = false ∧ ERROR_ERRNO_VALID ERR_UNSPEC = false ∧
    ERROR_ERRNO_VALID ERR_INVAL = false ∧ ERROR_ERRNO_VALID ERR_RANGE = false ∧
    ERROR_ERRNO_VALID ERR_RFM_CHIP_VERSION = false ∧
    ERROR_ERRNO_VALID ERR_RFM_TX_OUT_OF_SYNC = false ∧
    ERR_SPI_OPEN_DEV = 0x10010001 ∧ ERR_SPI_IOCTL = 0x10010002 ∧
    E 0 0 ERR_FLAG_ERRNO_SET = 0x10000000 := by
  decide

/-! ## The frame of `sx1231_rts_send` as a function of the data -/

theorem rts_payload_length (data : List Nat) : (rts_payload data).length = 14 := by
  unfold rts_payload
  rw [List.length_map, List.length_range]

theorem rts_payload_getElem? (data : List Nat) (j : Nat) (hj : j < 14) :
    (rts_payload data)[j]? =
      some (if j % 2 = 0 then rts_hi (data.getD (j / 2) 0) else rts_lo (data.getD (j / 2) 0)) := by
  unfold rts_payload
  rw [List.getElem?_map, List.getElem?_range hj]
  rfl

theorem rts_payload_getD (data : List Nat) (j : Nat) (hj : j < 14) :
    (rts_payload data).getD j 0 =
      if j % 2 = 0 then rts_hi (data.getD (j / 2) 0) else rts_lo (data.getD (j / 2) 0) := by
  rw [List.getD_eq_getElem?_getD, rts_payload_getElem? data j hj]
  rfl

/-- The frame `sx1231_rts_send` transmits is the first nine bytes of the global array
followed by the payload bytes, which are a function of the data alone. -/
theorem rts_frame_eq (g : Mem) (data : List Nat) :
    rts_frame g data = bytes_of g 9 ++ rts_payload data := by
  obtain ⟨_, hout, hin⟩ := rts_encode_spec g data
  apply List.ext_getElem?
  intro q
  unfold rts_frame bRts_MaxFrameSize_c
  rcases Nat.lt_or_ge q 9 with h9 | h9
  · rw [bytes_of_getElem? _ _ _ (by omega),
      List.getElem?_append_left (by rw [bytes_of_length]; exact h9),
      bytes_of_getElem? _ _ _ h9, hout q (Or.inl h9)]
  · rw [List.getElem?_append_right (by rw [bytes_of_length]; exact h9), bytes_of_length]
    rcases Nat.lt_or_ge q 23 with h23 | h23
    · rw [bytes_of_getElem? _ _ _ h23, rts_payload_getElem? data (q - 9) (by omega)]
      obtain ⟨hhi, hlo⟩ := hin ((q - 9) / 2) (by omega)
      by_cases hpar : (q - 9) % 2 = 0
      · rw [if_pos hpar, ← hhi, show 9 + 2 * ((q - 9) / 2) = q by omega]
      · rw [if_neg hpar, ← hlo, show 9 + 2 * ((q - 9) / 2) + 1 = q by omega]
    · rw [List.getElem?_eq_none (by rw [bytes_of_length]; exact h23),
        List.getElem?_eq_none (by rw [rts_payload_length]; omega)]

theorem rts_frame_drop (g : Mem) (data : List Nat) :
    (rts_frame g data).drop 9 = rts_payload data := by
  rw [rts_frame_eq, List.drop_append_of_le_length (by rw [bytes_of_length]),
    List.drop_of_length_le (by rw [bytes_of_length]), List.nil_append]

theorem rts_frame_payload_getD (g : Mem) (data : List Nat) (j : Nat) :
    (rts_frame g data).getD (9 + j) 0 = (rts_payload data).getD j 0 := by
  rw [List.getD_eq_getElem?_getD, List.getD_eq_getElem?_getD, ← rts_frame_drop g data,
    List.getElem?_drop]

theorem bytes_of_congr (g g2 : Mem) (len : Nat) (h : ∀ q, q < len → g q = g2 q) :
    bytes_of g len = bytes_of g2 len := by
  unfold bytes_of
  exact List.map_congr_left fun q hq => h q (List.mem_range.1 hq)

theorem rts_frame_congr (g g2 : Mem) (data : List Nat) (h : ∀ q, q < 9 → g q = g2 q) :
    rts_frame g data = rts_frame g2 data := by
  rw [rts_frame_eq, rts_frame_eq, bytes_of_congr g g2 9 h]

theorem rts_symbol_of_cases (bit : Bool) :
    rts_symbol_of bit = (if bit then 1 else 2) ∧ rts_symbol_of bit ≠ 0 ∧
      rts_symbol_of bit ≠ 3 := by
  cases bit <;> decide

theorem rts_expansion_lt :
    ∀ b0 b1 b2 b3 : Bool,
      64 * rts_symbol_of b0 + 16 * rts_symbol_of b1 + 4 * rts_symbol_of b2 +
        rts_symbol_of b3 < 256 := by
  decide

theorem rts_payload_lt (data : List Nat) (j : Nat) (hj : j < 14) :
    (rts_payload data).getD j 0 < 256 := by
  rw [rts_payload_getD data j hj]
  split
  · exact rts_expansion_lt _ _ _ _
  · exact rts_expansion_lt _ _ _ _

/-- The pair `r` of payload byte `j` is the symbol of the tested bit `4 (j mod 2) + r` of
`data[j / 2]`. -/
theorem rts_payload_pair (data : List Nat) (j r : Nat) (hj : j < 14) (hr : r < 4) :
    ((rts_payload data).getD j 0 >>> (6 - 2 * r)) &&& 3 =
      rts_symbol_of (msb_at (4 * (j % 2) + r) (data.getD (j / 2) 0)) := by
  rw [rts_payload_getD data j hj]
  by_cases hpar : j % 2 = 0
  · rw [if_pos hpar, hpar, rts_hi_symbol _ r hr, Nat.mul_zero, Nat.zero_add]
  · rw [if_neg hpar, show j % 2 = 1 by omega, rts_lo_symbol _ r hr]

set_option maxRecDepth 100000 in
theorem rts_decode_byte_fin :
    ∀ b : Fin 256, rts_decode_byte (rts_hi b.1) (rts_lo b.1) = b.1 := by
  decide

theorem getD_lt_of_forall (data : List Nat) (hb : ∀ x ∈ data, x < 256) (i : Nat)
    (hi : i < data.length) : data.getD i 0 < 256 := by
  rw [List.getD_eq_getElem _ _ hi]
  exact hb _ (List.getElem_mem hi)

theorem rts_decode_payload (data : List Nat) (hlen : data.length = 7)
    (hb : ∀ x ∈ data, x < 256) : rts_decode (rts_payload data) = data := by
  apply List.ext_getElem?
  intro i
  unfold rts_decode
  rcases Nat.lt_or_ge i 7 with hi | hi
  · have hd := getD_lt_of_forall data hb i (by omega)
    rw [List.getElem?_map, List.getElem?_range hi, Option.map_some',
      rts_payload_getD data (2 * i) (by omega), rts_payload_getD data (2 * i + 1) (by omega),
      if_pos (by omega), if_neg (by omega), show 2 * i / 2 = i by omega,
      show (2 * i + 1) / 2 = i by omega, rts_decode_byte_fin ⟨_, hd⟩,
      List.getElem?_eq_getElem (by omega : i < data.length)]
    exact congrArg some (List.getD_eq_getElem _ _ (by omega : i < data.length))
  · rw [List.getElem?_eq_none (by rw [List.length_map, List.length_range]; exact hi),
      List.getElem?_eq_none (by omega)]

/-! ## C21: the payload of the rolling-code frame -/

/-- C21: for every 7-byte `data`, whatever the frame array held before: each of the 56
aligned 2-bit pairs of frame bytes 9..22 (pair `r` of byte `9 + j`, counted from the top)
is 01 when the source bit it stands for is set and 10 when it is clear, never 00 or 11,
and the frame byte is a byte; the source bit of pair `r` of byte `9 + j` is bit
`7 - (4 (j mod 2) + r)` of `data[j / 2]`, so each source byte occupies exactly the two
consecutive frame bytes `9 + 2i`, `10 + 2i`, four source bits per frame byte; the 7 data
bytes are read back from the 14 payload bytes, and two 7-byte payloads with the same 14
frame bytes are equal. -/
theorem rts_payload_pairs (g : Mem) (data : List Nat) (hlen : data.length = 7)
    (hb : ∀ x ∈ data, x < 256) :
    (∀ j r, j < 14 → r < 4 →
      ((rts_frame g data).getD (9 + j) 0 >>> (6 - 2 * r)) &&& 3 =
        (if (data.getD (j / 2) 0).testBit (7 - (4 * (j % 2) + r)) then 1 else 2) ∧
      ((rts_frame g data).getD (9 + j) 0 >>> (6 - 2 * r)) &&& 3 ≠ 0 ∧
      ((rts_frame g data).getD (9 + j) 0 >>> (6 - 2 * r)) &&& 3 ≠ 3 ∧
      (rts_frame g data).getD (9 + j) 0 < 256) ∧
    (∀ i, i < 7 →
      (rts_frame g data).getD (9 + 2 * i) 0 = rts_hi (data.getD i 0) ∧
      (rts_frame g data).getD (9 + 2 * i + 1) 0 = rts_lo (data.getD i 0)) ∧
    ((rts_frame g data).drop 9).length = 14 ∧
    rts_decode ((rts_frame g data).drop 9) = data ∧
    (∀ g2 data2, data2.length = 7 → (∀ x ∈ data2, x < 256) →
      (rts_frame g data).drop 9 = (rts_frame g2 data2).drop 9 → data = data2) := by
  refine ⟨fun j r hj hr => ?_, fun i hi => ?_, ?_, ?_, ?_⟩
  · have hd : data.getD (j / 2) 0 < 256 := getD_lt_of_forall data hb _ (by omega)
    have hs := rts_symbol_of_cases ((data.getD (j / 2) 0).testBit (7 - (4 * (j % 2) + r)))
    rw [rts_frame_payload_getD, rts_payload_pair data j r hj hr,
      msb_at_testBit _ _ hd (by omega)]
    exact ⟨hs.1, hs.2.1, hs.2.2, rts_payload_lt data j hj⟩
  · rw [show 9 + 2 * i + 1 = 9 + (2 * i + 1) by omega, rts_frame_payload_getD,
      rts_frame_payload_getD, rts_payload_getD data (2 * i) (by omega),
      rts_payload_getD data (2 * i + 1) (by omega), if_pos (by omega), if_neg (by omega),
      show 2 * i / 2 = i by omega, show (2 * i + 1) / 2 = i by omega]
    exact ⟨rfl, rfl⟩
  · rw [rts_frame_drop, rts_payload_length]
  · rw [rts_frame_drop, rts_decode_payload data hlen hb]
  · intro g2 data2 hlen2 hb2 heq
    rw [rts_frame_drop, rts_frame_drop] at heq
    rw [← rts_decode_payload data hlen hb, ← rts_decode_payload data2 hlen2 hb2, heq]

set_option maxRecDepth 100000 in
/-- C21 at a concrete payload: the bytes 0xA5 and 0x0F expand to 66 99 and AA 55, and
the payload is read back from the frame. -/
theorem rts_payload_pairs_witness :
    ([0xa5, 0x0f, 0, 0, 0, 0, 0xff] : List Nat).length = 7 ∧
    (∀ x ∈ ([0xa5, 0x0f, 0, 0, 0, 0, 0xff] : List Nat), x < 256) ∧
    ((rts_frame abRts_FrameArray [0xa5, 0x0f, 0, 0, 0, 0, 0xff]).drop 9).take 4 =
      [0x66, 0x99, 0xaa, 0x55] ∧
    rts_decode ((rts_frame abRts_FrameArray [0xa5, 0x0f, 0, 0, 0, 0, 0xff]).drop 9) =
      [0xa5, 0x0f, 0, 0, 0, 0, 0xff] :=
  ⟨rfl, by decide, by decide,
    (rts_payload_pairs abRts_FrameArray [0xa5, 0x0f, 0, 0, 0, 0, 0xff] rfl
      (by decide)).2.2.2.1⟩

/-! ## C23: the frame does not depend on the earlier contents of the array -/

/-- C23: the frame `sx1231_rts_send` transmits depends only on its data argument: two
states `g`, `g2` of the global array that agree on the nine sync bytes (they may differ
anywhere in 9..22) give the identical 23-byte frame for the same `data`, bytes 9..22 of
it being the payload bytes of `data` whatever either state held, so nothing of an earlier
payload is left in it; the runs of `sx1231_rts_send` from the two states are the same,
with every call of `rf_send` getting that frame; after any two histories of earlier calls
the frame is the same; and a second call with the same data, entered with the array the
first left, sends the same frame again. -/
theorem rts_frame_fresh (g g2 : Mem) (data : List Nat) (hsync : ∀ q, q < 9 → g q = g2 q) :
    rts_frame g data = rts_frame g2 data ∧
    (rts_frame g data).length = 23 ∧
    (rts_frame g data).drop 9 = rts_payload data ∧
    (rts_frame g2 data).drop 9 = rts_payload data ∧
    (∀ bus fuel dev long_press n,
      (sx1231_rts_send bus fuel g dev data long_press n).1 =
        (sx1231_rts_send bus fuel g2 dev data long_press n).1 ∧
      ∀ c ∈ (sx1231_rts_send bus fuel g2 dev data long_press n).1.2,
        c.1 = rts_frame g data) ∧
    (∀ prev prev2 : List (List Nat),
      rts_frame (rts_state prev) data = rts_frame (rts_state prev2) data) ∧
    (∀ bus fuel dev long_press n bus2 fuel2 dev2 long_press2 n2,
      ∀ c ∈ (sx1231_rts_send bus2 fuel2 (sx1231_rts_send bus fuel g dev data long_press n).2
          dev2 data long_press2 n2).1.2,
        c.1 = rts_frame g data) := by
  have hfr := rts_frame_congr g g2 data hsync
  refine ⟨hfr, bytes_of_length _ _, rts_frame_drop g data, rts_frame_drop g2 data, ?_, ?_, ?_⟩
  · intro bus fuel dev long_press n
    have hb : bytes_of (rts_encode g data).1 bRts_MaxFrameSize_c =
        bytes_of (rts_encode g2 data).1 bRts_MaxFrameSize_c := hfr
    refine ⟨?_, fun c hc => ?_⟩
    · simp only [sx1231_rts_send, hb]
    · rw [(send_loop_spec bus fuel dev _ _ n).1 c hc]
      exact hfr.symm
  · intro prev prev2
    exact rts_frame_congr _ _ data fun q hq => by
      rw [rts_state_sync prev q hq, rts_state_sync prev2 q hq]
  · intro bus fuel dev long_press n bus2 fuel2 dev2 long_press2 n2 c hc
    rw [(send_loop_spec bus2 fuel2 dev2 _ _ n2).1 c hc]
    exact rts_frame_congr _ g data fun q hq => (rts_encode_spec g data).2.1 q (Or.inl hq)

set_option maxRecDepth 100000 in
/-- C23 at concrete states: the initial array and the array left by a call with the
payload FF FF FF FF FF FF FF differ at index 9 and give the same frame for the payload
01 02 03 04 05 06 07. -/
theorem rts_frame_fresh_witness :
    (∀ q, q < 9 → abRts_FrameArray q = rts_state [[0xff, 0xff, 0xff, 0xff, 0xff, 0xff, 0xff]] q) ∧
    abRts_FrameArray 9 ≠ rts_state [[0xff, 0xff, 0xff, 0xff, 0xff, 0xff, 0xff]] 9 ∧
    rts_frame abRts_FrameArray [1, 2, 3, 4, 5, 6, 7] =
      rts_frame (rts_state [[0xff, 0xff, 0xff, 0xff, 0xff, 0xff, 0xff]]) [1, 2, 3, 4, 5, 6, 7] :=
  ⟨by decide, by decide,
    (rts_frame_fresh abRts_FrameArray (rts_state [[0xff, 0xff, 0xff, 0xff, 0xff, 0xff, 0xff]])
      [1, 2, 3, 4, 5, 6, 7] (by decide)).1⟩

end SX1231
